import Mathlib

/-!
# Attachment subsystem of the hub (`hub::service::AttachmentService`)

A shallow embedding of `src/hub/service/attachment_service.cc` together with the
interface it consumes from `src/hub/iota/api.h`.

* The ledger client (`IotaAPI`), the POW provider and the DB connection are external
  collaborators.  They are embedded as a record `World σ` of state transformers over an
  arbitrary collaborator state `σ`; each call either returns a value or raises a
  `std::exception` (carried as its `what()` string).  Quantifying over `σ` and over the
  record covers every deterministic or history dependent behaviour of the collaborators.
* The controller is embedded as programs `Prog σ α` over `Sys σ`, the collaborator state
  together with the trace of collaborator calls made so far.
* `LOG(FATAL)` aborts the process (outcome `fatal`); dereferencing `end()` or indexing an
  empty vector is undefined behaviour (outcome `undef`).  Neither can be caught.
* Exceptions are the ones derived from `std::exception`, the only ones the handlers in
  `doTick` name.
-/

namespace hub

/-! ## Data model (`src/hub/iota/api.h`) -/

/-- Ledger view of a transaction: `hub::iota::Transaction`. -/
structure Transaction where
  hash : String
  address : String
  value : Int
  timestamp : Int
  currentIndex : Int
  lastIndex : Int
  bundleHash : String
  trunk : String
deriving DecidableEq, Repr

/-- Node status: `hub::iota::NodeInfo`. -/
structure NodeInfo where
  latestMilestone : String
  latestMilestoneIndex : Nat
  latestSolidMilestoneIndex : Nat
deriving DecidableEq, Repr

/-- A `std::unordered_set<std::string>`: its elements in iteration order (the element at
`cbegin()` first).  The container holds no duplicates; the iteration order is whatever
the implementation produced. -/
structure UnorderedSet where
  elems : List String
  nodup : elems.Nodup

/-- Number of elements: `size()`. -/
def UnorderedSet.size (s : UnorderedSet) : Nat := s.elems.length

/-- Membership test: `find(x) != end()`. -/
def UnorderedSet.contains (s : UnorderedSet) (x : String) : Bool := decide (x ∈ s.elems)

/-- The fields of `db::Sweep` that the service reads (`sweep.id`, `sweep.bundleHash`,
`sweep.trytes`); the structure itself is only forward declared in
`attachment_service.h`. -/
structure Sweep where
  id : Nat
  bundleHash : String
  trytes : String
deriving DecidableEq, Repr

/-- The transaction that `promoteSweep` builds with `setAddress`, `setValue` and
`setTimestamp` before handing it to the bundle library. -/
structure PromotionTx where
  address : String
  value : Int
  timestamp : Int
deriving DecidableEq, Repr

/-- Address literal of `promoteSweep` (81 trytes). -/
def promotionAddress : String :=
  "SOME9RANDOM9HUB9BEING9REATTACHED9999999999999999999999999999999999999999" ++ "999999999"

/-! ## Collaborator calls -/

/-- One collaborator call, with the arguments the service passed. -/
inductive Event where
  | getNodeInfo
  | getUnconfirmedSweeps (tickStart : Int)
  | beginTransaction
  | commit
  | rollback
  | releaseTransaction
  | getTailsForSweep (sweepId : Nat)
  | createTail (sweepId : Nat) (tail : String)
  | markTailAsConfirmed (tail : String)
  | filterConfirmedTails (tails : List String) (reference : Option String)
  | filterConsistentTails (tails : List String)
  | findTransactions (addresses : Option (List String)) (bundles : Option (List String))
  | getTrytes (hashes : List String)
  | getTransactionsToApprove (depth : Nat) (reference : Option String)
  | storeTransactions (trytes : List String)
  | broadcastTransactions (trytes : List String)
  | performPOW (trytes : String)
  | doPOW (trytes : List String) (trunk : String) (branch : String)
  | logFatal
deriving DecidableEq, Repr

/-- Calls that publish to the ledger or do proof of work. -/
def Event.isPublication : Event → Bool
  | .storeTransactions _ => true
  | .broadcastTransactions _ => true
  | .performPOW _ => true
  | .doPOW _ _ _ => true
  | _ => false

/-- Is the call a `createTail`? -/
def Event.isCreateTail : Event → Bool
  | .createTail _ _ => true
  | _ => false

/-- Is the call a `markTailAsConfirmed`? -/
def Event.isMark : Event → Bool
  | .markTailAsConfirmed _ => true
  | _ => false

/-- Events of Steps A and B that are neither a confirmation flip, nor a publication, nor
a commit. -/
def Event.isQuiet (e : Event) : Bool :=
  !e.isMark && !e.isPublication && !decide (e = .commit)

/-- The collaborators of the service over a collaborator state `σ`.  A call returns
`Except.ok` with its value or `Except.error` with the `what()` of the exception it
raised, and the next collaborator state. -/
structure World (σ : Type) where
  /-- `std::chrono::system_clock::now()`, in seconds. -/
  now : σ → Int
  /-- `iota_digest` of `common/helpers/digest.h`. -/
  iota_digest : String → String
  /-- The bundle library: trytes of the first transaction of the finalized bundle. -/
  toTrytes : PromotionTx → String
  getNodeInfo : σ → Except String NodeInfo × σ
  getUnconfirmedSweeps : Int → σ → Except String (List Sweep) × σ
  transaction : σ → Except String Unit × σ
  commit : σ → Except String Unit × σ
  rollback : σ → Except String Unit × σ
  /-- Scope exit of the transaction handle. -/
  release : σ → σ
  getTailsForSweep : Nat → σ → Except String (List String) × σ
  createTail : Nat → String → σ → Except String Unit × σ
  markTailAsConfirmed : String → σ → Except String Unit × σ
  filterConfirmedTails : List String → Option String → σ → Except String UnorderedSet × σ
  filterConsistentTails : List String → σ → Except String UnorderedSet × σ
  findTransactions :
    Option (List String) → Option (List String) → σ → Except String (List String) × σ
  getTrytes : List String → σ → Except String (List Transaction) × σ
  getTransactionsToApprove : Nat → Option String → σ → Except String (String × String) × σ
  storeTransactions : List String → σ → Except String Bool × σ
  broadcastTransactions : List String → σ → Except String Bool × σ
  performPOW : String → σ → Except String (List String) × σ
  doPOW : List String → String → String → σ → Except String (List String) × σ

/-! ## Programs -/

/-- How a piece of the service ends. -/
inductive Outcome (α : Type) where
  | ok (a : α)
  | raise (what : String)
  | fatal
  | undef
deriving DecidableEq, Repr

/-- Collaborator state and the calls made so far, oldest first. -/
structure Sys (σ : Type) where
  st : σ
  trace : List Event

/-- A program of the service. -/
def Prog (σ α : Type) : Type := Sys σ → Outcome α × Sys σ

/-- Sequencing: an exception, an abort or undefined behaviour ends the program. -/
def Prog.bind {σ α β : Type} (x : Prog σ α) (f : α → Prog σ β) : Prog σ β := fun s =>
  match x s with
  | (.ok a, s1) => f a s1
  | (.raise e, s1) => (.raise e, s1)
  | (.fatal, s1) => (.fatal, s1)
  | (.undef, s1) => (.undef, s1)

instance {σ : Type} : Monad (Prog σ) where
  pure a := fun s => (.ok a, s)
  bind := Prog.bind

/-- A collaborator call: the call is recorded, then its result is returned or its
exception propagates. -/
def call {σ α : Type} (ev : Event) (op : σ → Except String α × σ) : Prog σ α := fun s =>
  match op s.st with
  | (.ok a, st1) => (.ok a, ⟨st1, s.trace ++ [ev]⟩)
  | (.error e, st1) => (.raise e, ⟨st1, s.trace ++ [ev]⟩)

/-- The statement `LOG(FATAL) << ...`: the process is aborted. -/
def logFatal {σ α : Type} : Prog σ α := fun s => (.fatal, ⟨s.st, s.trace ++ [.logFatal]⟩)

/-- Undefined behaviour. -/
def undefinedBehaviour {σ α : Type} : Prog σ α := fun s => (.undef, s)

/-- The block `try { body } catch (const std::exception& ex) { handler }`, for
collaborators that throw nothing but exceptions derived from `std::exception`: this is
how `Except.error` is read in `World`, and every `raise` is then caught.
`AnyThrowable.tryCatch` is the block without that assumption. -/
def tryCatch {σ α : Type} (body : Prog σ α) (handler : String → Prog σ α) : Prog σ α :=
  fun s =>
    match body s with
    | (.raise e, s1) => handler e s1
    | r => r

/-- Reading `std::chrono::system_clock::now()`. -/
def readClock {σ : Type} (W : World σ) : Prog σ Int := fun s => (.ok (W.now s.st), s)

/-- Scope exit of the local `transaction` at the end of a loop iteration. -/
def releaseTransaction {σ : Type} (W : World σ) : Prog σ Unit := fun s =>
  (.ok (), ⟨W.release s.st, s.trace ++ [.releaseTransaction]⟩)

namespace AttachmentService

variable {σ : Type}

/-- Lines 22-40. -/
def checkSweepTailsForConfirmation (W : World σ) (_sweep : Sweep) (tails : List String) :
    Prog σ Bool := do
  let confirmedTails ← call (.filterConfirmedTails tails none) (W.filterConfirmedTails tails none)
  if confirmedTails.size = 1 then
    match confirmedTails.elems with
    | tail :: _ =>
      call (.markTailAsConfirmed tail) (W.markTailAsConfirmed tail)
      pure true
    | [] => undefinedBehaviour
  else if confirmedTails.size > 1 then
    logFatal
  else
    pure false

/-- The predicate of the `remove_if` at lines 50-60. -/
def notNewTail (knownTails : List String) (tx : Transaction) : Bool :=
  tx.currentIndex != 0 || decide (tx.hash ∈ knownTails)

/-- The `erase`/`remove_if` of lines 50-60: the transactions that are tails and whose hash
is not among the known tails, in their original order. -/
def removeKnown (knownTails : List String) (txs : List Transaction) : List Transaction :=
  txs.filter (fun tx => !notNewTail knownTails tx)

/-- The loop of lines 87-90 over the elements of the set, in iteration order. -/
def insertTails (W : World σ) (sweepId : Nat) : List String → Prog σ Unit
  | [] => pure ()
  | tail :: rest => do
    call (.createTail sweepId tail) (W.createTail sweepId tail)
    insertTails W sweepId rest

/-- Lines 42-94. -/
def checkForUserReattachment (W : World σ) (sweep : Sweep) (knownTails : List String) :
    Prog σ Bool := do
  let bundleTransactionHashes ←
    call (.findTransactions none (some [sweep.bundleHash]))
      (W.findTransactions none (some [sweep.bundleHash]))
  let fetched ← call (.getTrytes bundleTransactionHashes) (W.getTrytes bundleTransactionHashes)
  let bundleTransactions := removeKnown knownTails fetched
  if bundleTransactions.length ≠ 0 then
    let userTails := bundleTransactions.map (fun ref => ref.hash)
    let confirmedTails ←
      call (.filterConfirmedTails userTails none) (W.filterConfirmedTails userTails none)
    if confirmedTails.size ≠ 0 then
      match confirmedTails.elems with
      | tail :: _ =>
        call (.createTail sweep.id tail) (W.createTail sweep.id tail)
        call (.markTailAsConfirmed tail) (W.markTailAsConfirmed tail)
        pure true
      | [] => undefinedBehaviour
    else
      let consistentTails ←
        call (.filterConsistentTails userTails) (W.filterConsistentTails userTails)
      if consistentTails.size ≠ 0 then
        insertTails W sweep.id consistentTails.elems
      pure false
  else
    pure false

/-- Lines 96-108. -/
def reattachSweep (W : World σ) (sweep : Sweep) : Prog σ Unit := do
  let attachedTrytes ← call (.performPOW sweep.trytes) (W.performPOW sweep.trytes)
  match attachedTrytes with
  | [] => undefinedBehaviour
  | first :: _ =>
    let tailHash := W.iota_digest first
    let _ ← call (.storeTransactions attachedTrytes) (W.storeTransactions attachedTrytes)
    let _ ← call (.broadcastTransactions attachedTrytes) (W.broadcastTransactions attachedTrytes)
    call (.createTail sweep.id tailHash) (W.createTail sweep.id tailHash)

/-- Lines 110-141. -/
def promoteSweep (W : World σ) (_sweep : Sweep) (tailHash : String) : Prog σ Unit := do
  let toApprove ←
    call (.getTransactionsToApprove 0 (some tailHash))
      (W.getTransactionsToApprove 0 (some tailHash))
  let timestamp ← readClock W
  let otx : PromotionTx := { address := promotionAddress, value := 0, timestamp := timestamp }
  let tx := W.toTrytes otx
  let attachedTrytes ← call (.doPOW [tx] toApprove.1 toApprove.2) (W.doPOW [tx] toApprove.1 toApprove.2)
  let _ ← call (.storeTransactions attachedTrytes) (W.storeTransactions attachedTrytes)
  let _ ← call (.broadcastTransactions attachedTrytes) (W.broadcastTransactions attachedTrytes)
  pure ()

/-- The `std::find_if` of lines 183-187: the first element of `sweepTails`, from
`begin()`, that is found in `consistentTails`; `none` stands for `end()`. -/
def toPromote (sweepTails : List String) (consistentTails : UnorderedSet) : Option String :=
  sweepTails.find? (fun tail => consistentTails.contains tail)

/-- Step 5 of `doTick`, lines 178-196: promote the tail found by `std::find_if`, or
reattach. -/
def promoteOrReattach (W : World σ) (sweep : Sweep) : Prog σ Unit := do
  let sweepTails ← call (.getTailsForSweep sweep.id) (W.getTailsForSweep sweep.id)
  let consistentTails ←
    call (.filterConsistentTails sweepTails) (W.filterConsistentTails sweepTails)
  if consistentTails.size > 0 then
    match toPromote sweepTails consistentTails with
    | some tail => promoteSweep W sweep tail
    | none => undefinedBehaviour
  else
    reattachSweep W sweep

/-- Steps 2 to 4 of `doTick`, lines 165-171: read the tails and evaluate the condition
`checkSweepTailsForConfirmation(..) || checkForUserReattachment(..)`. -/
def confirmationSteps (W : World σ) (sweep : Sweep) : Prog σ Bool := do
  let initialSweepTails ← call (.getTailsForSweep sweep.id) (W.getTailsForSweep sweep.id)
  let direct ← checkSweepTailsForConfirmation W sweep initialSweepTails
  if direct then pure true else checkForUserReattachment W sweep initialSweepTails

/-- The body of the `try` block of `doTick`, lines 164-202: the per-sweep protocol
followed by `transaction->commit()`. -/
def perSweepProtocol (W : World σ) (sweep : Sweep) : Prog σ Unit := do
  let confirmed ← confirmationSteps W sweep
  if confirmed then
    pure ()
  else
    promoteOrReattach W sweep
  call .commit W.commit

/-- The `catch` block of `doTick`, lines 203-212. -/
def rollbackHandler (W : World σ) : Prog σ Unit :=
  tryCatch (call .rollback W.rollback) (fun _ => pure ())

/-- One iteration of the loop of `doTick`, lines 160-213. -/
def processSweep (W : World σ) (sweep : Sweep) : Prog σ Unit := do
  call .beginTransaction W.transaction
  tryCatch (perSweepProtocol W sweep) (fun _ => rollbackHandler W)
  releaseTransaction W

/-- The loop `for (const auto& sweep : unconfirmedSweeps)`. -/
def processSweeps (W : World σ) : List Sweep → Prog σ Unit
  | [] => pure ()
  | sweep :: rest => do
    processSweep W sweep
    processSweeps W rest

/-- Lines 143-216. -/
def doTick (W : World σ) : Prog σ Bool := do
  let tickStart ← readClock W
  let _milestone ← call .getNodeInfo W.getNodeInfo
  let unconfirmedSweeps ←
    call (.getUnconfirmedSweeps tickStart) (W.getUnconfirmedSweeps tickStart)
  processSweeps W unconfirmedSweeps
  pure true

end AttachmentService

/-! ## The database gateway -/

/-- Row of the table `sweep_tails(sweep_id, tail_hash, created_at, confirmed)`.  Rows are
kept in insertion order, which stands for `created_at`. -/
structure SweepTail where
  sweepId : Nat
  hash : String
  confirmed : Bool
deriving DecidableEq, Repr

/-- Modelled from the spec: the database behind `db::Connection` (sections 4.3 and 6),
whose code is not under src/.  `sweeps` is the table of sweeps with their creation time,
`committed` holds the rows of `sweep_tails` visible outside the open transaction,
`working` the rows as the connection sees them (the committed rows and its own
uncommitted writes), and `history` records the working rows after every write. -/
structure Database where
  sweeps : List (Sweep × Int)
  committed : List SweepTail
  working : List SweepTail
  history : List (List SweepTail)

/-- Does sweep `id` have a tail with `confirmed = true` among `rows`? -/
def hasConfirmedTail (rows : List SweepTail) (id : Nat) : Bool :=
  rows.any (fun r => decide (r.sweepId = id) && r.confirmed)

/-- Modelled from the spec: `create-tail`, upsert-if-absent; a duplicate insert changes
nothing, a new row is appended unconfirmed. -/
def insertTail (rows : List SweepTail) (id : Nat) (hash : String) : List SweepTail :=
  if rows.any (fun r => decide (r.sweepId = id) && decide (r.hash = hash)) then rows
  else rows ++ [⟨id, hash, false⟩]

/-- Modelled from the spec: `mark-tail-as-confirmed` flips the flag of the rows with that
tail hash. -/
def confirmTail (rows : List SweepTail) (hash : String) : List SweepTail :=
  rows.map (fun r => if r.hash = hash then { r with confirmed := true } else r)

namespace Database

/-- Modelled from the spec: `get-tails-for-sweep`, the tail hashes of the sweep, most
recent last. -/
def getTailsForSweep (db : Database) (id : Nat) : List String :=
  (db.working.filter (fun r => decide (r.sweepId = id))).map (fun r => r.hash)

/-- Modelled from the spec: `get-unconfirmed-sweeps(as-of)`, the sweeps created before
`asOf` that have no confirmed tail. -/
def getUnconfirmedSweeps (db : Database) (asOf : Int) : List Sweep :=
  (db.sweeps.filter (fun p => decide (p.2 < asOf) && !hasConfirmedTail db.committed p.1.id)).map
    (fun p => p.1)

/-- Modelled from the spec: `begin-transaction`. -/
def beginTransaction (db : Database) : Database := { db with working := db.committed }

/-- Modelled from the spec: a successful `commit()` makes the writes visible. -/
def commit (db : Database) : Database := { db with committed := db.working }

/-- Modelled from the spec: `rollback()` discards the writes; a handle released without
commit rolls back as well. -/
def rollback (db : Database) : Database := { db with working := db.committed }

/-- Modelled from the spec: `create-tail(sweep-id, tail-hash)`. -/
def createTail (db : Database) (id : Nat) (hash : String) : Database :=
  { db with
    working := insertTail db.working id hash
    history := db.history ++ [insertTail db.working id hash] }

/-- Modelled from the spec: `mark-tail-as-confirmed(tail-hash)`; `none` when no row has
the hash (`UnknownTail`). -/
def markTailAsConfirmed (db : Database) (hash : String) : Option Database :=
  if db.working.any (fun r => decide (r.hash = hash)) then
    some { db with
      working := confirmTail db.working hash
      history := db.history ++ [confirmTail db.working hash] }
  else none

end Database

/-- A call of the ledger client or of the POW provider: it does not touch the database. -/
def remoteCall {τ α : Type} (op : τ → Except String α × τ) :
    Database × τ → Except String α × (Database × τ) := fun s =>
  match op s.2 with
  | (r, t) => (r, (s.1, t))

/-- A call of the DB gateway: `fault` decides whether the call fails with a transient
error, which leaves the database as it is; otherwise `run` is applied. -/
def dbCall {τ α β : Type} (fault : τ → Except String β × τ)
    (run : Database → Except String α × Database) :
    Database × τ → Except String α × (Database × τ) := fun s =>
  match fault s.2 with
  | (.error e, t) => (.error e, (s.1, t))
  | (.ok _, t) =>
    match run s.1 with
    | (r, db) => (r, (db, t))

/-- Modelled from the spec: the collaborators with the database above in the place of the
DB gateway.  The ledger client and the POW provider are those of `R`; the DB calls of
`R` only decide whether a DB call fails with a transient error. -/
def dbWorld {τ : Type} (R : World τ) : World (Database × τ) where
  now := fun s => R.now s.2
  iota_digest := R.iota_digest
  toTrytes := R.toTrytes
  getNodeInfo := remoteCall R.getNodeInfo
  getUnconfirmedSweeps := fun asOf =>
    dbCall (R.getUnconfirmedSweeps asOf) (fun db => (.ok (db.getUnconfirmedSweeps asOf), db))
  transaction := dbCall R.transaction (fun db => (.ok (), db.beginTransaction))
  commit := dbCall R.commit (fun db => (.ok (), db.commit))
  rollback := dbCall R.rollback (fun db => (.ok (), db.rollback))
  release := fun s => (s.1.rollback, R.release s.2)
  getTailsForSweep := fun id =>
    dbCall (R.getTailsForSweep id) (fun db => (.ok (db.getTailsForSweep id), db))
  createTail := fun id hash =>
    dbCall (R.createTail id hash) (fun db => (.ok (), db.createTail id hash))
  markTailAsConfirmed := fun hash =>
    dbCall (R.markTailAsConfirmed hash) (fun db =>
      match db.markTailAsConfirmed hash with
      | some db1 => (.ok (), db1)
      | none => (.error "UnknownTail", db))
  filterConfirmedTails := fun tails reference =>
    remoteCall (R.filterConfirmedTails tails reference)
  filterConsistentTails := fun tails => remoteCall (R.filterConsistentTails tails)
  findTransactions := fun addresses bundles => remoteCall (R.findTransactions addresses bundles)
  getTrytes := fun hashes => remoteCall (R.getTrytes hashes)
  getTransactionsToApprove := fun depth reference =>
    remoteCall (R.getTransactionsToApprove depth reference)
  storeTransactions := fun trytes => remoteCall (R.storeTransactions trytes)
  broadcastTransactions := fun trytes => remoteCall (R.broadcastTransactions trytes)
  performPOW := fun trytes => remoteCall (R.performPOW trytes)
  doPOW := fun trytes trunk branch => remoteCall (R.doPOW trytes trunk branch)

/-- At most one tail of sweep `id` is confirmed among `rows`. -/
def atMostOneConfirmed (rows : List SweepTail) (id : Nat) : Prop :=
  (rows.filter (fun r => decide (r.sweepId = id) && r.confirmed)).length ≤ 1

/-! ## Concrete collaborators -/

/-- The empty `std::unordered_set`. -/
def UnorderedSet.empty : UnorderedSet := ⟨[], List.nodup_nil⟩

/-- A world without state in which every call returns and nothing is found. -/
def quietWorld : World Unit where
  now := fun _ => 0
  iota_digest := fun trytes => "digest:" ++ trytes
  toTrytes := fun tx => "tx:" ++ tx.address
  getNodeInfo := fun st => (.ok ⟨"M", 0, 0⟩, st)
  getUnconfirmedSweeps := fun _ st => (.ok [], st)
  transaction := fun st => (.ok (), st)
  commit := fun st => (.ok (), st)
  rollback := fun st => (.ok (), st)
  release := fun st => st
  getTailsForSweep := fun _ st => (.ok [], st)
  createTail := fun _ _ st => (.ok (), st)
  markTailAsConfirmed := fun _ st => (.ok (), st)
  filterConfirmedTails := fun _ _ st => (.ok UnorderedSet.empty, st)
  filterConsistentTails := fun _ st => (.ok UnorderedSet.empty, st)
  findTransactions := fun _ _ st => (.ok [], st)
  getTrytes := fun _ st => (.ok [], st)
  getTransactionsToApprove := fun _ _ st => (.ok ("X", "Y"), st)
  storeTransactions := fun _ st => (.ok true, st)
  broadcastTransactions := fun _ st => (.ok true, st)
  performPOW := fun trytes st => (.ok [trytes], st)
  doPOW := fun trytes _ _ st => (.ok trytes, st)

/-- Sweep `S1` of the scenarios. -/
def sweepS1 : Sweep := ⟨1, "B", "TRYTES"⟩

/-- Scenario 1: tails `[T1, T2]`, the ledger reports `T2` confirmed. -/
def directConfirmWorld : World Unit :=
  { quietWorld with
    getTailsForSweep := fun _ st => (.ok ["T1", "T2"], st)
    filterConfirmedTails := fun _ _ st => (.ok ⟨["T2"], by decide⟩, st) }

/-- Scenario 6: the ledger reports both tails confirmed. -/
def doubleConfirmWorld : World Unit :=
  { quietWorld with
    getTailsForSweep := fun _ st => (.ok ["T1", "T2"], st)
    filterConfirmedTails := fun _ _ st => (.ok ⟨["T1", "T2"], by decide⟩, st) }

/-- A transaction of bundle `B` with the given hash and index. -/
def bundleTx (hash : String) (index : Int) : Transaction :=
  ⟨hash, "ADDR", 0, 0, index, 1, "B", "TRUNK"⟩

/-- Scenario 2: known tails `[T1]`, the bundle has the tails `T1` and `U1` on the ledger,
and `U1` is confirmed. -/
def userConfirmWorld : World Unit :=
  { quietWorld with
    getTailsForSweep := fun _ st => (.ok ["T1"], st)
    findTransactions := fun _ _ st => (.ok ["T1", "U1", "U1b"], st)
    getTrytes := fun _ st => (.ok [bundleTx "T1" 0, bundleTx "U1" 0, bundleTx "U1b" 1], st)
    filterConfirmedTails := fun tails _ st =>
      (.ok (if tails = ["U1"] then ⟨["U1"], by decide⟩ else UnorderedSet.empty), st) }

/-- The promotion choice in the words of the spec: the most recent element of the re-read
tails that is also in the consistent set, the tails being ordered most recent last. -/
def specPromotionChoice (known : List String) (consistent : UnorderedSet) : Option String :=
  (known.filter (fun tail => consistent.contains tail)).getLast?

/-- Two known tails `[T1, T2]`, `T2` the most recent, both still promotable. -/
def twoConsistentWorld : World Unit :=
  { quietWorld with
    getTailsForSweep := fun _ st => (.ok ["T1", "T2"], st)
    filterConsistentTails := fun _ st => (.ok ⟨["T2", "T1"], by decide⟩, st) }

/-- Scenario 4: known tails `[T1]`, nothing confirmed, nothing promotable. -/
def reattachWorld : World Unit :=
  { quietWorld with getTailsForSweep := fun _ st => (.ok ["T1"], st) }

/-- Scenario 3: known tails `[T1]`, `T1` promotable, tips `(X, Y)`. -/
def promoteWorld : World Unit :=
  { quietWorld with
    getTailsForSweep := fun _ st => (.ok ["T1"], st)
    filterConsistentTails := fun _ st => (.ok ⟨["T1"], by decide⟩, st) }

/-- Scenario 4 with a ledger node whose `storeTransactions` raises. -/
def storeRaisesWorld : World Unit :=
  { reattachWorld with storeTransactions := fun _ st => (.error "PublicationFailed", st) }

/-- The database of the scenarios: sweep `S1` with the unconfirmed tail `T1`. -/
def databaseS1 : Database :=
  ⟨[(sweepS1, -1)], [⟨1, "T1", false⟩], [⟨1, "T1", false⟩], []⟩

/-- Sweep `S2`. -/
def sweepS2 : Sweep := ⟨2, "B2", "TRYTES2"⟩

/-- Two unconfirmed sweeps; publication raises and so does every rollback. -/
def failingWorld : World Unit :=
  { storeRaisesWorld with
    getUnconfirmedSweeps := fun _ st => (.ok [sweepS1, sweepS2], st)
    rollback := fun st => (.error "RollbackFailed", st) }

/-- A ledger node that reports the tail `H` for every bundle, and `H` as confirmed. -/
def sharedHashWorld : World Unit :=
  { quietWorld with
    findTransactions := fun _ _ st => (.ok ["H"], st)
    getTrytes := fun _ st => (.ok [⟨"H", "ADDR", 0, 0, 0, 1, "B2", "TRUNK"⟩], st)
    filterConfirmedTails := fun tails _ st =>
      (.ok (if tails = ["H"] then ⟨["H"], by decide⟩ else UnorderedSet.empty), st) }

/-- Sweep 1 is confirmed through its tail `T1` and has a second, unconfirmed tail `H`;
sweep 2 is unconfirmed with the tail `T2`. -/
def sharedHashDatabase : Database :=
  ⟨[(sweepS1, -1), (sweepS2, -1)],
    [⟨1, "T1", true⟩, ⟨1, "H", false⟩, ⟨2, "T2", false⟩],
    [⟨1, "T1", true⟩, ⟨1, "H", false⟩, ⟨2, "T2", false⟩], []⟩

/-! ## Assertions -/

/-- From a state satisfying `P`, the outcome and the final state of `p` satisfy `Q`.
Programs are total, so this is a statement about every run. -/
def Triple {σ α : Type} (P : Sys σ → Prop) (p : Prog σ α) (Q : Outcome α → Sys σ → Prop) :
    Prop :=
  ∀ s, P s → Q (p s).1 (p s).2

/-- The predicate `I` on the collaborator state is kept by every call that the per-sweep
protocol makes before its commit, `markTailAsConfirmed` apart. -/
structure StableUnder {σ : Type} (W : World σ) (I : σ → Prop) : Prop where
  getTailsForSweep : ∀ id st, I st → I (W.getTailsForSweep id st).2
  createTail : ∀ id hash st, I st → I (W.createTail id hash st).2
  filterConfirmedTails : ∀ tails reference st, I st →
    I (W.filterConfirmedTails tails reference st).2
  filterConsistentTails : ∀ tails st, I st → I (W.filterConsistentTails tails st).2
  findTransactions : ∀ addresses bundles st, I st →
    I (W.findTransactions addresses bundles st).2
  getTrytes : ∀ hashes st, I st → I (W.getTrytes hashes st).2
  getTransactionsToApprove : ∀ depth reference st, I st →
    I (W.getTransactionsToApprove depth reference st).2
  storeTransactions : ∀ trytes st, I st → I (W.storeTransactions trytes st).2
  broadcastTransactions : ∀ trytes st, I st → I (W.broadcastTransactions trytes st).2
  performPOW : ∀ trytes st, I st → I (W.performPOW trytes st).2
  doPOW : ∀ trytes trunk branch st, I st → I (W.doPOW trytes trunk branch st).2

/-! ## Invariants of the table `sweep_tails` -/

/-- The key `(sweep_id, tail_hash)` of a row. -/
def rowKey (r : SweepTail) : Nat × String := (r.sweepId, r.hash)

/-- No two rows have the same sweep and the same tail hash. -/
def KeysNodup (rows : List SweepTail) : Prop := (rows.map rowKey).Nodup

/-- No tail hash is recorded under two different sweeps. -/
def Unshared (rows : List SweepTail) : Prop :=
  ∀ r1 ∈ rows, ∀ r2 ∈ rows, r1.hash = r2.hash → r1.sweepId = r2.sweepId

/-- Every sweep has at most one tail with `confirmed = true`. -/
def AtMostOnePerSweep (rows : List SweepTail) : Prop := ∀ id, atMostOneConfirmed rows id

/-- The answers of `filterConfirmedTails` are subsets of the tails asked about, as the
interface says. -/
def SubsetContract {τ : Type} (R : World τ) : Prop :=
  ∀ tails reference st confirmed st1,
    R.filterConfirmedTails tails reference st = (.ok confirmed, st1) →
      ∀ x ∈ confirmed.elems, x ∈ tails

/-- State of a table while the sweeps `ids` are still to be processed: keys are unique
and, as long as no hash is shared between sweeps, every sweep has at most one confirmed
tail and the sweeps still to be processed have none. -/
def Good (rows : List SweepTail) (ids : List Nat) : Prop :=
  KeysNodup rows ∧
    (Unshared rows → AtMostOnePerSweep rows ∧ ∀ id ∈ ids, hasConfirmedTail rows id = false)

/-- Every recorded table in which no hash is shared has at most one confirmed tail per
sweep. -/
def Hist (history : List (List SweepTail)) : Prop :=
  ∀ rows ∈ history, Unshared rows → AtMostOnePerSweep rows

/-- Sweep `id` has a row with tail hash `hash`. -/
def HasRow (rows : List SweepTail) (id : Nat) (hash : String) : Prop :=
  ∃ r ∈ rows, r.sweepId = id ∧ r.hash = hash

/-- State of the database inside the transaction of a sweep: the committed table is good
for the sweeps `ids` that follow, the working table is good for the sweeps `idsW`, and
so was every table recorded so far. -/
def TxnInv (idsW ids : List Nat) (db : Database) : Prop :=
  Good db.committed ids ∧ Good db.working idsW ∧ Hist db.history

/-- State of the database between two transactions. -/
def Idle (ids : List Nat) (db : Database) : Prop :=
  Good db.committed ids ∧ Hist db.history

/-- The user tails in the words of the spec: of the transactions of the bundle, keep the
tails (`current-index = 0`) whose hash is not already known; their hashes, in the
original order. -/
def specUserTails (known : List String) (txs : List Transaction) : List String :=
  (txs.filter (fun tx => decide (tx.currentIndex = 0) && !decide (tx.hash ∈ known))).map
    (fun tx => tx.hash)

/-- Is the call a `filterConfirmedTails`? -/
def Event.isFilterConfirmed : Event → Bool
  | .filterConfirmedTails _ _ => true
  | _ => false

/-- Scenario 2 without a confirmation: the bundle has the unknown tails `U1` and `U2` on
the ledger, none confirmed, both consistent. -/
def userPendingWorld : World Unit :=
  { quietWorld with
    getTailsForSweep := fun _ st => (.ok ["T1"], st)
    findTransactions := fun _ _ st => (.ok ["T1", "U1", "U2"], st)
    getTrytes := fun _ st => (.ok [bundleTx "T1" 0, bundleTx "U1" 0, bundleTx "U2" 0], st)
    filterConsistentTails := fun _ st => (.ok ⟨["U2", "U1"], by decide⟩, st) }

/-- The bundle has the unknown tails `U1` and `U2`, both confirmed; the returned set
iterates as `U1`, `U2`. -/
def twoConfirmedWorldA : World Unit :=
  { quietWorld with
    findTransactions := fun _ _ st => (.ok ["U1", "U2"], st)
    getTrytes := fun _ st => (.ok [bundleTx "U1" 0, bundleTx "U2" 0], st)
    filterConfirmedTails := fun tails _ st =>
      (.ok (if tails = ["U1", "U2"] then ⟨["U1", "U2"], by decide⟩ else UnorderedSet.empty),
        st) }

/-- The same ledger, except that the returned set iterates as `U2`, `U1`. -/
def twoConfirmedWorldB : World Unit :=
  { twoConfirmedWorldA with
    filterConfirmedTails := fun tails _ st =>
      (.ok (if tails = ["U1", "U2"] then ⟨["U2", "U1"], by decide⟩ else UnorderedSet.empty),
        st) }

/-- A ledger node whose `getNodeInfo` fails with a transport error. -/
def nodeInfoFailsWorld : World Unit :=
  { quietWorld with getNodeInfo := fun st => (.error "LedgerUnavailable", st) }

/-- A database whose query for the unconfirmed sweeps fails. -/
def sweepQueryFailsWorld : World Unit :=
  { quietWorld with getUnconfirmedSweeps := fun _ st => (.error "DBTransient", st) }

/-- One unconfirmed sweep and a database connection that cannot open a transaction. -/
def beginFailsWorld : World Unit :=
  { quietWorld with
    getUnconfirmedSweeps := fun _ st => (.ok [sweepS1], st)
    transaction := fun st => (.error "DBTransient", st) }

/-- The ledger answers `filterConsistentTails` the same way for the same tail: a tail is
in an answer only if it is consistent, and a consistent tail that was asked about is in
the answer. -/
def ConsistencyOracle {τ : Type} (R : World τ) (isConsistent : String → Bool) : Prop :=
  ∀ tails st c st1, R.filterConsistentTails tails st = (.ok c, st1) →
    (∀ x ∈ c.elems, isConsistent x = true) ∧
      (∀ x ∈ tails, isConsistent x = true → x ∈ c.elems)

/-- Is the call a `performPOW`, the proof of work of a reattachment? -/
def Event.isPerformPOW : Event → Bool
  | .performPOW _ => true
  | _ => false

/-- State after Step B for sweep `S1` over the database of the scenarios and the ledger of
`userPendingWorld`: the user tails `U2` and `U1` were inserted. -/
def userPendingAfterStepB : Sys (Database × Unit) :=
  ⟨(⟨[(sweepS1, -1)], [⟨1, "T1", false⟩],
      [⟨1, "T1", false⟩, ⟨1, "U2", false⟩, ⟨1, "U1", false⟩],
      [[⟨1, "T1", false⟩, ⟨1, "U2", false⟩],
        [⟨1, "T1", false⟩, ⟨1, "U2", false⟩, ⟨1, "U1", false⟩]]⟩, ()),
    [.findTransactions none (some ["B"]), .getTrytes ["T1", "U1", "U2"],
      .filterConfirmedTails ["U1", "U2"] none, .filterConsistentTails ["U1", "U2"],
      .createTail 1 "U2", .createTail 1 "U1"]⟩

/-- The answers of `filterConsistentTails` are subsets of the tails asked about, as the
interface says. -/
def ConsistentSubsetContract {τ : Type} (R : World τ) : Prop :=
  ∀ tails st consistent st1,
    R.filterConsistentTails tails st = (.ok consistent, st1) →
      ∀ x ∈ consistent.elems, x ∈ tails

/-- Does some row of the table carry the tail hash? -/
def hasHash (rows : List SweepTail) (hash : String) : Bool :=
  rows.any (fun r => decide (r.hash = hash))

/-- Bookkeeping for the provenance of written tail hashes, kept beside the collaborators
and never read by the service: the tails returned by the last `getTailsForSweep`, the
user-tails of Step B for the sweep in progress, the hash `digest(attached[0])` of the
reattachment in progress, and whether some `createTail` or `markTailAsConfirmed` call
was made with a hash of another origin. -/
structure Provenance where
  known : List String
  userTails : List String
  reattached : Option String
  violated : Bool
deriving DecidableEq, Repr

/-- Nothing observed yet. -/
def Provenance.start : Provenance := ⟨[], [], none, false⟩

/-- Record a violation when the check of a call fails; a recorded violation stays. -/
def Provenance.judge (ok : Bool) (g : Provenance) : Provenance :=
  if ok then g else { g with violated := true }

/-- A collaborator call under observation: `check` judges the call from the database and
the bookkeeping at the time of the call, the call itself runs unchanged, and `learn`
records what a returned value teaches. -/
def observe {τ α : Type} (op : Database × τ → Except String α × (Database × τ))
    (check : Database → Provenance → Bool) (learn : α → Provenance → Provenance) :
    (Database × τ) × Provenance → Except String α × ((Database × τ) × Provenance) := fun s =>
  match op s.1 with
  | (.ok a, st) => (.ok a, (st, learn a (s.2.judge (check s.1.1 s.2))))
  | (.error e, st) => (.error e, (st, s.2.judge (check s.1.1 s.2)))

/-- A call that is neither judged nor teaches anything. -/
def observeOnly {τ α : Type} (op : Database × τ → Except String α × (Database × τ)) :
    (Database × τ) × Provenance → Except String α × ((Database × τ) × Provenance) :=
  observe op (fun _ _ => true) (fun _ g => g)

/-- The collaborators of `dbWorld R` under observation.  Every call behaves as in
`dbWorld R`.  A `createTail` call is judged: its hash must be one of the user-tails of
Step B, computed as in the spec from the tails read first and the transactions fetched,
or the digest of the first of the trytes returned by `performPOW`.  A
`markTailAsConfirmed` call is judged: its hash must be in the table at the time of the
call. -/
def provenanceWorld {τ : Type} (R : World τ) : World ((Database × τ) × Provenance) where
  now := fun s => (dbWorld R).now s.1
  iota_digest := R.iota_digest
  toTrytes := R.toTrytes
  getNodeInfo := observeOnly (dbWorld R).getNodeInfo
  getUnconfirmedSweeps := fun asOf => observeOnly ((dbWorld R).getUnconfirmedSweeps asOf)
  transaction := observe (dbWorld R).transaction (fun _ _ => true)
    (fun _ g => { g with known := [], userTails := [], reattached := none })
  commit := observeOnly (dbWorld R).commit
  rollback := observeOnly (dbWorld R).rollback
  release := fun s => ((dbWorld R).release s.1, s.2)
  getTailsForSweep := fun id => observe ((dbWorld R).getTailsForSweep id) (fun _ _ => true)
    (fun known g => { g with known := known })
  createTail := fun id hash => observe ((dbWorld R).createTail id hash)
    (fun _ g => decide (hash ∈ g.userTails) || decide (g.reattached = some hash))
    (fun _ g => g)
  markTailAsConfirmed := fun hash => observe ((dbWorld R).markTailAsConfirmed hash)
    (fun db _ => hasHash db.working hash) (fun _ g => g)
  filterConfirmedTails := fun tails reference =>
    observeOnly ((dbWorld R).filterConfirmedTails tails reference)
  filterConsistentTails := fun tails => observeOnly ((dbWorld R).filterConsistentTails tails)
  findTransactions := fun addresses bundles =>
    observeOnly ((dbWorld R).findTransactions addresses bundles)
  getTrytes := fun hashes => observe ((dbWorld R).getTrytes hashes) (fun _ _ => true)
    (fun fetched g => { g with userTails := specUserTails g.known fetched })
  getTransactionsToApprove := fun depth reference =>
    observeOnly ((dbWorld R).getTransactionsToApprove depth reference)
  storeTransactions := fun trytes => observeOnly ((dbWorld R).storeTransactions trytes)
  broadcastTransactions := fun trytes =>
    observeOnly ((dbWorld R).broadcastTransactions trytes)
  performPOW := fun trytes => observe ((dbWorld R).performPOW trytes) (fun _ _ => true)
    (fun attached g => { g with reattached := attached.head?.map R.iota_digest })
  doPOW := fun trytes trunk branch => observeOnly ((dbWorld R).doPOW trytes trunk branch)

/-- A ledger node that breaks the subset contract: the bundle has the unknown tail `U1`,
and asked which of `[U1]` are confirmed the node answers with the hash `Z`. -/
def strayLedgerWorld : World Unit :=
  { quietWorld with
    findTransactions := fun _ _ st => (.ok ["U1"], st)
    getTrytes := fun _ st => (.ok [bundleTx "U1" 0], st)
    filterConfirmedTails := fun tails _ st =>
      (.ok (if tails = ["U1"] then ⟨["Z"], by decide⟩ else UnorderedSet.empty), st) }

/-- State of the collaborators under observation. -/
abbrev Watched (τ : Type) : Type := (Database × τ) × Provenance

/-- No call observed so far had a hash of another origin. -/
def NoViolation {τ : Type} (st : (Database × τ) × Provenance) : Prop := st.2.violated = false

/-- The program `p1` over the observed collaborators runs as `p2` does over the
collaborators themselves: same outcome, same calls, same database and ledger state. -/
def SameRun {τ α : Type} (p1 : Prog (Watched τ) α) (p2 : Prog (Database × τ) α) : Prop :=
  ∀ s : Sys (Watched τ),
    (p1 s).1 = (p2 ⟨s.st.1, s.trace⟩).1 ∧
      (p1 s).2.trace = (p2 ⟨s.st.1, s.trace⟩).2.trace ∧
      (p1 s).2.st.1 = (p2 ⟨s.st.1, s.trace⟩).2.st

/-! ## Thrown objects that are not exceptions

The handlers of `doTick` are `catch (const std::exception&)`.  Below, the error value of
a collaborator call describes the thrown object, whatever its type, and `isException`
tells whether that object is derived from `std::exception`. -/

namespace AnyThrowable

/-- The block `try { body } catch (const std::exception& ex) { handler }`: a thrown
object that is derived from `std::exception` enters the handler, any other object passes
the handler by and propagates. -/
def tryCatch {σ α : Type} (isException : String → Bool) (body : Prog σ α)
    (handler : String → Prog σ α) : Prog σ α := fun s =>
  match body s with
  | (.raise e, s1) => if isException e then handler e s1 else (.raise e, s1)
  | r => r

/-- The scope of the local `transaction` of a loop iteration: the handle is released when
the scope is left, by reaching its end or by a thrown object that propagates.  An abort
of the process does not unwind. -/
def transactionScope {σ α : Type} (W : World σ) (body : Prog σ α) : Prog σ α := fun s =>
  match body s with
  | (.ok a, s1) => (.ok a, ⟨W.release s1.st, s1.trace ++ [.releaseTransaction]⟩)
  | (.raise e, s1) => (.raise e, ⟨W.release s1.st, s1.trace ++ [.releaseTransaction]⟩)
  | r => r

/-- The `catch` block of `doTick`, lines 203-212. -/
def rollbackHandler {σ : Type} (isException : String → Bool) (W : World σ) : Prog σ Unit :=
  tryCatch isException (call .rollback W.rollback) (fun _ => pure ())

/-- One iteration of the loop of `doTick`, lines 160-213. -/
def processSweep {σ : Type} (isException : String → Bool) (W : World σ) (sweep : Sweep) :
    Prog σ Unit := do
  call .beginTransaction W.transaction
  transactionScope W
    (tryCatch isException (AttachmentService.perSweepProtocol W sweep)
      (fun _ => rollbackHandler isException W))

/-- The loop `for (const auto& sweep : unconfirmedSweeps)`. -/
def processSweeps {σ : Type} (isException : String → Bool) (W : World σ) :
    List Sweep → Prog σ Unit
  | [] => pure ()
  | sweep :: rest => do
    processSweep isException W sweep
    processSweeps isException W rest

/-- Lines 143-216. -/
def doTick {σ : Type} (isException : String → Bool) (W : World σ) : Prog σ Bool := do
  let tickStart ← readClock W
  let _milestone ← call .getNodeInfo W.getNodeInfo
  let unconfirmedSweeps ←
    call (.getUnconfirmedSweeps tickStart) (W.getUnconfirmedSweeps tickStart)
  processSweeps isException W unconfirmedSweeps
  pure true

end AnyThrowable

/-- In the scenario of a collaborator that throws an `int`: every thrown object is an
exception derived from `std::exception` except the one described by `int`. -/
def exceptInt (what : String) : Bool := what != "int"

/-- Two unconfirmed sweeps; `storeTransactions` throws an `int`. -/
def intThrowingWorld : World Unit :=
  { reattachWorld with
    getUnconfirmedSweeps := fun _ st => (.ok [sweepS1, sweepS2], st)
    storeTransactions := fun _ st => (.error "int", st) }

/-- The bundle of sweep `S1` has on the ledger the unknown tail whose hash is the digest
of the trytes that `performPOW` returns.  The node finds that tail consistent when asked
about it alone, and finds nothing consistent among the tails of the sweep. -/
def sameHashWorld : World Unit :=
  { quietWorld with
    findTransactions := fun _ _ st => (.ok ["digest:TRYTES"], st)
    getTrytes := fun _ st => (.ok [bundleTx "digest:TRYTES" 0], st)
    filterConsistentTails := fun tails st =>
      (.ok (if tails = ["digest:TRYTES"] then ⟨["digest:TRYTES"], by decide⟩
        else UnorderedSet.empty), st) }

/-! ## Running programs -/

section run
variable {σ α β : Type}

theorem Prog.bind_run (x : Prog σ α) (f : α → Prog σ β) (s : Sys σ) :
    (x >>= f) s =
      match x s with
      | (.ok a, s1) => f a s1
      | (.raise e, s1) => (.raise e, s1)
      | (.fatal, s1) => (.fatal, s1)
      | (.undef, s1) => (.undef, s1) := rfl

theorem Prog.pure_run (a : α) (s : Sys σ) : (pure a : Prog σ α) s = (.ok a, s) := rfl

end run

open AttachmentService

/-! ## Assertions about programs -/

section hoare
variable {σ α β : Type}

theorem Triple.bind_intro {P : Sys σ → Prop} {x : Prog σ α} {f : α → Prog σ β}
    {Q : Outcome β → Sys σ → Prop} (R : Outcome α → Sys σ → Prop)
    (hx : Triple P x R) (hok : ∀ a, Triple (R (.ok a)) (f a) Q)
    (hraise : ∀ e s, R (.raise e) s → Q (.raise e) s)
    (hfatal : ∀ s, R .fatal s → Q .fatal s)
    (hundef : ∀ s, R .undef s → Q .undef s) : Triple P (x >>= f) Q := by
  intro s hs
  have h := hx s hs
  rw [Prog.bind_run]
  rcases hxs : x s with ⟨o, s1⟩
  rw [hxs] at h
  cases o with
  | ok a => exact hok a s1 h
  | raise e => exact hraise e s1 h
  | fatal => exact hfatal s1 h
  | undef => exact hundef s1 h

theorem Triple.call_intro {P : Sys σ → Prop} {ev : Event} {op : σ → Except String α × σ}
    {Q : Outcome α → Sys σ → Prop}
    (hok : ∀ s a st1, P s → op s.st = (.ok a, st1) → Q (.ok a) ⟨st1, s.trace ++ [ev]⟩)
    (herr : ∀ s e st1, P s → op s.st = (.error e, st1) →
      Q (.raise e) ⟨st1, s.trace ++ [ev]⟩) :
    Triple P (call ev op) Q := by
  intro s hs
  rcases h : op s.st with ⟨r, st1⟩
  cases r with
  | ok a => simpa [call, h] using hok s a st1 hs h
  | error e => simpa [call, h] using herr s e st1 hs h

theorem Triple.weaken {P P1 : Sys σ → Prop} {p : Prog σ α} {Q Q1 : Outcome α → Sys σ → Prop}
    (h : Triple P p Q) (hP : ∀ s, P1 s → P s) (hQ : ∀ o s, Q o s → Q1 o s) : Triple P1 p Q1 :=
  fun s hs => hQ _ _ (h s (hP s hs))

theorem Triple.inv_bind {J : Sys σ → Prop} {x : Prog σ α} {f : α → Prog σ β}
    (hx : Triple J x (fun _ s => J s)) (hf : ∀ a, Triple J (f a) (fun _ s => J s)) :
    Triple J (x >>= f) (fun _ s => J s) :=
  Triple.bind_intro _ hx hf (fun _ _ h => h) (fun _ h => h) (fun _ h => h)

theorem Triple.inv_call {I : σ → Prop} {ev : Event} {op : σ → Except String α × σ}
    (h : ∀ st, I st → I (op st).2) :
    Triple (fun s => I s.st) (call ev op) (fun _ s => I s.st) := by
  refine Triple.call_intro (fun s a st1 hs hop => ?_) (fun s e st1 hs hop => ?_)
  · have := h s.st hs
    rw [hop] at this
    exact this
  · have := h s.st hs
    rw [hop] at this
    exact this

theorem Triple.inv_call_of (I : σ → Prop) {ev : Event} {op : σ → Except String α × σ}
    (h : ∀ st, I st → I (op st).2) :
    Triple (fun s => I s.st) (call ev op) (fun _ s => I s.st) :=
  Triple.inv_call h

theorem Triple.inv_pure {J : Sys σ → Prop} {a : α} :
    Triple J (pure a : Prog σ α) (fun _ s => J s) := fun _ h => h

theorem Triple.inv_readClock {J : Sys σ → Prop} {W : World σ} :
    Triple J (readClock W) (fun _ s => J s) := fun _ h => h

theorem Triple.inv_undefinedBehaviour {J : Sys σ → Prop} :
    Triple J (undefinedBehaviour : Prog σ α) (fun _ s => J s) := fun _ h => h

theorem Triple.inv_logFatal {I : σ → Prop} :
    Triple (fun s => I s.st) (logFatal : Prog σ α) (fun _ s => I s.st) := fun _ h => h

end hoare

theorem remoteCall_db {τ α : Type} (op : τ → Except String α × τ) (s : Database × τ) :
    (remoteCall op s).2.1 = s.1 := by
  simp [remoteCall]

theorem promoteSweep_db {τ : Type} (R : World τ) (sweep : Sweep) (t : String)
    (db : Database) :
    Triple (fun s => s.st.1 = db) (promoteSweep (dbWorld R) sweep t)
      (fun _ s => s.st.1 = db) := by
  have hop : ∀ {α : Type} (op : τ → Except String α × τ) (st : Database × τ),
      st.1 = db → (remoteCall op st).2.1 = db := fun op st h => by rw [remoteCall_db]; exact h
  unfold promoteSweep
  refine Triple.inv_bind (Triple.inv_call (hop _)) (fun tips => ?_)
  refine Triple.inv_bind Triple.inv_readClock (fun ts => ?_)
  refine Triple.inv_bind (Triple.inv_call (hop _)) (fun attached => ?_)
  refine Triple.inv_bind (Triple.inv_call (hop _)) (fun _ => ?_)
  refine Triple.inv_bind (Triple.inv_call (hop _)) (fun _ => ?_)
  exact Triple.inv_pure

/-! ## Predicates kept by the protocol -/

section stable
variable {σ : Type} {W : World σ} {I : σ → Prop}

theorem insertTails_stable (h : StableUnder W I) (id : Nat) (tails : List String) :
    Triple (fun s => I s.st) (insertTails W id tails) (fun _ s => I s.st) := by
  induction tails with
  | nil => exact Triple.inv_pure
  | cons t rest ih =>
    exact Triple.inv_bind (Triple.inv_call (h.createTail _ _)) (fun _ => ih)

theorem checkSweepTailsForConfirmation_stable (h : StableUnder W I)
    (hmark : ∀ hash st, I st → I (W.markTailAsConfirmed hash st).2) (sweep : Sweep)
    (tails : List String) :
    Triple (fun s => I s.st) (checkSweepTailsForConfirmation W sweep tails)
      (fun _ s => I s.st) := by
  unfold checkSweepTailsForConfirmation
  refine Triple.inv_bind (Triple.inv_call (h.filterConfirmedTails _ _)) (fun c => ?_)
  split
  · split
    · exact Triple.inv_bind (Triple.inv_call (hmark _))
        (fun _ => Triple.inv_pure)
    · exact Triple.inv_undefinedBehaviour
  · split
    · exact Triple.inv_logFatal
    · exact Triple.inv_pure

theorem checkForUserReattachment_stable (h : StableUnder W I)
    (hmark : ∀ hash st, I st → I (W.markTailAsConfirmed hash st).2) (sweep : Sweep)
    (known : List String) :
    Triple (fun s => I s.st) (checkForUserReattachment W sweep known)
      (fun _ s => I s.st) := by
  unfold checkForUserReattachment
  refine Triple.inv_bind (Triple.inv_call (h.findTransactions _ _)) (fun hashes => ?_)
  refine Triple.inv_bind (Triple.inv_call (h.getTrytes _)) (fun fetched => ?_)
  dsimp only
  split
  · refine Triple.inv_bind (Triple.inv_call (h.filterConfirmedTails _ _)) (fun uc => ?_)
    split
    · split
      · refine Triple.inv_bind (Triple.inv_call (h.createTail _ _)) (fun _ => ?_)
        exact Triple.inv_bind (Triple.inv_call (hmark _))
          (fun _ => Triple.inv_pure)
      · exact Triple.inv_undefinedBehaviour
    · refine Triple.inv_bind (Triple.inv_call (h.filterConsistentTails _)) (fun cons => ?_)
      dsimp only
      split
      · exact Triple.inv_bind (insertTails_stable h _ _) (fun _ => Triple.inv_pure)
      · exact Triple.inv_bind Triple.inv_pure (fun _ => Triple.inv_pure)
  · exact Triple.inv_pure

theorem confirmationSteps_stable (h : StableUnder W I)
    (hmark : ∀ hash st, I st → I (W.markTailAsConfirmed hash st).2) (sweep : Sweep) :
    Triple (fun s => I s.st) (confirmationSteps W sweep) (fun _ s => I s.st) := by
  unfold confirmationSteps
  refine Triple.inv_bind (Triple.inv_call (h.getTailsForSweep _)) (fun known => ?_)
  refine Triple.inv_bind (checkSweepTailsForConfirmation_stable h hmark _ _)
    (fun direct => ?_)
  split
  · exact Triple.inv_pure
  · exact checkForUserReattachment_stable h hmark _ _

theorem reattachSweep_stable (h : StableUnder W I) (sweep : Sweep) :
    Triple (fun s => I s.st) (reattachSweep W sweep) (fun _ s => I s.st) := by
  unfold reattachSweep
  refine Triple.inv_bind (Triple.inv_call (h.performPOW _)) (fun attached => ?_)
  split
  · exact Triple.inv_undefinedBehaviour
  · refine Triple.inv_bind (Triple.inv_call (h.storeTransactions _)) (fun _ => ?_)
    refine Triple.inv_bind (Triple.inv_call (h.broadcastTransactions _)) (fun _ => ?_)
    exact Triple.inv_call (h.createTail _ _)

theorem promoteSweep_stable (h : StableUnder W I) (sweep : Sweep) (t : String) :
    Triple (fun s => I s.st) (promoteSweep W sweep t) (fun _ s => I s.st) := by
  unfold promoteSweep
  refine Triple.inv_bind (Triple.inv_call (h.getTransactionsToApprove _ _)) (fun tips => ?_)
  refine Triple.inv_bind Triple.inv_readClock (fun ts => ?_)
  refine Triple.inv_bind (Triple.inv_call (h.doPOW _ _ _)) (fun attached => ?_)
  refine Triple.inv_bind (Triple.inv_call (h.storeTransactions _)) (fun _ => ?_)
  refine Triple.inv_bind (Triple.inv_call (h.broadcastTransactions _)) (fun _ => ?_)
  exact Triple.inv_pure

theorem promoteOrReattach_stable (h : StableUnder W I) (sweep : Sweep) :
    Triple (fun s => I s.st) (promoteOrReattach W sweep) (fun _ s => I s.st) := by
  unfold promoteOrReattach
  refine Triple.inv_bind (Triple.inv_call (h.getTailsForSweep _)) (fun tails => ?_)
  refine Triple.inv_bind (Triple.inv_call (h.filterConsistentTails _)) (fun cons => ?_)
  split
  · split
    · exact promoteSweep_stable h _ _
    · exact Triple.inv_undefinedBehaviour
  · exact reattachSweep_stable h _

end stable

/-! ## The database model -/

theorem dbCall_error {τ α β : Type} (fault : τ → Except String β × τ)
    (run : Database → Except String α × Database)
    (hrun : ∀ db, ∃ a, (run db).1 = .ok a) (s s1 : Database × τ) (e : String)
    (h : dbCall fault run s = (.error e, s1)) : s1.1 = s.1 := by
  unfold dbCall at h
  split at h
  · simp only [Prod.mk.injEq] at h
    rw [← h.2]
  · obtain ⟨a, ha⟩ := hrun s.1
    simp only [Prod.mk.injEq] at h
    rw [ha] at h
    cases h.1

theorem insertTails_trace {σ : Type} (W : World σ) (id : Nat) (tails : List String)
    (s : Sys σ) :
    ∃ evs, (insertTails W id tails s).2.trace = s.trace ++ evs ∧
      ∀ e ∈ evs, e.isCreateTail = true := by
  induction tails generalizing s with
  | nil => exact ⟨[], by simp [insertTails, Prog.pure_run], by simp⟩
  | cons t rest ih =>
    simp only [insertTails, Prog.bind_run, call]
    rcases hc : W.createTail id t s.st with ⟨r, s1⟩
    cases r with
    | error e => exact ⟨[.createTail id t], by simp, by simp [Event.isCreateTail]⟩
    | ok u =>
      obtain ⟨evs, h1, h2⟩ := ih ⟨s1, s.trace ++ [.createTail id t]⟩
      refine ⟨.createTail id t :: evs, ?_, ?_⟩
      · simp [h1]
      · intro e he
        rcases List.mem_cons.mp he with rfl | he
        · rfl
        · exact h2 e he

theorem isQuiet_of_isCreateTail {e : Event} (h : e.isCreateTail = true) : e.isQuiet = true := by
  cases e <;> simp_all [Event.isCreateTail, Event.isQuiet, Event.isMark, Event.isPublication]

theorem quiet_append {l1 l2 : List Event} (h1 : ∀ e ∈ l1, e.isQuiet = true)
    (h2 : ∀ e ∈ l2, e.isQuiet = true) : ∀ e ∈ l1 ++ l2, e.isQuiet = true := by
  intro e he
  rcases List.mem_append.mp he with h | h
  · exact h1 e h
  · exact h2 e h

theorem checkSweepTailsForConfirmation_false {σ : Type} (W : World σ) (sweep : Sweep)
    (tails : List String) (s s1 : Sys σ)
    (h : checkSweepTailsForConfirmation W sweep tails s = (.ok false, s1)) :
    s1.trace = s.trace ++ [.filterConfirmedTails tails none] := by
  simp only [checkSweepTailsForConfirmation, Prog.bind_run, call] at h
  rcases hf : W.filterConfirmedTails tails none s.st with ⟨r, st⟩
  cases r with
  | error e => simp [hf] at h
  | ok c =>
    simp only [hf] at h
    by_cases h1 : c.size = 1
    · simp only [h1, if_true] at h
      cases hel : c.elems with
      | nil => simp [hel, undefinedBehaviour] at h
      | cons t more =>
        simp only [hel, Prog.bind_run, call] at h
        rcases hm : W.markTailAsConfirmed t st with ⟨rm, st2⟩
        cases rm <;> simp [hm, Prog.pure_run] at h
    · by_cases h2 : c.size > 1
      · simp [h1, h2, logFatal] at h
      · simp [h1, h2, Prog.pure_run] at h
        rw [← h]

theorem checkForUserReattachment_false {σ : Type} (W : World σ) (sweep : Sweep)
    (known : List String) (s s1 : Sys σ)
    (h : checkForUserReattachment W sweep known s = (.ok false, s1)) :
    ∃ evs, s1.trace = s.trace ++ evs ∧ ∀ e ∈ evs, e.isQuiet = true := by
  simp only [checkForUserReattachment, Prog.bind_run, call] at h
  rcases hfind : W.findTransactions none (some [sweep.bundleHash]) s.st with ⟨r, st⟩
  cases r with
  | error e => simp [hfind] at h
  | ok hashes =>
    simp only [hfind] at h
    rcases htry : W.getTrytes hashes st with ⟨r2, st2⟩
    cases r2 with
    | error e => simp [htry] at h
    | ok fetched =>
      simp only [htry] at h
      by_cases hne : (removeKnown known fetched).length ≠ 0
      · rw [if_pos hne] at h
        simp only [Prog.bind_run, call] at h
        rcases hf : W.filterConfirmedTails ((removeKnown known fetched).map (fun tx => tx.hash))
          none st2 with ⟨r3, st3⟩
        cases r3 with
        | error e => simp [hf] at h
        | ok uc =>
          simp only [hf] at h
          by_cases hs : uc.size ≠ 0
          · rw [if_pos hs] at h
            cases hel : uc.elems with
            | nil => simp [hel, undefinedBehaviour] at h
            | cons t more =>
              simp only [hel, Prog.bind_run, call] at h
              rcases hc : W.createTail sweep.id t st3 with ⟨rc, st4⟩
              cases rc with
              | error e => simp [hc] at h
              | ok u =>
                simp only [hc] at h
                rcases hm : W.markTailAsConfirmed t st4 with ⟨rm, st5⟩
                cases rm <;> simp [hm, Prog.pure_run] at h
          · rw [if_neg hs] at h
            simp only [Prog.bind_run, call] at h
            rcases hcs : W.filterConsistentTails
              ((removeKnown known fetched).map (fun tx => tx.hash)) st3 with ⟨r4, st4⟩
            cases r4 with
            | error e => simp [hcs] at h
            | ok cons =>
              simp only [hcs] at h
              by_cases hz : cons.size ≠ 0
              · rw [if_pos hz, Prog.bind_run] at h
                obtain ⟨evs, ht, hall⟩ := insertTails_trace W sweep.id cons.elems
                  ⟨st4, s.trace ++ [.findTransactions none (some [sweep.bundleHash])] ++
                    [.getTrytes hashes] ++
                    [.filterConfirmedTails ((removeKnown known fetched).map (fun tx => tx.hash))
                      none] ++
                    [.filterConsistentTails
                      ((removeKnown known fetched).map (fun tx => tx.hash))]⟩
                rcases hi : insertTails W sweep.id cons.elems
                  ⟨st4, s.trace ++ [.findTransactions none (some [sweep.bundleHash])] ++
                    [.getTrytes hashes] ++
                    [.filterConfirmedTails ((removeKnown known fetched).map (fun tx => tx.hash))
                      none] ++
                    [.filterConsistentTails
                      ((removeKnown known fetched).map (fun tx => tx.hash))]⟩ with ⟨o, s5⟩
                rw [hi] at h ht
                cases o <;> simp [Prog.pure_run] at h
                subst h
                refine ⟨[.findTransactions none (some [sweep.bundleHash]), .getTrytes hashes,
                  .filterConfirmedTails ((removeKnown known fetched).map (fun tx => tx.hash))
                    none,
                  .filterConsistentTails ((removeKnown known fetched).map (fun tx => tx.hash))]
                  ++ evs, by simpa using ht, ?_⟩
                exact quiet_append (by simp [Event.isQuiet, Event.isMark, Event.isPublication])
                  (fun e he => isQuiet_of_isCreateTail (hall e he))
              · rw [if_neg hz] at h
                simp [Prog.pure_run, Prog.bind_run] at h
                refine ⟨[.findTransactions none (some [sweep.bundleHash]), .getTrytes hashes,
                  .filterConfirmedTails ((removeKnown known fetched).map (fun tx => tx.hash))
                    none,
                  .filterConsistentTails ((removeKnown known fetched).map (fun tx => tx.hash))],
                  by rw [← h], ?_⟩
                simp [Event.isQuiet, Event.isMark, Event.isPublication]
      · rw [if_neg hne] at h
        simp [Prog.pure_run] at h
        refine ⟨[.findTransactions none (some [sweep.bundleHash]), .getTrytes hashes],
          by rw [← h], ?_⟩
        simp [Event.isQuiet, Event.isMark, Event.isPublication]

theorem confirmationSteps_false {σ : Type} (W : World σ) (sweep : Sweep) (s sC : Sys σ)
    (h : confirmationSteps W sweep s = (.ok false, sC)) :
    ∃ evs, sC.trace = s.trace ++ evs ∧ ∀ e ∈ evs, e.isQuiet = true := by
  simp only [confirmationSteps, Prog.bind_run, call] at h
  rcases hk : W.getTailsForSweep sweep.id s.st with ⟨r, st⟩
  cases r with
  | error e => simp [hk] at h
  | ok known =>
    simp only [hk] at h
    rcases hA : checkSweepTailsForConfirmation W sweep known
      ⟨st, s.trace ++ [.getTailsForSweep sweep.id]⟩ with ⟨o, s1⟩
    rw [hA] at h
    cases o with
    | raise e => simp at h
    | fatal => simp at h
    | undef => simp at h
    | ok direct =>
      cases direct with
      | true => simp [Prog.pure_run] at h
      | false =>
        simp only [Bool.false_eq_true, if_false] at h
        have h1 := checkSweepTailsForConfirmation_false W sweep known _ _ hA
        obtain ⟨evs, h2, h3⟩ := checkForUserReattachment_false W sweep known _ _ h
        refine ⟨[.getTailsForSweep sweep.id, .filterConfirmedTails known none] ++ evs,
          by rw [h2, h1]; simp, ?_⟩
        exact quiet_append (by simp [Event.isQuiet, Event.isMark, Event.isPublication]) h3

/-! ## Promotion and the loop -/

theorem toPromote_first (before after : List String) (t : String) (consistent : UnorderedSet)
    (ht : t ∈ consistent.elems) (hfirst : ∀ x ∈ before, x ∉ consistent.elems) :
    toPromote (before ++ t :: after) consistent = some t := by
  induction before with
  | nil => simp [toPromote, UnorderedSet.contains, ht]
  | cons b rest ih =>
    have hb : b ∉ consistent.elems := hfirst b (List.mem_cons_self _ _)
    have hrest : ∀ x ∈ rest, x ∉ consistent.elems :=
      fun x hx => hfirst x (List.mem_cons_of_mem _ hx)
    have h := ih hrest
    simp only [toPromote] at h
    have hc : consistent.contains b = false := by simp [UnorderedSet.contains, hb]
    simp only [toPromote, List.cons_append, List.find?_cons, hc]
    exact h

theorem promoteSweep_trace {σ : Type} (W : World σ) (sweep : Sweep) (t : String) (s : Sys σ) :
    ∃ rest, (promoteSweep W sweep t s).2.trace =
        s.trace ++ .getTransactionsToApprove 0 (some t) :: rest ∧
      ∀ e ∈ rest, e.isPublication = true := by
  simp only [promoteSweep, Prog.bind_run, call, readClock]
  rcases h1 : W.getTransactionsToApprove 0 (some t) s.st with ⟨r1, s1⟩
  cases r1 with
  | error e => exact ⟨[], by simp, by simp⟩
  | ok tips =>
    rcases h2 : W.doPOW [W.toTrytes ⟨promotionAddress, 0, W.now s1⟩] tips.1 tips.2 s1
      with ⟨r2, s2⟩
    cases r2 with
    | error e =>
      exact ⟨[.doPOW [W.toTrytes ⟨promotionAddress, 0, W.now s1⟩] tips.1 tips.2],
        by simp [h2], by simp [Event.isPublication]⟩
    | ok attached =>
      rcases h3 : W.storeTransactions attached s2 with ⟨r3, s3⟩
      cases r3 with
      | error e =>
        exact ⟨[.doPOW [W.toTrytes ⟨promotionAddress, 0, W.now s1⟩] tips.1 tips.2,
          .storeTransactions attached], by simp [h2, h3], by simp [Event.isPublication]⟩
      | ok b =>
        rcases h4 : W.broadcastTransactions attached s3 with ⟨r4, s4⟩
        cases r4 <;>
        exact ⟨[.doPOW [W.toTrytes ⟨promotionAddress, 0, W.now s1⟩] tips.1 tips.2,
          .storeTransactions attached, .broadcastTransactions attached],
          by simp [h2, h3, h4, Prog.pure_run], by simp [Event.isPublication]⟩

/-! ## Facts about the table operations -/

theorem mem_insertTail_of_mem {rows : List SweepTail} {r : SweepTail} (id : Nat)
    (hash : String) (h : r ∈ rows) : r ∈ insertTail rows id hash := by
  unfold insertTail
  split
  · exact h
  · exact List.mem_append_left _ h

theorem hasRow_insertTail (rows : List SweepTail) (id : Nat) (hash : String) :
    HasRow (insertTail rows id hash) id hash := by
  unfold insertTail
  split
  · rename_i h
    obtain ⟨r, hr, hp⟩ := List.any_eq_true.mp h
    simp only [Bool.and_eq_true, decide_eq_true_eq] at hp
    exact ⟨r, hr, hp.1, hp.2⟩
  · exact ⟨⟨id, hash, false⟩, by simp, rfl, rfl⟩

theorem keysNodup_insertTail {rows : List SweepTail} (id : Nat) (hash : String)
    (h : KeysNodup rows) : KeysNodup (insertTail rows id hash) := by
  unfold insertTail
  split
  · exact h
  · rename_i hany
    unfold KeysNodup
    rw [List.map_append, List.nodup_append]
    refine ⟨h, by simp, ?_⟩
    intro k hk1 hk2
    simp only [List.map_cons, List.map_nil, List.mem_singleton] at hk2
    subst hk2
    obtain ⟨r, hr, hkey⟩ := List.mem_map.mp hk1
    apply hany
    refine List.any_eq_true.mpr ⟨r, hr, ?_⟩
    simp only [rowKey, Prod.mk.injEq] at hkey
    simp [hkey.1, hkey.2]

theorem unshared_of_insertTail {rows : List SweepTail} (id : Nat) (hash : String)
    (h : Unshared (insertTail rows id hash)) : Unshared rows :=
  fun r1 h1 r2 h2 => h r1 (mem_insertTail_of_mem id hash h1) r2 (mem_insertTail_of_mem id hash h2)

theorem filter_confirmed_insertTail (rows : List SweepTail) (id : Nat) (hash : String)
    (i : Nat) :
    (insertTail rows id hash).filter (fun r => decide (r.sweepId = i) && r.confirmed) =
      rows.filter (fun r => decide (r.sweepId = i) && r.confirmed) := by
  unfold insertTail
  split
  · rfl
  · simp [List.filter_append]

theorem hasConfirmedTail_insertTail (rows : List SweepTail) (id : Nat) (hash : String)
    (i : Nat) :
    hasConfirmedTail (insertTail rows id hash) i = hasConfirmedTail rows i := by
  unfold insertTail hasConfirmedTail
  split
  · rfl
  · simp [List.any_append]

theorem good_insertTail {rows : List SweepTail} {ids : List Nat} (id : Nat) (hash : String)
    (h : Good rows ids) : Good (insertTail rows id hash) ids := by
  refine ⟨keysNodup_insertTail id hash h.1, fun hu => ?_⟩
  obtain ⟨h1, h2⟩ := h.2 (unshared_of_insertTail id hash hu)
  refine ⟨fun i => ?_, fun i hi => ?_⟩
  · unfold atMostOneConfirmed
    rw [filter_confirmed_insertTail]
    exact h1 i
  · rw [hasConfirmedTail_insertTail]
    exact h2 i hi

theorem map_rowKey_confirmTail (rows : List SweepTail) (hash : String) :
    (confirmTail rows hash).map rowKey = rows.map rowKey := by
  unfold confirmTail
  rw [List.map_map]
  apply List.map_congr_left
  intro r _
  simp only [Function.comp]
  split <;> rfl

theorem unshared_of_confirmTail {rows : List SweepTail} (hash : String)
    (h : Unshared (confirmTail rows hash)) : Unshared rows := by
  intro r1 h1 r2 h2 heq
  have key : ∀ r ∈ rows, ∃ r' ∈ confirmTail rows hash,
      r'.sweepId = r.sweepId ∧ r'.hash = r.hash := by
    intro r hr
    refine ⟨if r.hash = hash then { r with confirmed := true } else r,
      List.mem_map.mpr ⟨r, hr, rfl⟩, ?_, ?_⟩ <;> split <;> rfl
  obtain ⟨a, ha, ha1, ha2⟩ := key r1 h1
  obtain ⟨b, hb, hb1, hb2⟩ := key r2 h2
  have := h a ha b hb (by rw [ha2, hb2, heq])
  rw [ha1, hb1] at this
  exact this

theorem length_filter_key_le_one {rows : List SweepTail} (h : KeysNodup rows) (id : Nat)
    (hash : String) :
    (rows.filter (fun r => decide (r.sweepId = id) && decide (r.hash = hash))).length ≤ 1 := by
  induction rows with
  | nil => simp
  | cons r rest ih =>
    unfold KeysNodup at h
    rw [List.map_cons, List.nodup_cons] at h
    have ih1 := ih h.2
    by_cases hr : r.sweepId = id ∧ r.hash = hash
    · have hnone : rest.filter
          (fun r => decide (r.sweepId = id) && decide (r.hash = hash)) = [] := by
        rw [List.filter_eq_nil_iff]
        intro x hx hp
        simp only [Bool.and_eq_true, decide_eq_true_eq] at hp
        apply h.1
        refine List.mem_map.mpr ⟨x, hx, ?_⟩
        simp [rowKey, hp.1, hp.2, hr.1, hr.2]
      simp [List.filter_cons, hr.1, hr.2, hnone]
    · have : (decide (r.sweepId = id) && decide (r.hash = hash)) = false := by
        simp only [Bool.and_eq_false_iff, decide_eq_false_iff_not]
        by_cases h1 : r.sweepId = id
        · exact Or.inr (fun h2 => hr ⟨h1, h2⟩)
        · exact Or.inl h1
      simp only [List.filter_cons, this]
      exact ih1

theorem filter_confirmTail_other {rows : List SweepTail} {S : Nat} {hash : String}
    (hP : ∀ r ∈ rows, r.hash = hash → r.sweepId = S) {id : Nat} (hid : id ≠ S) :
    (confirmTail rows hash).filter (fun r => decide (r.sweepId = id) && r.confirmed) =
      rows.filter (fun r => decide (r.sweepId = id) && r.confirmed) := by
  induction rows with
  | nil => rfl
  | cons r rest ih =>
    have ih1 := ih (fun x hx => hP x (List.mem_cons_of_mem _ hx))
    unfold confirmTail at ih1 ⊢
    rw [List.map_cons, List.filter_cons, List.filter_cons, ih1]
    by_cases hr : r.hash = hash
    · have hs : r.sweepId = S := hP r (List.mem_cons_self _ _) hr
      have hne : ¬ r.sweepId = id := fun h => hid (h ▸ hs)
      simp [hr, hne]
    · simp [hr]

theorem length_filter_confirmTail_self {rows : List SweepTail} {S : Nat} {hash : String}
    (hzero : ∀ r ∈ rows, r.sweepId = S → r.confirmed = false) :
    ((confirmTail rows hash).filter (fun r => decide (r.sweepId = S) && r.confirmed)).length =
      (rows.filter (fun r => decide (r.sweepId = S) && decide (r.hash = hash))).length := by
  induction rows with
  | nil => rfl
  | cons r rest ih =>
    have ih1 := ih (fun x hx => hzero x (List.mem_cons_of_mem _ hx))
    unfold confirmTail at ih1 ⊢
    rw [List.map_cons, List.filter_cons, List.filter_cons]
    by_cases hs : r.sweepId = S
    · have hc : r.confirmed = false := hzero r (List.mem_cons_self _ _) hs
      by_cases hr : r.hash = hash
      · simp [hr, hs, ih1]
      · simp [hr, hs, hc, ih1]
    · by_cases hr : r.hash = hash
      · simp [hr, hs, ih1]
      · simp [hr, hs, ih1]

theorem hasConfirmedTail_eq_false_iff (rows : List SweepTail) (id : Nat) :
    hasConfirmedTail rows id = false ↔
      rows.filter (fun r => decide (r.sweepId = id) && r.confirmed) = [] := by
  unfold hasConfirmedTail
  rw [List.filter_eq_nil_iff, List.any_eq_false]

theorem good_confirmTail {rows : List SweepTail} {ids : List Nat} {S : Nat} {hash : String}
    (hS : S ∉ ids) (hrow : HasRow rows S hash) (h : Good rows (S :: ids)) :
    Good (confirmTail rows hash) ids := by
  refine ⟨?_, fun hu => ?_⟩
  · unfold KeysNodup
    rw [map_rowKey_confirmTail]
    exact h.1
  · have hu0 := unshared_of_confirmTail hash hu
    obtain ⟨hamo, hzero⟩ := h.2 hu0
    obtain ⟨r0, hr0, hr0s, hr0h⟩ := hrow
    have hP : ∀ r ∈ rows, r.hash = hash → r.sweepId = S := by
      intro r hr hrh
      rw [← hr0s]
      exact hu0 r hr r0 hr0 (by rw [hrh, hr0h])
    have hzS : ∀ r ∈ rows, r.sweepId = S → r.confirmed = false := by
      have := (hasConfirmedTail_eq_false_iff rows S).mp (hzero S (List.mem_cons_self _ _))
      rw [List.filter_eq_nil_iff] at this
      intro r hr hs
      have h1 := this r hr
      simpa [hs] using h1
    refine ⟨fun id => ?_, fun id hid => ?_⟩
    · unfold atMostOneConfirmed
      by_cases hidS : id = S
      · subst hidS
        rw [length_filter_confirmTail_self hzS]
        exact length_filter_key_le_one h.1 id hash
      · rw [filter_confirmTail_other hP hidS]
        exact hamo id
    · have hidS : id ≠ S := fun he => hS (he ▸ hid)
      rw [hasConfirmedTail_eq_false_iff, filter_confirmTail_other hP hidS,
        ← hasConfirmedTail_eq_false_iff]
      exact hzero id (List.mem_cons_of_mem _ hid)

theorem good_tail {rows : List SweepTail} {ids : List Nat} {S : Nat}
    (h : Good rows (S :: ids)) : Good rows ids :=
  ⟨h.1, fun hu => ⟨(h.2 hu).1, fun id hid => (h.2 hu).2 id (List.mem_cons_of_mem _ hid)⟩⟩

/-! ## The invariant through the calls of the database model -/

theorem dbCall_cases {τ α β : Type} (fault : τ → Except String β × τ)
    (run : Database → Except String α × Database) (s : Database × τ) :
    (dbCall fault run s).2.1 = s.1 ∨ (dbCall fault run s).2.1 = (run s.1).2 := by
  unfold dbCall
  split
  · exact Or.inl rfl
  · exact Or.inr rfl

theorem dbCall_ok {τ α β : Type} {fault : τ → Except String β × τ}
    {run : Database → Except String α × Database} {s s1 : Database × τ} {a : α}
    (h : dbCall fault run s = (.ok a, s1)) : run s.1 = (.ok a, s1.1) := by
  unfold dbCall at h
  split at h
  · simp at h
  · simp only [Prod.mk.injEq] at h
    rw [← h.2]
    exact Prod.ext h.1 rfl

theorem remoteCall_eq {τ α : Type} {op : τ → Except String α × τ} {s s1 : Database × τ}
    {r : Except String α} (h : remoteCall op s = (r, s1)) :
    op s.2 = (r, s1.2) ∧ s1.1 = s.1 := by
  unfold remoteCall at h
  simp only [Prod.mk.injEq] at h
  obtain ⟨h1, h2⟩ := h
  subst h2
  exact ⟨Prod.ext h1 rfl, rfl⟩

theorem hist_append {history : List (List SweepTail)} {rows : List SweepTail} {ids : List Nat}
    (h : Hist history) (hg : Good rows ids) : Hist (history ++ [rows]) := by
  intro t ht hu
  rcases List.mem_append.mp ht with h1 | h1
  · exact h t h1 hu
  · simp only [List.mem_singleton] at h1
    subst h1
    exact (hg.2 hu).1

theorem txnInv_createTail {idsW ids : List Nat} {db : Database} (id : Nat) (hash : String)
    (h : TxnInv idsW ids db) : TxnInv idsW ids (db.createTail id hash) :=
  ⟨h.1, good_insertTail id hash h.2.1, hist_append h.2.2 (good_insertTail id hash h.2.1)⟩

theorem txnInv_mark {ids : List Nat} {db : Database} {S : Nat} {hash : String}
    (hS : S ∉ ids) (hrow : HasRow db.working S hash) (h : TxnInv (S :: ids) ids db) :
    TxnInv ids ids
      (match db.markTailAsConfirmed hash with
        | some db1 => ((.ok (), db1) : Except String Unit × Database)
        | none => (.error "UnknownTail", db)).2 := by
  unfold Database.markTailAsConfirmed
  split
  · rename_i db1 heq
    split at heq
    · simp only [Option.some.injEq] at heq
      subst heq
      exact ⟨h.1, good_confirmTail hS hrow h.2.1,
        hist_append h.2.2 (good_confirmTail hS hrow h.2.1)⟩
    · cases heq
  · exact ⟨h.1, good_tail h.2.1, h.2.2⟩

theorem txnInv_weaken {ids : List Nat} {db : Database} {S : Nat}
    (h : TxnInv (S :: ids) ids db) : TxnInv ids ids db :=
  ⟨h.1, good_tail h.2.1, h.2.2⟩

theorem dbWorld_stable_txn {τ : Type} (R : World τ) (idsW ids : List Nat) :
    StableUnder (dbWorld R) (fun st => TxnInv idsW ids st.1) where
  getTailsForSweep := fun id st h => by
    show TxnInv idsW ids (dbCall _ _ st).2.1
    rcases dbCall_cases (R.getTailsForSweep id)
      (fun db => (.ok (db.getTailsForSweep id), db)) st with h1 | h1 <;>
    · rw [h1]; exact h
  createTail := fun id hash st h => by
    show TxnInv idsW ids (dbCall _ _ st).2.1
    rcases dbCall_cases (R.createTail id hash)
      (fun db => (.ok (), db.createTail id hash)) st with h1 | h1
    · rw [h1]; exact h
    · rw [h1]; exact txnInv_createTail id hash h
  filterConfirmedTails := fun _ _ st h => by
    show TxnInv idsW ids (remoteCall _ st).2.1
    rw [remoteCall_db]; exact h
  filterConsistentTails := fun _ st h => by
    show TxnInv idsW ids (remoteCall _ st).2.1
    rw [remoteCall_db]; exact h
  findTransactions := fun _ _ st h => by
    show TxnInv idsW ids (remoteCall _ st).2.1
    rw [remoteCall_db]; exact h
  getTrytes := fun _ st h => by
    show TxnInv idsW ids (remoteCall _ st).2.1
    rw [remoteCall_db]; exact h
  getTransactionsToApprove := fun _ _ st h => by
    show TxnInv idsW ids (remoteCall _ st).2.1
    rw [remoteCall_db]; exact h
  storeTransactions := fun _ st h => by
    show TxnInv idsW ids (remoteCall _ st).2.1
    rw [remoteCall_db]; exact h
  broadcastTransactions := fun _ st h => by
    show TxnInv idsW ids (remoteCall _ st).2.1
    rw [remoteCall_db]; exact h
  performPOW := fun _ st h => by
    show TxnInv idsW ids (remoteCall _ st).2.1
    rw [remoteCall_db]; exact h
  doPOW := fun _ _ _ st h => by
    show TxnInv idsW ids (remoteCall _ st).2.1
    rw [remoteCall_db]; exact h

/-- The call `markTailAsConfirmed(hash)` for a hash that the sweep being processed has a
row for. -/
theorem mark_triple {τ : Type} (R : World τ) (ids : List Nat) (S : Nat) (hS : S ∉ ids)
    (hash : String) :
    Triple (fun s : Sys (Database × τ) =>
        TxnInv (S :: ids) ids s.st.1 ∧ HasRow s.st.1.working S hash)
      (call (.markTailAsConfirmed hash) ((dbWorld R).markTailAsConfirmed hash))
      (fun _ s => TxnInv ids ids s.st.1) := by
  have key : ∀ st : Database × τ, TxnInv (S :: ids) ids st.1 ∧ HasRow st.1.working S hash →
      TxnInv ids ids ((dbWorld R).markTailAsConfirmed hash st).2.1 := by
    intro st h
    show TxnInv ids ids (dbCall _ _ st).2.1
    rcases dbCall_cases (R.markTailAsConfirmed hash) (fun db =>
      match db.markTailAsConfirmed hash with
      | some db1 => (.ok (), db1)
      | none => (.error "UnknownTail", db)) st with h1 | h1
    · rw [h1]; exact txnInv_weaken h.1
    · rw [h1]; exact txnInv_mark hS h.2 h.1
  refine Triple.call_intro (fun s a st1 hs hop => ?_) (fun s e st1 hs hop => ?_)
  · have := key s.st hs
    rw [hop] at this
    exact this
  · have := key s.st hs
    rw [hop] at this
    exact this

/-! ## The invariant through the per-sweep protocol -/

section txn
variable {τ : Type}

theorem remote_filterConfirmed_txn (R : World τ) (hsub : SubsetContract R) (P : Database → Prop)
    (tails : List String) :
    Triple (fun s : Sys (Database × τ) => P s.st.1)
      (call (.filterConfirmedTails tails none) ((dbWorld R).filterConfirmedTails tails none))
      (fun o s => P s.st.1 ∧ ∀ cf, o = .ok cf → ∀ x ∈ cf.elems, x ∈ tails) := by
  refine Triple.call_intro (fun s a st1 hs hop => ?_) (fun s e st1 hs hop => ?_)
  · have hop1 : remoteCall (R.filterConfirmedTails tails none) s.st = (.ok a, st1) := hop
    obtain ⟨h1, h2⟩ := remoteCall_eq hop1
    refine ⟨by show P st1.1; rw [h2]; exact hs, fun cf hcf => ?_⟩
    cases hcf
    exact hsub _ _ _ _ _ h1
  · have hop1 : remoteCall (R.filterConfirmedTails tails none) s.st = (.error e, st1) := hop
    obtain ⟨_, h2⟩ := remoteCall_eq hop1
    exact ⟨by show P st1.1; rw [h2]; exact hs, fun cf hcf => by cases hcf⟩

theorem checkSweepTails_txn (R : World τ) (hsub : SubsetContract R) (ids : List Nat)
    (S : Sweep) (hS : S.id ∉ ids) (tails : List String) :
    Triple (fun s : Sys (Database × τ) =>
        TxnInv (S.id :: ids) ids s.st.1 ∧ ∀ x ∈ tails, HasRow s.st.1.working S.id x)
      (checkSweepTailsForConfirmation (dbWorld R) S tails)
      (fun o s => TxnInv ids ids s.st.1 ∧ (o = .ok false → TxnInv (S.id :: ids) ids s.st.1)) := by
  unfold checkSweepTailsForConfirmation
  refine Triple.bind_intro _
    (remote_filterConfirmed_txn R hsub
      (fun db => TxnInv (S.id :: ids) ids db ∧ ∀ x ∈ tails, HasRow db.working S.id x) tails)
    (fun cf => ?_) ?_ ?_ ?_
  · split
    · split
      · rename_i tail more heq
        refine Triple.bind_intro (fun _ (s : Sys (Database × τ)) => TxnInv ids ids s.st.1)
          ?_ (fun _ => ?_) ?_ ?_ ?_
        · exact Triple.weaken (mark_triple R ids S.id hS tail)
            (fun s hs => ⟨hs.1.1, hs.1.2 tail (hs.2 cf rfl tail (by rw [heq]; simp))⟩)
            (fun _ _ h => h)
        · exact fun s hs => ⟨hs, fun h => by cases h⟩
        · exact fun e s h => ⟨h, fun h2 => by cases h2⟩
        · exact fun s h => ⟨h, fun h2 => by cases h2⟩
        · exact fun s h => ⟨h, fun h2 => by cases h2⟩
      · exact fun s hs => ⟨txnInv_weaken hs.1.1, fun h => by cases h⟩
    · split
      · exact fun s hs => ⟨txnInv_weaken hs.1.1, fun h => by cases h⟩
      · exact fun s hs => ⟨txnInv_weaken hs.1.1, fun _ => hs.1.1⟩
  · exact fun e s h => ⟨txnInv_weaken h.1.1, fun h2 => by cases h2⟩
  · exact fun s h => ⟨txnInv_weaken h.1.1, fun h2 => by cases h2⟩
  · exact fun s h => ⟨txnInv_weaken h.1.1, fun h2 => by cases h2⟩

/-- Sequencing under an invariant `J` that implies the final assertion `K`. -/
theorem Triple.bind_weaken {σ α β : Type} {J K : Sys σ → Prop} {x : Prog σ α}
    {f : α → Prog σ β} (hJK : ∀ s, J s → K s) (hx : Triple J x (fun _ s => J s))
    (hf : ∀ a, Triple J (f a) (fun _ s => K s)) : Triple J (x >>= f) (fun _ s => K s) :=
  Triple.bind_intro _ hx hf (fun _ s h => hJK s h) (fun s h => hJK s h) (fun s h => hJK s h)

theorem createTail_triple (R : World τ) (idsW ids : List Nat) (id : Nat) (hash : String) :
    Triple (fun s : Sys (Database × τ) => TxnInv idsW ids s.st.1)
      (call (.createTail id hash) ((dbWorld R).createTail id hash))
      (fun o s => TxnInv idsW ids s.st.1 ∧ (o = .ok () → HasRow s.st.1.working id hash)) := by
  refine Triple.call_intro (fun s a st1 hs hop => ?_) (fun s e st1 hs hop => ?_)
  · have hop1 : dbCall (R.createTail id hash) (fun db => (.ok (), db.createTail id hash)) s.st =
        (.ok a, st1) := hop
    have h1 := dbCall_ok hop1
    simp only [Prod.mk.injEq] at h1
    show TxnInv idsW ids st1.1 ∧ _
    rw [← h1.2]
    exact ⟨txnInv_createTail id hash hs, fun _ => hasRow_insertTail _ _ _⟩
  · have h := (dbWorld_stable_txn R idsW ids).createTail id hash s.st hs
    rw [hop] at h
    exact ⟨h, fun h2 => by cases h2⟩

theorem checkForUserReattachment_txn (R : World τ) (ids : List Nat) (S : Sweep)
    (hS : S.id ∉ ids) (known : List String) :
    Triple (fun s : Sys (Database × τ) => TxnInv (S.id :: ids) ids s.st.1)
      (checkForUserReattachment (dbWorld R) S known)
      (fun _ s => TxnInv ids ids s.st.1) := by
  have hst := dbWorld_stable_txn R (S.id :: ids) ids
  have hw : ∀ s : Sys (Database × τ), TxnInv (S.id :: ids) ids s.st.1 → TxnInv ids ids s.st.1 :=
    fun s h => txnInv_weaken h
  unfold checkForUserReattachment
  refine Triple.bind_weaken hw (Triple.inv_call (hst.findTransactions _ _)) (fun hashes => ?_)
  refine Triple.bind_weaken hw (Triple.inv_call (hst.getTrytes _)) (fun fetched => ?_)
  dsimp only
  split
  · refine Triple.bind_weaken hw (Triple.inv_call (hst.filterConfirmedTails _ _)) (fun uc => ?_)
    split
    · split
      · rename_i tail more heq
        refine Triple.bind_intro _ (createTail_triple R (S.id :: ids) ids S.id tail)
          (fun u => ?_) ?_ ?_ ?_
        · refine Triple.bind_intro (fun _ (s : Sys (Database × τ)) => TxnInv ids ids s.st.1)
            ?_ (fun _ => ?_) ?_ ?_ ?_
          · exact Triple.weaken (mark_triple R ids S.id hS tail)
              (fun s hs => ⟨hs.1, hs.2 rfl⟩) (fun _ _ h => h)
          · exact fun s hs => hs
          · exact fun _ _ h => h
          · exact fun _ h => h
          · exact fun _ h => h
        · exact fun _ s h => hw s h.1
        · exact fun s h => hw s h.1
        · exact fun s h => hw s h.1
      · exact fun s hs => hw s hs
    · refine Triple.bind_weaken hw (Triple.inv_call (hst.filterConsistentTails _)) (fun cs => ?_)
      dsimp only
      split
      · exact Triple.bind_weaken hw (insertTails_stable hst _ _) (fun _ s hs => hw s hs)
      · exact Triple.bind_weaken hw Triple.inv_pure (fun _ s hs => hw s hs)
  · exact fun s hs => hw s hs

theorem getTails_triple (R : World τ) (P : Database → Prop) (id : Nat) :
    Triple (fun s : Sys (Database × τ) => P s.st.1)
      (call (.getTailsForSweep id) ((dbWorld R).getTailsForSweep id))
      (fun o s => P s.st.1 ∧ ∀ known, o = .ok known → ∀ x ∈ known, HasRow s.st.1.working id x) := by
  refine Triple.call_intro (fun s a st1 hs hop => ?_) (fun s e st1 hs hop => ?_)
  · have hop1 : dbCall (R.getTailsForSweep id) (fun db => (.ok (db.getTailsForSweep id), db))
        s.st = (.ok a, st1) := hop
    have h1 := dbCall_ok hop1
    simp only [Prod.mk.injEq, Except.ok.injEq] at h1
    show P st1.1 ∧ _
    rw [← h1.2]
    refine ⟨hs, fun known hk x hx => ?_⟩
    cases hk
    rw [← h1.1] at hx
    unfold Database.getTailsForSweep at hx
    obtain ⟨r, hr, hrx⟩ := List.mem_map.mp hx
    rw [List.mem_filter] at hr
    exact ⟨r, hr.1, by simpa using hr.2, hrx⟩
  · have hop1 : dbCall (R.getTailsForSweep id) (fun db => (.ok (db.getTailsForSweep id), db))
        s.st = (.error e, st1) := hop
    have h1 := dbCall_error _ _ (fun db => ⟨db.getTailsForSweep id, rfl⟩) _ _ _ hop1
    exact ⟨by show P st1.1; rw [h1]; exact hs, fun known hk => by cases hk⟩

theorem confirmationSteps_txn (R : World τ) (hsub : SubsetContract R) (ids : List Nat)
    (S : Sweep) (hS : S.id ∉ ids) :
    Triple (fun s : Sys (Database × τ) => TxnInv (S.id :: ids) ids s.st.1)
      (confirmationSteps (dbWorld R) S) (fun _ s => TxnInv ids ids s.st.1) := by
  unfold confirmationSteps
  refine Triple.bind_intro _ (getTails_triple R (TxnInv (S.id :: ids) ids) S.id)
    (fun known => ?_) ?_ ?_ ?_
  · refine Triple.bind_intro _
      (Triple.weaken (checkSweepTails_txn R hsub ids S hS known)
        (fun s hs => ⟨hs.1, hs.2 known rfl⟩) (fun _ _ h => h))
      (fun direct => ?_) ?_ ?_ ?_
    · split
      · exact fun s hs => hs.1
      · rename_i hd
        have hd1 : direct = false := by simpa using hd
        subst hd1
        exact Triple.weaken (checkForUserReattachment_txn R ids S hS known)
          (fun s hs => hs.2 rfl) (fun _ _ h => h)
    · exact fun _ _ h => h.1
    · exact fun _ h => h.1
    · exact fun _ h => h.1
  · exact fun _ _ h => txnInv_weaken h.1
  · exact fun _ h => txnInv_weaken h.1
  · exact fun _ h => txnInv_weaken h.1

end txn

/-! ## The invariant through a tick -/

section tick
variable {τ : Type}

theorem Triple.tryCatch_intro {σ α : Type} {P : Sys σ → Prop} {body : Prog σ α}
    {handler : String → Prog σ α} {Q : Outcome α → Sys σ → Prop}
    (Rb : Outcome α → Sys σ → Prop) (hbody : Triple P body Rb)
    (hhandler : ∀ e, Triple (Rb (.raise e)) (handler e) Q)
    (hok : ∀ a s, Rb (.ok a) s → Q (.ok a) s)
    (hfatal : ∀ s, Rb .fatal s → Q .fatal s)
    (hundef : ∀ s, Rb .undef s → Q .undef s) : Triple P (tryCatch body handler) Q := by
  intro s hs
  have h := hbody s hs
  unfold tryCatch
  rcases hb : body s with ⟨o, s1⟩
  rw [hb] at h
  cases o with
  | ok a => exact hok a s1 h
  | raise e => exact hhandler e s1 h
  | fatal => exact hfatal s1 h
  | undef => exact hundef s1 h

theorem txnInv_commit {ids : List Nat} {db : Database} (h : TxnInv ids ids db) :
    TxnInv ids ids db.commit :=
  ⟨h.2.1, h.2.1, h.2.2⟩

theorem txnInv_rollback {ids : List Nat} {db : Database} (h : TxnInv ids ids db) :
    TxnInv ids ids db.rollback :=
  ⟨h.1, h.1, h.2.2⟩

theorem perSweepProtocol_txn (R : World τ) (hsub : SubsetContract R) (ids : List Nat)
    (S : Sweep) (hS : S.id ∉ ids) :
    Triple (fun s : Sys (Database × τ) => TxnInv (S.id :: ids) ids s.st.1)
      (perSweepProtocol (dbWorld R) S) (fun _ s => TxnInv ids ids s.st.1) := by
  have hcommit : Triple (fun s : Sys (Database × τ) => TxnInv ids ids s.st.1)
      (call .commit (dbWorld R).commit) (fun _ s => TxnInv ids ids s.st.1) := by
    refine Triple.inv_call_of (fun st : Database × τ => TxnInv ids ids st.1) (fun st h => ?_)
    show TxnInv ids ids (dbCall _ _ st).2.1
    rcases dbCall_cases R.commit (fun db => (.ok (), db.commit)) st with h1 | h1
    · rw [h1]; exact h
    · rw [h1]; exact txnInv_commit h
  unfold perSweepProtocol
  refine Triple.bind_intro _ (confirmationSteps_txn R hsub ids S hS) (fun confirmed => ?_)
    (fun _ _ h => h) (fun _ h => h) (fun _ h => h)
  dsimp only
  split
  · exact Triple.inv_bind Triple.inv_pure (fun _ => hcommit)
  · exact Triple.inv_bind (promoteOrReattach_stable (dbWorld_stable_txn R ids ids) S)
      (fun _ => hcommit)

theorem rollbackHandler_txn (R : World τ) (ids : List Nat) :
    Triple (fun s : Sys (Database × τ) => TxnInv ids ids s.st.1)
      (rollbackHandler (dbWorld R)) (fun _ s => TxnInv ids ids s.st.1) := by
  unfold rollbackHandler
  refine Triple.tryCatch_intro (fun _ (s : Sys (Database × τ)) => TxnInv ids ids s.st.1) ?_
    (fun e => Triple.inv_pure) (fun _ _ h => h) (fun _ h => h) (fun _ h => h)
  refine Triple.inv_call_of (fun st : Database × τ => TxnInv ids ids st.1) (fun st h => ?_)
  show TxnInv ids ids (dbCall _ _ st).2.1
  rcases dbCall_cases R.rollback (fun db => (.ok (), db.rollback)) st with h1 | h1
  · rw [h1]; exact h
  · rw [h1]; exact txnInv_rollback h

theorem idle_of_txnInv {ids : List Nat} {db : Database} (h : TxnInv ids ids db) :
    Idle ids db := ⟨h.1, h.2.2⟩

theorem idle_tail {ids : List Nat} {S : Nat} {db : Database} (h : Idle (S :: ids) db) :
    Idle ids db := ⟨good_tail h.1, h.2⟩

theorem idle_nil {ids : List Nat} {db : Database} (h : Idle ids db) : Idle [] db :=
  ⟨⟨h.1.1, fun hu => ⟨(h.1.2 hu).1, fun _ hid => by cases hid⟩⟩, h.2⟩

theorem processSweep_idle (R : World τ) (hsub : SubsetContract R) (ids : List Nat)
    (S : Sweep) (hS : S.id ∉ ids) :
    Triple (fun s : Sys (Database × τ) => Idle (S.id :: ids) s.st.1)
      (processSweep (dbWorld R) S) (fun _ s => Idle ids s.st.1) := by
  unfold processSweep
  refine Triple.bind_intro
    (fun o (s : Sys (Database × τ)) =>
      Idle ids s.st.1 ∧ (o = .ok () → TxnInv (S.id :: ids) ids s.st.1)) ?_ (fun _ => ?_)
    (fun _ _ h => h.1) (fun _ h => h.1) (fun _ h => h.1)
  · refine Triple.call_intro (fun s a st1 hs hop => ?_) (fun s e st1 hs hop => ?_)
    · have hop1 : dbCall R.transaction (fun db => (.ok (), db.beginTransaction)) s.st =
          (.ok a, st1) := hop
      have h1 := dbCall_ok hop1
      simp only [Prod.mk.injEq] at h1
      show Idle ids st1.1 ∧ _
      rw [← h1.2]
      exact ⟨⟨good_tail hs.1, hs.2⟩, fun _ => ⟨good_tail hs.1, hs.1, hs.2⟩⟩
    · have hop1 : dbCall R.transaction (fun db => (.ok (), db.beginTransaction)) s.st =
          (.error e, st1) := hop
      have h1 := dbCall_error _ _ (fun db => ⟨(), rfl⟩) _ _ _ hop1
      show Idle ids st1.1 ∧ _
      rw [h1]
      exact ⟨idle_tail hs, fun h2 => by cases h2⟩
  · refine Triple.bind_intro (fun _ (s : Sys (Database × τ)) => TxnInv ids ids s.st.1) ?_
      (fun _ => ?_) (fun _ _ h => idle_of_txnInv h) (fun _ h => idle_of_txnInv h)
      (fun _ h => idle_of_txnInv h)
    · refine Triple.tryCatch_intro (fun _ (s : Sys (Database × τ)) => TxnInv ids ids s.st.1)
        ?_ (fun e => rollbackHandler_txn R ids) (fun _ _ h => h) (fun _ h => h)
        (fun _ h => h)
      exact Triple.weaken (perSweepProtocol_txn R hsub ids S hS) (fun s hs => hs.2 rfl)
        (fun _ _ h => h)
    · exact fun s hs => idle_of_txnInv (txnInv_rollback hs)

theorem processSweeps_idle (R : World τ) (hsub : SubsetContract R) (sweeps : List Sweep)
    (hnd : (sweeps.map (fun x => x.id)).Nodup) :
    Triple (fun s : Sys (Database × τ) => Idle (sweeps.map (fun x => x.id)) s.st.1)
      (processSweeps (dbWorld R) sweeps) (fun _ s => Idle [] s.st.1) := by
  induction sweeps with
  | nil => exact fun s hs => hs
  | cons S rest ih =>
    rw [List.map_cons, List.nodup_cons] at hnd
    unfold processSweeps
    show Triple (fun s : Sys (Database × τ) => Idle (S.id :: rest.map (fun x => x.id)) s.st.1)
      _ _
    refine Triple.bind_intro
      (fun _ (s : Sys (Database × τ)) => Idle (rest.map (fun x => x.id)) s.st.1)
      (processSweep_idle R hsub _ S hnd.1) (fun _ => ih hnd.2)
      (fun _ _ h => idle_nil h) (fun _ h => idle_nil h) (fun _ h => idle_nil h)

theorem getUnconfirmedSweeps_ids (db : Database) (asOf : Int)
    (hids : (db.sweeps.map (fun p => p.1.id)).Nodup) :
    ((db.getUnconfirmedSweeps asOf).map (fun x => x.id)).Nodup ∧
      ∀ id ∈ (db.getUnconfirmedSweeps asOf).map (fun x => x.id),
        hasConfirmedTail db.committed id = false := by
  unfold Database.getUnconfirmedSweeps
  rw [List.map_map]
  constructor
  · exact List.Nodup.sublist (List.Sublist.map _ (List.filter_sublist _)) hids
  · intro id hid
    obtain ⟨p, hp, hpid⟩ := List.mem_map.mp hid
    rw [List.mem_filter] at hp
    simp only [Function.comp] at hpid
    have := hp.2
    simp only [Bool.and_eq_true, Bool.not_eq_true', decide_eq_true_eq] at this
    rw [← hpid]
    exact this.2

/-- The start of a tick satisfies the assertions below; the tick keeps them. -/
theorem doTick_idle (R : World τ) (hsub : SubsetContract R) :
    Triple (fun s : Sys (Database × τ) =>
        (s.st.1.sweeps.map (fun p => p.1.id)).Nodup ∧ KeysNodup s.st.1.committed ∧
          AtMostOnePerSweep s.st.1.committed ∧ Hist s.st.1.history)
      (doTick (dbWorld R)) (fun _ s => Idle [] s.st.1) := by
  have hP : ∀ s : Sys (Database × τ),
      ((s.st.1.sweeps.map (fun p => p.1.id)).Nodup ∧ KeysNodup s.st.1.committed ∧
        AtMostOnePerSweep s.st.1.committed ∧ Hist s.st.1.history) → Idle [] s.st.1 :=
    fun s h => ⟨⟨h.2.1, fun _ => ⟨h.2.2.1, fun _ hid => by cases hid⟩⟩, h.2.2.2⟩
  unfold doTick
  refine Triple.bind_weaken hP Triple.inv_readClock (fun tickStart => ?_)
  refine Triple.bind_weaken hP ?_ (fun _ => ?_)
  · refine Triple.inv_call_of (fun st : Database × τ =>
      (st.1.sweeps.map (fun p => p.1.id)).Nodup ∧ KeysNodup st.1.committed ∧
        AtMostOnePerSweep st.1.committed ∧ Hist st.1.history) (fun st h => ?_)
    have h1 : ((dbWorld R).getNodeInfo st).2.1 = st.1 := remoteCall_db _ st
    dsimp only at h ⊢
    rw [h1]
    exact h
  · refine Triple.bind_intro
      (fun o (s : Sys (Database × τ)) => Idle [] s.st.1 ∧
        ∀ l, o = .ok l → (l.map (fun x => x.id)).Nodup ∧ Idle (l.map (fun x => x.id)) s.st.1)
      ?_ (fun l => ?_) (fun _ _ h => h.1) (fun _ h => h.1) (fun _ h => h.1)
    · refine Triple.call_intro (fun s a st1 hs hop => ?_) (fun s e st1 hs hop => ?_)
      · have hop1 : dbCall (R.getUnconfirmedSweeps tickStart)
            (fun db => (.ok (db.getUnconfirmedSweeps tickStart), db)) s.st = (.ok a, st1) := hop
        have h1 := dbCall_ok hop1
        simp only [Prod.mk.injEq, Except.ok.injEq] at h1
        show Idle [] st1.1 ∧ _
        rw [← h1.2]
        refine ⟨hP s hs, fun l hl => ?_⟩
        cases hl
        rw [← h1.1]
        obtain ⟨hn, hz⟩ := getUnconfirmedSweeps_ids s.st.1 tickStart hs.1
        exact ⟨hn, ⟨hs.2.1, fun _ => ⟨hs.2.2.1, hz⟩⟩, hs.2.2.2⟩
      · have hop1 : dbCall (R.getUnconfirmedSweeps tickStart)
            (fun db => (.ok (db.getUnconfirmedSweeps tickStart), db)) s.st = (.error e, st1) := hop
        have h1 := dbCall_error _ _ (fun db => ⟨db.getUnconfirmedSweeps tickStart, rfl⟩) _ _ _ hop1
        show Idle [] st1.1 ∧ _
        rw [h1]
        exact ⟨hP s hs, fun l hl => by cases hl⟩
    · refine Triple.bind_intro (fun _ (s : Sys (Database × τ)) => Idle [] s.st.1) ?_
        (fun _ => fun s hs => hs) (fun _ _ h => h) (fun _ h => h) (fun _ h => h)
      intro s hs
      exact processSweeps_idle R hsub l (hs.2 l rfl).1 s (hs.2 l rfl).2

end tick

/-! ## Concrete runs of a tick -/

theorem doTick_run {σ : Type} (W : World σ) (s : Sys σ) (info : NodeInfo) (sweeps : List Sweep)
    (sa sb : σ) (hinfo : W.getNodeInfo s.st = (.ok info, sa))
    (hsweeps : W.getUnconfirmedSweeps (W.now s.st) sa = (.ok sweeps, sb)) :
    doTick W s =
      (processSweeps W sweeps >>= fun _ => pure true)
        ⟨sb, s.trace ++ [.getNodeInfo, .getUnconfirmedSweeps (W.now s.st)]⟩ := by
  simp only [doTick, Prog.bind_run, readClock, call, hinfo, hsweeps, List.append_assoc,
    List.singleton_append]

theorem processSweeps_one {σ : Type} (W : World σ) (sweep : Sweep) (s : Sys σ) :
    processSweeps W [sweep] s = (processSweep W sweep >>= fun _ => pure ()) s := by
  simp only [processSweeps]

theorem sharedHashWorld_subset : SubsetContract sharedHashWorld := by
  intro tails reference st confirmed st1 h x hx
  simp only [sharedHashWorld, Prod.mk.injEq, Except.ok.injEq] at h
  obtain ⟨h1, _⟩ := h
  subst h1
  split at hx
  · rename_i ht
    rw [ht]
    exact hx
  · cases hx

/-! ## Step B in detail -/

theorem userTails_eq_spec (known : List String) (txs : List Transaction) :
    (removeKnown known txs).map (fun tx => tx.hash) = specUserTails known txs := by
  unfold removeKnown specUserTails notNewTail
  congr 1
  apply List.filter_congr
  intro tx _
  by_cases h1 : tx.currentIndex = 0 <;> by_cases h2 : tx.hash ∈ known <;> simp [h1, h2]

theorem insertTails_run {σ : Type} (W : World σ) (id : Nat) (tails : List String)
    (s : Sys σ) :
    ∃ evs, (insertTails W id tails s).2.trace = s.trace ++ evs ∧
      evs <+: tails.map (fun t => Event.createTail id t) ∧
      (((insertTails W id tails s).1 = .ok () ∧
          evs = tails.map (fun t => Event.createTail id t)) ∨
        ∃ e, (insertTails W id tails s).1 = .raise e) := by
  induction tails generalizing s with
  | nil => exact ⟨[], by simp [insertTails, Prog.pure_run], by simp, Or.inl ⟨rfl, rfl⟩⟩
  | cons t rest ih =>
    simp only [insertTails, Prog.bind_run, call]
    rcases hc : W.createTail id t s.st with ⟨r, s1⟩
    cases r with
    | error e =>
      refine ⟨[.createTail id t], by simp, ?_, Or.inr ⟨e, rfl⟩⟩
      simp only [List.map_cons]
      exact ⟨_, rfl⟩
    | ok u =>
      obtain ⟨evs, h1, h2, h3⟩ := ih ⟨s1, s.trace ++ [.createTail id t]⟩
      refine ⟨.createTail id t :: evs, by simp [h1], ?_, ?_⟩
      · simp only [List.map_cons]
        obtain ⟨k, hk⟩ := h2
        exact ⟨k, by simp [hk]⟩
      · rcases h3 with ⟨h3a, h3b⟩ | ⟨e, h3⟩
        · exact Or.inl ⟨h3a, by simp [h3b]⟩
        · exact Or.inr ⟨e, h3⟩

theorem perSweepProtocol_of_false {σ : Type} (W : World σ) (sweep : Sweep) (s sC : Sys σ)
    (h : confirmationSteps W sweep s = (.ok false, sC)) :
    perSweepProtocol W sweep s =
      (promoteOrReattach W sweep >>= fun _ => call .commit W.commit) sC := by
  simp [perSweepProtocol, Prog.bind_run, h]

theorem stepB_confirmed_trace {σ : Type} (W : World σ) (sweep : Sweep) (known : List String)
    (s : Sys σ) (hashes : List String) (fetched : List Transaction) (uconfirmed : UnorderedSet)
    (t : String) (more : List String) (s1 s2 s3 : σ)
    (hfind : W.findTransactions none (some [sweep.bundleHash]) s.st = (.ok hashes, s1))
    (htrytes : W.getTrytes hashes s1 = (.ok fetched, s2))
    (huser : specUserTails known fetched ≠ [])
    (hfilter : W.filterConfirmedTails (specUserTails known fetched) none s2 =
      (.ok uconfirmed, s3))
    (helems : uconfirmed.elems = t :: more) :
    ∃ rest, (checkForUserReattachment W sweep known s).2.trace =
        s.trace ++ [.findTransactions none (some [sweep.bundleHash]), .getTrytes hashes,
          .filterConfirmedTails (specUserTails known fetched) none,
          .createTail sweep.id t] ++ rest ∧
      rest <+: [.markTailAsConfirmed t] := by
  have heq := userTails_eq_spec known fetched
  rw [← heq] at huser hfilter ⊢
  have hlen : (removeKnown known fetched).length ≠ 0 := by
    intro h
    exact huser (by simp [List.length_eq_zero.mp h])
  have hs : uconfirmed.size ≠ 0 := by simp [UnorderedSet.size, helems]
  simp only [checkForUserReattachment, Prog.bind_run, call, hfind, htrytes]
  rw [if_pos hlen]
  simp only [Prog.bind_run, call, hfilter]
  rw [if_pos hs]
  simp only [helems, Prog.bind_run, call]
  rcases hc : W.createTail sweep.id t s3 with ⟨rc, s4⟩
  cases rc with
  | error e => exact ⟨[], by simp [hc], by simp⟩
  | ok u =>
    rcases hm : W.markTailAsConfirmed t s4 with ⟨rm, s5⟩
    cases rm <;>
    exact ⟨[.markTailAsConfirmed t], by simp [hc, hm, Prog.pure_run], List.prefix_refl _⟩

/-! ## Runs of the per-sweep protocol that return -/

theorem checkForUserReattachment_false_run {σ : Type} (W : World σ) (sweep : Sweep)
    (known : List String) (s sB : Sys σ)
    (h : checkForUserReattachment W sweep known s = (.ok false, sB)) :
    (∃ hashes, sB.trace = s.trace ++
      [.findTransactions none (some [sweep.bundleHash]), .getTrytes hashes]) ∨
    (∃ hashes userTails st3 consistent st4,
      W.filterConsistentTails userTails st3 = (.ok consistent, st4) ∧
      insertTails W sweep.id consistent.elems
        ⟨st4, s.trace ++ [.findTransactions none (some [sweep.bundleHash]),
          .getTrytes hashes, .filterConfirmedTails userTails none,
          .filterConsistentTails userTails]⟩ = (.ok (), sB)) := by
  simp only [checkForUserReattachment, Prog.bind_run, call] at h
  rcases hfind : W.findTransactions none (some [sweep.bundleHash]) s.st with ⟨r, st⟩
  cases r with
  | error e => simp [hfind] at h
  | ok hashes =>
    simp only [hfind] at h
    rcases htry : W.getTrytes hashes st with ⟨r2, st2⟩
    cases r2 with
    | error e => simp [htry] at h
    | ok fetched =>
      simp only [htry] at h
      by_cases hne : (removeKnown known fetched).length ≠ 0
      · rw [if_pos hne] at h
        simp only [Prog.bind_run, call] at h
        rcases hf : W.filterConfirmedTails ((removeKnown known fetched).map (fun tx => tx.hash))
          none st2 with ⟨r3, st3⟩
        cases r3 with
        | error e => simp [hf] at h
        | ok uc =>
          simp only [hf] at h
          by_cases hs : uc.size ≠ 0
          · rw [if_pos hs] at h
            cases hel : uc.elems with
            | nil => simp [hel, undefinedBehaviour] at h
            | cons t more =>
              simp only [hel, Prog.bind_run, call] at h
              rcases hc : W.createTail sweep.id t st3 with ⟨rc, st4⟩
              cases rc with
              | error e => simp [hc] at h
              | ok u =>
                simp only [hc] at h
                rcases hm : W.markTailAsConfirmed t st4 with ⟨rm, st5⟩
                cases rm <;> simp [hm, Prog.pure_run] at h
          · rw [if_neg hs] at h
            simp only [Prog.bind_run, call] at h
            rcases hcs : W.filterConsistentTails
              ((removeKnown known fetched).map (fun tx => tx.hash)) st3 with ⟨r4, st4⟩
            cases r4 with
            | error e => simp [hcs] at h
            | ok cons =>
              simp only [hcs, List.append_assoc, List.cons_append, List.nil_append] at h
              refine Or.inr ⟨hashes, (removeKnown known fetched).map (fun tx => tx.hash), st3,
                cons, st4, hcs, ?_⟩
              by_cases hz : cons.size ≠ 0
              · rw [if_pos hz, Prog.bind_run] at h
                rcases hi : insertTails W sweep.id cons.elems
                  ⟨st4, s.trace ++ [.findTransactions none (some [sweep.bundleHash]),
                    .getTrytes hashes,
                    .filterConfirmedTails ((removeKnown known fetched).map (fun tx => tx.hash))
                      none,
                    .filterConsistentTails
                      ((removeKnown known fetched).map (fun tx => tx.hash))]⟩ with ⟨o, s5⟩
                rw [hi] at h
                cases o <;> simp [Prog.pure_run] at h
                rw [hi, h]
              · rw [if_neg hz] at h
                have hnil : cons.elems = [] := by
                  have : cons.elems.length = 0 := by
                    simpa [UnorderedSet.size] using hz
                  exact List.length_eq_zero.mp this
                simp [Prog.pure_run, Prog.bind_run] at h
                rw [hnil, ← h]
                simp [insertTails, Prog.pure_run]
      · rw [if_neg hne] at h
        simp [Prog.pure_run] at h
        exact Or.inl ⟨hashes, by rw [← h]⟩

theorem hasRow_insertTail_of_hasRow {rows : List SweepTail} {id : Nat} {hash : String}
    (id1 : Nat) (hash1 : String) (h : HasRow rows id hash) :
    HasRow (insertTail rows id1 hash1) id hash := by
  obtain ⟨r, hr, hp⟩ := h
  exact ⟨r, mem_insertTail_of_mem id1 hash1 hr, hp⟩

theorem insertTails_db {τ : Type} (R : World τ) (id : Nat) (tails : List String)
    (s s1 : Sys (Database × τ))
    (h : insertTails (dbWorld R) id tails s = (.ok (), s1)) :
    s1.trace = s.trace ++ tails.map (fun t => Event.createTail id t) ∧
    (∀ u ∈ tails, HasRow s1.st.1.working id u) ∧
    (∀ u, HasRow s.st.1.working id u → HasRow s1.st.1.working id u) := by
  induction tails generalizing s with
  | nil =>
    simp only [insertTails, Prog.pure_run, Prod.mk.injEq, true_and] at h
    subst h
    simp
  | cons t rest ih =>
    simp only [insertTails, Prog.bind_run, call] at h
    rcases hc : (dbWorld R).createTail id t s.st with ⟨r, st1⟩
    cases r with
    | error e => simp [hc] at h
    | ok u0 =>
      simp only [hc] at h
      obtain ⟨h1, h2, h3⟩ := ih _ h
      have hc1 : dbCall (R.createTail id t) (fun db => (.ok (), db.createTail id t)) s.st =
          (.ok u0, st1) := hc
      have hrun := dbCall_ok hc1
      have hw : st1.1.working = insertTail s.st.1.working id t := by
        simp only [Prod.mk.injEq] at hrun
        rw [← hrun.2]
        rfl
      refine ⟨by rw [h1]; simp, ?_, ?_⟩
      · intro u hu
        rcases List.mem_cons.mp hu with rfl | hu
        · exact h3 u (by rw [hw]; exact hasRow_insertTail _ _ _)
        · exact h2 u hu
      · intro u hu
        exact h3 u (by rw [hw]; exact hasRow_insertTail_of_hasRow id t hu)

theorem mem_getTailsForSweep (db : Database) (id : Nat) (u : String)
    (h : HasRow db.working id u) : u ∈ db.getTailsForSweep id := by
  obtain ⟨r, hr, hid, hh⟩ := h
  unfold Database.getTailsForSweep
  exact List.mem_map.mpr ⟨r, List.mem_filter.mpr ⟨hr, by simp [hid]⟩, hh⟩

theorem promoteSweep_not_reattach {σ : Type} (W : World σ) (sweep : Sweep) (t : String)
    (s : Sys σ) :
    ∃ rest, (promoteSweep W sweep t s).2.trace =
        s.trace ++ .getTransactionsToApprove 0 (some t) :: rest ∧
      ∀ e ∈ rest, e.isPerformPOW = false ∧ e.isCreateTail = false := by
  simp only [promoteSweep, Prog.bind_run, call, readClock]
  rcases h1 : W.getTransactionsToApprove 0 (some t) s.st with ⟨r1, s1⟩
  cases r1 with
  | error e => exact ⟨[], by simp, by simp⟩
  | ok tips =>
    rcases h2 : W.doPOW [W.toTrytes ⟨promotionAddress, 0, W.now s1⟩] tips.1 tips.2 s1
      with ⟨r2, s2⟩
    cases r2 with
    | error e =>
      exact ⟨[.doPOW [W.toTrytes ⟨promotionAddress, 0, W.now s1⟩] tips.1 tips.2],
        by simp [h2], by simp [Event.isPerformPOW, Event.isCreateTail]⟩
    | ok attached =>
      rcases h3 : W.storeTransactions attached s2 with ⟨r3, s3⟩
      cases r3 with
      | error e =>
        exact ⟨[.doPOW [W.toTrytes ⟨promotionAddress, 0, W.now s1⟩] tips.1 tips.2,
          .storeTransactions attached], by simp [h2, h3],
          by simp [Event.isPerformPOW, Event.isCreateTail]⟩
      | ok b =>
        rcases h4 : W.broadcastTransactions attached s3 with ⟨r4, s4⟩
        cases r4 <;>
        exact ⟨[.doPOW [W.toTrytes ⟨promotionAddress, 0, W.now s1⟩] tips.1 tips.2,
          .storeTransactions attached, .broadcastTransactions attached],
          by simp [h2, h3, h4, Prog.pure_run],
          by simp [Event.isPerformPOW, Event.isCreateTail]⟩

theorem userPendingWorld_oracle :
    ConsistencyOracle userPendingWorld (fun x => x == "U1" || x == "U2") := by
  intro tails st c st1 h
  have hc : c = ⟨["U2", "U1"], by decide⟩ := by
    have h1 : ((.ok ⟨["U2", "U1"], by decide⟩, st) : Except String UnorderedSet × Unit) =
        (.ok c, st1) := h
    simp only [Prod.mk.injEq, Except.ok.injEq] at h1
    exact h1.1.symm
  subst hc
  constructor
  · intro x hx
    simp only [List.mem_cons, List.mem_singleton, List.not_mem_nil, or_false] at hx
    rcases hx with rfl | rfl <;> decide
  · intro x _ hx
    simp only [Bool.or_eq_true, beq_iff_eq] at hx
    rcases hx with rfl | rfl <;> simp

/-! ## The calls emitted by the per-sweep protocol -/

section emits

variable {σ : Type} {P : Event → Bool}

end emits

/-! ## One transaction per sweep -/

theorem rollbackHandler_run {σ : Type} (W : World σ) (s : Sys σ) :
    rollbackHandler W s = (.ok (), ⟨(W.rollback s.st).2, s.trace ++ [.rollback]⟩) := by
  simp only [rollbackHandler, tryCatch, call]
  rcases hr : W.rollback s.st with ⟨r, st⟩
  cases r <;> simp [Prog.pure_run]

section provenance

variable {τ : Type}

theorem Triple.seq {σ α β : Type} {P K : Sys σ → Prop} {A : α → Sys σ → Prop}
    {x : Prog σ α} {f : α → Prog σ β}
    (hx : Triple P x (fun o s => K s ∧ ∀ a, o = .ok a → A a s))
    (hf : ∀ a, Triple (A a) (f a) (fun _ s => K s)) :
    Triple P (x >>= f) (fun _ s => K s) :=
  Triple.bind_intro (fun o s => K s ∧ ∀ a, o = .ok a → A a s) hx
    (fun a => Triple.weaken (hf a) (fun _ hs => hs.2 a rfl) (fun _ _ h => h))
    (fun _ _ h => h.1) (fun _ h => h.1) (fun _ h => h.1)

theorem Triple.call_seq {σ α : Type} {P K : σ → Prop} {A : α → σ → Prop} {ev : Event}
    {op : σ → Except String α × σ}
    (h : ∀ st, P st → K (op st).2 ∧ ∀ a, (op st).1 = .ok a → A a (op st).2) :
    Triple (fun s => P s.st) (call ev op)
      (fun o s => K s.st ∧ ∀ a, o = .ok a → A a s.st) := by
  refine Triple.call_intro (fun s a st1 hs hop => ?_) (fun s e st1 hs hop => ?_)
  · have := h s.st hs
    rw [hop] at this
    exact ⟨this.1, fun b hb => by cases hb; exact this.2 a rfl⟩
  · have := h s.st hs
    rw [hop] at this
    exact ⟨this.1, fun b hb => by cases hb⟩

theorem judge_true (g : Provenance) : g.judge true = g := rfl

theorem judge_of_noViolation (ok : Bool) (g : Provenance) (hok : ok = true)
    (hg : g.violated = false) : (g.judge ok).violated = false := by
  subst hok
  exact hg

theorem observe_cases {α : Type} (op : Database × τ → Except String α × (Database × τ))
    (check : Database → Provenance → Bool) (learn : α → Provenance → Provenance)
    (s : (Database × τ) × Provenance) :
    (∃ a, (op s.1).1 = .ok a ∧ observe op check learn s =
        (.ok a, ((op s.1).2, learn a (s.2.judge (check s.1.1 s.2))))) ∨
      (∃ e, (op s.1).1 = .error e ∧ observe op check learn s =
        (.error e, ((op s.1).2, s.2.judge (check s.1.1 s.2)))) := by
  unfold observe
  rcases h : op s.1 with ⟨r, st⟩
  cases r with
  | ok a => exact Or.inl ⟨a, rfl, rfl⟩
  | error e => exact Or.inr ⟨e, rfl, rfl⟩

theorem observeOnly_ghost {α : Type} (op : Database × τ → Except String α × (Database × τ))
    (s : (Database × τ) × Provenance) : (observeOnly op s).2.2 = s.2 := by
  unfold observeOnly
  rcases observe_cases op (fun _ _ => true) (fun _ g => g) s with ⟨a, _, h⟩ | ⟨e, _, h⟩ <;>
    rw [h] <;> rfl

theorem observe_db {α : Type} (op : Database × τ → Except String α × (Database × τ))
    (check : Database → Provenance → Bool) (learn : α → Provenance → Provenance)
    (s : (Database × τ) × Provenance) :
    (observe op check learn s).2.1 = (op s.1).2 ∧
      (observe op check learn s).1 = (op s.1).1 := by
  rcases observe_cases op check learn s with ⟨a, h1, h⟩ | ⟨e, h1, h⟩ <;>
    rw [h, h1] <;> exact ⟨rfl, rfl⟩

theorem observe_violated {α : Type} (op : Database × τ → Except String α × (Database × τ))
    (check : Database → Provenance → Bool) (learn : α → Provenance → Provenance)
    (hlearn : ∀ a g, (learn a g).violated = g.violated)
    (s : (Database × τ) × Provenance) (hcheck : check s.1.1 s.2 = true)
    (hs : NoViolation s) : NoViolation (observe op check learn s).2 := by
  unfold NoViolation at hs ⊢
  rcases observe_cases op check learn s with ⟨a, _, h⟩ | ⟨e, _, h⟩
  · rw [h]
    show (learn a _).violated = false
    rw [hlearn, hcheck]
    exact hs
  · rw [h]
    show (s.2.judge _).violated = false
    rw [hcheck]
    exact hs

theorem observeOnly_violated {α : Type}
    (op : Database × τ → Except String α × (Database × τ))
    (s : (Database × τ) × Provenance) (hs : NoViolation s) :
    NoViolation (observeOnly op s).2 :=
  observe_violated op _ _ (fun _ _ => rfl) s rfl hs

end provenance

section provenance_steps

variable {τ : Type}

theorem Triple.seq_on {σ α β : Type} (P : Sys σ → Prop) (K : σ → Prop) (A : α → σ → Prop)
    {x : Prog σ α} {f : α → Prog σ β}
    (hx : Triple P x (fun o s => K s.st ∧ ∀ a, o = .ok a → A a s.st))
    (hf : ∀ a, Triple (fun s => A a s.st) (f a) (fun _ s => K s.st)) :
    Triple P (x >>= f) (fun _ s => K s.st) :=
  Triple.bind_intro (fun o s => K s.st ∧ ∀ a, o = .ok a → A a s.st) hx
    (fun a => Triple.weaken (hf a) (fun _ hs => hs.2 a rfl) (fun _ _ h => h))
    (fun _ _ h => h.1) (fun _ h => h.1) (fun _ h => h.1)

theorem Triple.call_on {σ α : Type} (P K : σ → Prop) (A : α → σ → Prop) {ev : Event}
    {op : σ → Except String α × σ}
    (h : ∀ st, P st → K (op st).2 ∧ ∀ a, (op st).1 = .ok a → A a (op st).2) :
    Triple (fun s => P s.st) (call ev op)
      (fun o s => K s.st ∧ ∀ a, o = .ok a → A a s.st) :=
  Triple.call_seq h

theorem observe_ghost_keep {α : Type} (op : Database × τ → Except String α × (Database × τ))
    (check : Database → Provenance → Bool) (s : (Database × τ) × Provenance)
    (hcheck : check s.1.1 s.2 = true) :
    (observe op check (fun _ g => g) s).2.2 = s.2 := by
  rcases observe_cases op check (fun _ g => g) s with ⟨a, _, h⟩ | ⟨e, _, h⟩ <;>
    rw [h] <;> show s.2.judge _ = s.2 <;> rw [hcheck] <;> rfl

theorem observe_remote_db {α : Type} (f : τ → Except String α × τ)
    (check : Database → Provenance → Bool) (learn : α → Provenance → Provenance)
    (s : (Database × τ) × Provenance) :
    (observe (remoteCall f) check learn s).2.1.1 = s.1.1 := by
  rw [(observe_db (remoteCall f) check learn s).1]
  exact remoteCall_db f s.1

theorem observe_remote_reply {α : Type} (f : τ → Except String α × τ)
    (check : Database → Provenance → Bool) (learn : α → Provenance → Provenance)
    (s : (Database × τ) × Provenance) (a : α)
    (h : (observe (remoteCall f) check learn s).1 = .ok a) :
    ∃ t1, f s.1.2 = (.ok a, t1) := by
  rw [(observe_db (remoteCall f) check learn s).2] at h
  have hrc : remoteCall f s.1 = (.ok a, (remoteCall f s.1).2) := Prod.ext h rfl
  exact ⟨_, (remoteCall_eq hrc).1⟩

theorem hasHash_of_mem_getTailsForSweep (db : Database) (id : Nat) (x : String)
    (h : x ∈ db.getTailsForSweep id) : hasHash db.working x = true := by
  unfold Database.getTailsForSweep at h
  obtain ⟨r, hr, hx⟩ := List.mem_map.mp h
  unfold hasHash
  exact List.any_eq_true.mpr ⟨r, (List.mem_filter.mp hr).1, by simp [hx]⟩

theorem hasHash_insertTail (rows : List SweepTail) (id : Nat) (hash : String) :
    hasHash (insertTail rows id hash) hash = true := by
  obtain ⟨r, hr, _, hh⟩ := hasRow_insertTail rows id hash
  unfold hasHash
  exact List.any_eq_true.mpr ⟨r, hr, by simp [hh]⟩

end provenance_steps

section provenance_protocol

variable {τ : Type}

theorem remote_keep {α : Type} (f : τ → Except String α × τ)
    (Q : Database → Provenance → Prop) (st : (Database × τ) × Provenance)
    (h : Q st.1.1 st.2) :
    Q (observeOnly (remoteCall f) st).2.1.1 (observeOnly (remoteCall f) st).2.2 := by
  rw [observeOnly_ghost]
  unfold observeOnly
  rw [observe_remote_db]
  exact h

theorem remote_triple {α : Type} (ev : Event) (f : τ → Except String α × τ)
    (Q : Database → Provenance → Prop) :
    Triple (fun s : Sys ((Database × τ) × Provenance) => Q s.st.1.1 s.st.2)
      (call ev (observeOnly (remoteCall f))) (fun _ s => Q s.st.1.1 s.st.2) :=
  Triple.inv_call_of (fun st => Q st.1.1 st.2) (fun st h => remote_keep f Q st h)

theorem filterConfirmed_triple (R : World τ) (hsub : SubsetContract R)
    (Q : Database → Provenance → Prop) (tails : List String) :
    Triple (fun s : Sys ((Database × τ) × Provenance) => Q s.st.1.1 s.st.2)
      (call (.filterConfirmedTails tails none)
        ((provenanceWorld R).filterConfirmedTails tails none))
      (fun o s => Q s.st.1.1 s.st.2 ∧
        ∀ c, o = .ok c → Q s.st.1.1 s.st.2 ∧ ∀ x ∈ c.elems, x ∈ tails) := by
  refine Triple.call_on (fun st : Watched τ => Q st.1.1 st.2) (fun st => Q st.1.1 st.2)
    (fun (c : UnorderedSet) st => Q st.1.1 st.2 ∧ ∀ x ∈ c.elems, x ∈ tails)
    (fun st hst => ?_)
  have hk := remote_keep (R.filterConfirmedTails tails none) Q st hst
  refine ⟨hk, fun c hc => ⟨hk, ?_⟩⟩
  obtain ⟨t1, ht1⟩ := observe_remote_reply (R.filterConfirmedTails tails none)
    (fun _ _ => true) (fun _ g => g) st c hc
  exact hsub _ _ _ _ _ ht1

theorem filterConsistent_triple (R : World τ) (hsub : ConsistentSubsetContract R)
    (Q : Database → Provenance → Prop) (tails : List String) :
    Triple (fun s : Sys ((Database × τ) × Provenance) => Q s.st.1.1 s.st.2)
      (call (.filterConsistentTails tails)
        ((provenanceWorld R).filterConsistentTails tails))
      (fun o s => Q s.st.1.1 s.st.2 ∧
        ∀ c, o = .ok c → Q s.st.1.1 s.st.2 ∧ ∀ x ∈ c.elems, x ∈ tails) := by
  refine Triple.call_on (fun st : Watched τ => Q st.1.1 st.2) (fun st => Q st.1.1 st.2)
    (fun (c : UnorderedSet) st => Q st.1.1 st.2 ∧ ∀ x ∈ c.elems, x ∈ tails)
    (fun st hst => ?_)
  have hk := remote_keep (R.filterConsistentTails tails) Q st hst
  refine ⟨hk, fun c hc => ⟨hk, ?_⟩⟩
  obtain ⟨t1, ht1⟩ := observe_remote_reply (R.filterConsistentTails tails)
    (fun _ _ => true) (fun _ g => g) st c hc
  exact hsub _ _ _ _ ht1

theorem mark_provenance (R : World τ) (G : Provenance → Prop) (hash : String) :
    Triple (fun s : Sys (Watched τ) => G s.st.2 ∧ hasHash s.st.1.1.working hash = true)
      (call (.markTailAsConfirmed hash) ((provenanceWorld R).markTailAsConfirmed hash))
      (fun _ s => G s.st.2) := by
  refine Triple.weaken
    (Triple.call_on (fun st : Watched τ => G st.2 ∧ hasHash st.1.1.working hash = true)
      (fun st => G st.2) (fun _ _ => True) (fun st hst => ⟨?_, fun _ _ => trivial⟩))
    (fun _ h => h) (fun _ _ h => h.1)
  have hk := observe_ghost_keep ((dbWorld R).markTailAsConfirmed hash)
    (fun db _ => hasHash db.working hash) st hst.2
  show G (observe ((dbWorld R).markTailAsConfirmed hash)
    (fun db _ => hasHash db.working hash) (fun _ g => g) st).2.2
  rw [hk]
  exact hst.1

theorem createTail_provenance (R : World τ) (G : Provenance → Prop) (id : Nat)
    (hash : String) :
    Triple (fun s : Sys (Watched τ) =>
        G s.st.2 ∧ (hash ∈ s.st.2.userTails ∨ s.st.2.reattached = some hash))
      (call (.createTail id hash) ((provenanceWorld R).createTail id hash))
      (fun o s => G s.st.2 ∧
        ∀ u, o = .ok u → G s.st.2 ∧ hasHash s.st.1.1.working hash = true) := by
  refine Triple.call_on
    (fun st : Watched τ => G st.2 ∧ (hash ∈ st.2.userTails ∨ st.2.reattached = some hash))
    (fun st => G st.2) (fun (_ : Unit) st => G st.2 ∧ hasHash st.1.1.working hash = true)
    (fun st hst => ?_)
  have hcheck : (fun (_ : Database) (g : Provenance) =>
      decide (hash ∈ g.userTails) || decide (g.reattached = some hash)) st.1.1 st.2 = true := by
    rcases hst.2 with h | h <;> simp [h]
  have hk := observe_ghost_keep ((dbWorld R).createTail id hash)
    (fun (_ : Database) (g : Provenance) =>
      decide (hash ∈ g.userTails) || decide (g.reattached = some hash)) st hcheck
  have hd := observe_db ((dbWorld R).createTail id hash)
    (fun (_ : Database) (g : Provenance) =>
      decide (hash ∈ g.userTails) || decide (g.reattached = some hash)) (fun _ g => g) st
  have hG : G ((provenanceWorld R).createTail id hash st).2.2 := by
    show G (observe ((dbWorld R).createTail id hash) _ (fun _ g => g) st).2.2
    rw [hk]
    exact hst.1
  refine ⟨hG, fun u hu => ⟨hG, ?_⟩⟩
  have hu1 : ((dbWorld R).createTail id hash st.1).1 = .ok u := by
    rw [← hd.2]
    exact hu
  have hrun : dbCall (R.createTail id hash) (fun db => (.ok (), db.createTail id hash)) st.1 =
      (.ok u, ((dbWorld R).createTail id hash st.1).2) := Prod.ext hu1 rfl
  have h2 := dbCall_ok hrun
  simp only [Prod.mk.injEq] at h2
  show hasHash (observe ((dbWorld R).createTail id hash) _ (fun _ g => g) st).2.1.1.working
    hash = true
  rw [hd.1, ← h2.2]
  exact hasHash_insertTail _ _ _

theorem getTails_provenance (R : World τ) (id : Nat) :
    Triple (fun s : Sys (Watched τ) => NoViolation s.st)
      (call (.getTailsForSweep id) ((provenanceWorld R).getTailsForSweep id))
      (fun o s => NoViolation s.st ∧
        ∀ known, o = .ok known →
          (NoViolation s.st ∧ s.st.2.known = known) ∧
            ∀ x ∈ known, hasHash s.st.1.1.working x = true) := by
  refine Triple.call_on (fun st : Watched τ => NoViolation st) (fun st => NoViolation st)
    (fun (known : List String) st => (NoViolation st ∧ st.2.known = known) ∧
      ∀ x ∈ known, hasHash st.1.1.working x = true) (fun st hst => ?_)
  have hv : NoViolation ((provenanceWorld R).getTailsForSweep id st).2 :=
    observe_violated ((dbWorld R).getTailsForSweep id) (fun _ _ => true)
      (fun known g => { g with known := known }) (fun _ _ => rfl) st rfl hst
  refine ⟨hv, fun known hk => ⟨⟨hv, ?_⟩, ?_⟩⟩
  · rcases observe_cases ((dbWorld R).getTailsForSweep id) (fun _ _ => true)
      (fun known g => { g with known := known }) st with ⟨a, _, h⟩ | ⟨e, _, h⟩
    · have h1 : (provenanceWorld R).getTailsForSweep id st = _ := h
      rw [h1] at hk ⊢
      cases hk
      rfl
    · have h1 : (provenanceWorld R).getTailsForSweep id st = _ := h
      rw [h1] at hk
      cases hk
  · have hd := observe_db ((dbWorld R).getTailsForSweep id) (fun _ _ => true)
      (fun known g => { g with known := known }) st
    have hk1 : ((dbWorld R).getTailsForSweep id st.1).1 = .ok known := by
      rw [← hd.2]
      exact hk
    have hrun : dbCall (R.getTailsForSweep id)
        (fun db => (.ok (db.getTailsForSweep id), db)) st.1 =
        (.ok known, ((dbWorld R).getTailsForSweep id st.1).2) := Prod.ext hk1 rfl
    have h2 := dbCall_ok hrun
    simp only [Prod.mk.injEq, Except.ok.injEq] at h2
    intro x hx
    show hasHash (observe ((dbWorld R).getTailsForSweep id) _ _ st).2.1.1.working x = true
    rw [hd.1, ← h2.2]
    exact hasHash_of_mem_getTailsForSweep _ id x (by rw [h2.1]; exact hx)

theorem getTrytes_provenance (R : World τ) (known : List String) (hashes : List String) :
    Triple (fun s : Sys (Watched τ) => NoViolation s.st ∧ s.st.2.known = known)
      (call (.getTrytes hashes) ((provenanceWorld R).getTrytes hashes))
      (fun o s => NoViolation s.st ∧
        ∀ fetched, o = .ok fetched →
          NoViolation s.st ∧ s.st.2.userTails = specUserTails known fetched) := by
  refine Triple.call_on (fun st : Watched τ => NoViolation st ∧ st.2.known = known)
    (fun st => NoViolation st)
    (fun (fetched : List Transaction) st =>
      NoViolation st ∧ st.2.userTails = specUserTails known fetched) (fun st hst => ?_)
  have hv : NoViolation ((provenanceWorld R).getTrytes hashes st).2 :=
    observe_violated ((dbWorld R).getTrytes hashes) (fun _ _ => true)
      (fun fetched g => { g with userTails := specUserTails g.known fetched })
      (fun _ _ => rfl) st rfl hst.1
  refine ⟨hv, fun fetched hf => ⟨hv, ?_⟩⟩
  rcases observe_cases ((dbWorld R).getTrytes hashes) (fun _ _ => true)
    (fun fetched g => { g with userTails := specUserTails g.known fetched }) st with
    ⟨a, _, h⟩ | ⟨e, _, h⟩
  · have h1 : (provenanceWorld R).getTrytes hashes st = _ := h
    rw [h1] at hf ⊢
    cases hf
    show specUserTails st.2.known fetched = specUserTails known fetched
    rw [hst.2]
  · have h1 : (provenanceWorld R).getTrytes hashes st = _ := h
    rw [h1] at hf
    cases hf

theorem performPOW_provenance (R : World τ) (trytes : String) :
    Triple (fun s : Sys (Watched τ) => NoViolation s.st)
      (call (.performPOW trytes) ((provenanceWorld R).performPOW trytes))
      (fun o s => NoViolation s.st ∧
        ∀ attached, o = .ok attached →
          NoViolation s.st ∧ s.st.2.reattached = attached.head?.map R.iota_digest) := by
  refine Triple.call_on (fun st : Watched τ => NoViolation st) (fun st => NoViolation st)
    (fun (attached : List String) st =>
      NoViolation st ∧ st.2.reattached = attached.head?.map R.iota_digest)
    (fun st hst => ?_)
  have hv : NoViolation ((provenanceWorld R).performPOW trytes st).2 :=
    observe_violated ((dbWorld R).performPOW trytes) (fun _ _ => true)
      (fun attached g => { g with reattached := attached.head?.map R.iota_digest })
      (fun _ _ => rfl) st rfl hst
  refine ⟨hv, fun attached ha => ⟨hv, ?_⟩⟩
  rcases observe_cases ((dbWorld R).performPOW trytes) (fun _ _ => true)
    (fun attached g => { g with reattached := attached.head?.map R.iota_digest }) st with
    ⟨a, _, h⟩ | ⟨e, _, h⟩
  · have h1 : (provenanceWorld R).performPOW trytes st = _ := h
    rw [h1] at ha ⊢
    cases ha
    rfl
  · have h1 : (provenanceWorld R).performPOW trytes st = _ := h
    rw [h1] at ha
    cases ha

theorem stepA_provenance (R : World τ) (hsub : SubsetContract R) (sweep : Sweep)
    (known : List String) :
    Triple (fun s : Sys (Watched τ) =>
        (NoViolation s.st ∧ s.st.2.known = known) ∧
          ∀ x ∈ known, hasHash s.st.1.1.working x = true)
      (checkSweepTailsForConfirmation (provenanceWorld R) sweep known)
      (fun _ s => NoViolation s.st ∧ s.st.2.known = known) := by
  unfold checkSweepTailsForConfirmation
  refine Triple.seq_on _ (fun st : Watched τ => NoViolation st ∧ st.2.known = known)
    (fun (c : UnorderedSet) st =>
      ((NoViolation st ∧ st.2.known = known) ∧
        ∀ x ∈ known, hasHash st.1.1.working x = true) ∧ ∀ x ∈ c.elems, x ∈ known)
    (Triple.weaken
      (filterConfirmed_triple R hsub
        (fun db g => (g.violated = false ∧ g.known = known) ∧
          ∀ x ∈ known, hasHash db.working x = true) known)
      (fun _ h => h) (fun _ _ h => ⟨h.1.1, h.2⟩))
    (fun c => ?_)
  split
  · split
    · rename_i t more heq
      refine Triple.seq_on _ (fun st : Watched τ => NoViolation st ∧ st.2.known = known)
        (fun (_ : Unit) st => NoViolation st ∧ st.2.known = known)
        (Triple.weaken
          (mark_provenance R (fun g => g.violated = false ∧ g.known = known) t)
          (fun s hs => ⟨hs.1.1, hs.1.2 t (hs.2 t (by rw [heq]; simp))⟩)
          (fun _ _ h => ⟨h, fun _ _ => h⟩))
        (fun _ => Triple.inv_pure)
    · exact fun s hs => hs.1.1
  · split
    · exact fun s hs => hs.1.1
    · exact fun s hs => hs.1.1

theorem insertTails_provenance (R : World τ) (id : Nat) (userTails : List String)
    (tails : List String) (h : ∀ x ∈ tails, x ∈ userTails) :
    Triple (fun s : Sys (Watched τ) => NoViolation s.st ∧ s.st.2.userTails = userTails)
      (insertTails (provenanceWorld R) id tails)
      (fun _ s => NoViolation s.st ∧ s.st.2.userTails = userTails) := by
  induction tails with
  | nil => exact Triple.inv_pure
  | cons t rest ih =>
    unfold insertTails
    refine Triple.seq_on _
      (fun st : Watched τ => NoViolation st ∧ st.2.userTails = userTails)
      (fun (_ : Unit) st => NoViolation st ∧ st.2.userTails = userTails)
      (Triple.weaken
        (createTail_provenance R (fun g => g.violated = false ∧ g.userTails = userTails) id t)
        (fun s hs => ⟨hs, Or.inl (by rw [hs.2]; exact h t (List.mem_cons_self _ _))⟩)
        (fun _ _ hq => ⟨hq.1, fun u hu => (hq.2 u hu).1⟩))
      (fun _ => ih (fun x hx => h x (List.mem_cons_of_mem _ hx)))

theorem stepB_provenance (R : World τ) (hconf : SubsetContract R)
    (hcons : ConsistentSubsetContract R) (sweep : Sweep) (known : List String) :
    Triple (fun s : Sys (Watched τ) => NoViolation s.st ∧ s.st.2.known = known)
      (checkForUserReattachment (provenanceWorld R) sweep known)
      (fun _ s => NoViolation s.st) := by
  unfold checkForUserReattachment
  refine Triple.seq_on _ (fun st : Watched τ => NoViolation st)
    (fun (_ : List String) st => NoViolation st ∧ st.2.known = known)
    (Triple.weaken
      (remote_triple _ (R.findTransactions none (some [sweep.bundleHash]))
        (fun _ g => g.violated = false ∧ g.known = known))
      (fun _ h => h) (fun _ _ h => ⟨h.1, fun _ _ => h⟩))
    (fun hashes => ?_)
  refine Triple.seq_on _ (fun st : Watched τ => NoViolation st)
    (fun (fetched : List Transaction) st =>
      NoViolation st ∧ st.2.userTails = specUserTails known fetched)
    (getTrytes_provenance R known hashes) (fun fetched => ?_)
  dsimp only
  rw [userTails_eq_spec]
  split
  · refine Triple.seq_on _ (fun st : Watched τ => NoViolation st)
      (fun (uc : UnorderedSet) st =>
        (NoViolation st ∧ st.2.userTails = specUserTails known fetched) ∧
          ∀ x ∈ uc.elems, x ∈ specUserTails known fetched)
      (Triple.weaken
        (filterConfirmed_triple R hconf
          (fun _ g => g.violated = false ∧ g.userTails = specUserTails known fetched)
          (specUserTails known fetched))
        (fun _ h => h) (fun _ _ h => ⟨h.1.1, h.2⟩))
      (fun uc => ?_)
    split
    · split
      · rename_i t more heq
        refine Triple.seq_on _ (fun st : Watched τ => NoViolation st)
          (fun (_ : Unit) st => NoViolation st ∧ hasHash st.1.1.working t = true)
          (Triple.weaken
            (createTail_provenance R (fun g => g.violated = false) sweep.id t)
            (fun s hs => ⟨hs.1.1, Or.inl (by rw [hs.1.2]; exact hs.2 t (by rw [heq]; simp))⟩)
            (fun _ _ h => h))
          (fun _ => ?_)
        exact Triple.seq_on _ (fun st : Watched τ => NoViolation st)
          (fun (_ : Unit) st => NoViolation st)
          (Triple.weaken (mark_provenance R (fun g => g.violated = false) t)
            (fun _ h => h) (fun _ _ h => ⟨h, fun _ _ => h⟩))
          (fun _ => Triple.inv_pure)
      · exact fun s hs => hs.1.1
    · refine Triple.seq_on _ (fun st : Watched τ => NoViolation st)
        (fun (cons : UnorderedSet) st =>
          (NoViolation st ∧ st.2.userTails = specUserTails known fetched) ∧
            ∀ x ∈ cons.elems, x ∈ specUserTails known fetched)
        (Triple.weaken
          (filterConsistent_triple R hcons
            (fun _ g => g.violated = false ∧ g.userTails = specUserTails known fetched)
            (specUserTails known fetched))
          (fun _ h => h.1) (fun _ _ h => ⟨h.1.1, h.2⟩))
        (fun cons => ?_)
      dsimp only
      split
      · intro s hs
        have hsub2 : ∀ x ∈ cons.elems, x ∈ specUserTails known fetched := hs.2
        revert s
        exact Triple.seq_on _ (fun st : Watched τ => NoViolation st)
          (fun (_ : Unit) st => NoViolation st)
          (Triple.weaken
            (insertTails_provenance R sweep.id (specUserTails known fetched) cons.elems
              hsub2)
            (fun _ h => h.1) (fun _ _ h => ⟨h.1, fun _ _ => h.1⟩))
          (fun _ => Triple.inv_pure)
      · exact fun s hs => hs.1.1
  · exact fun s hs => hs.1

theorem observed_triple {α : Type} (ev : Event)
    (op : Database × τ → Except String α × (Database × τ)) :
    Triple (fun s : Sys (Watched τ) => NoViolation s.st) (call ev (observeOnly op))
      (fun _ s => NoViolation s.st) :=
  Triple.inv_call_of (fun st : Watched τ => NoViolation st)
    (fun st h => observeOnly_violated op st h)

theorem confirmationSteps_provenance (R : World τ) (hconf : SubsetContract R)
    (hcons : ConsistentSubsetContract R) (sweep : Sweep) :
    Triple (fun s : Sys (Watched τ) => NoViolation s.st)
      (confirmationSteps (provenanceWorld R) sweep) (fun _ s => NoViolation s.st) := by
  unfold confirmationSteps
  refine Triple.seq_on _ (fun st : Watched τ => NoViolation st)
    (fun (known : List String) st => (NoViolation st ∧ st.2.known = known) ∧
      ∀ x ∈ known, hasHash st.1.1.working x = true)
    (getTails_provenance R sweep.id) (fun known => ?_)
  refine Triple.seq_on _ (fun st : Watched τ => NoViolation st)
    (fun (_ : Bool) st => NoViolation st ∧ st.2.known = known)
    (Triple.weaken (stepA_provenance R hconf sweep known) (fun _ h => h)
      (fun _ _ h => ⟨h.1, fun _ _ => h⟩))
    (fun direct => ?_)
  split
  · exact fun s hs => hs.1
  · exact stepB_provenance R hconf hcons sweep known

theorem reattachSweep_provenance (R : World τ) (sweep : Sweep) :
    Triple (fun s : Sys (Watched τ) => NoViolation s.st)
      (reattachSweep (provenanceWorld R) sweep) (fun _ s => NoViolation s.st) := by
  unfold reattachSweep
  refine Triple.seq_on _ (fun st : Watched τ => NoViolation st)
    (fun (attached : List String) st =>
      NoViolation st ∧ st.2.reattached = attached.head?.map R.iota_digest)
    (performPOW_provenance R sweep.trytes) (fun attached => ?_)
  split
  · exact fun s hs => hs.1
  · rename_i first more
    refine Triple.bind_weaken (fun s hs => hs.1)
      (remote_triple _ (R.storeTransactions (first :: more))
        (fun _ g => g.violated = false ∧
          g.reattached = (first :: more).head?.map R.iota_digest))
      (fun _ => ?_)
    refine Triple.bind_weaken (fun s hs => hs.1)
      (remote_triple _ (R.broadcastTransactions (first :: more))
        (fun _ g => g.violated = false ∧
          g.reattached = (first :: more).head?.map R.iota_digest))
      (fun _ => ?_)
    exact Triple.weaken
      (createTail_provenance R (fun g => g.violated = false) sweep.id (R.iota_digest first))
      (fun s hs => ⟨hs.1, Or.inr (by rw [hs.2]; rfl)⟩) (fun _ _ h => h.1)

theorem promoteSweep_provenance (R : World τ) (sweep : Sweep) (t : String) :
    Triple (fun s : Sys (Watched τ) => NoViolation s.st)
      (promoteSweep (provenanceWorld R) sweep t) (fun _ s => NoViolation s.st) := by
  unfold promoteSweep
  refine Triple.inv_bind (observed_triple _ _) (fun tips => ?_)
  refine Triple.inv_bind Triple.inv_readClock (fun ts => ?_)
  refine Triple.inv_bind (observed_triple _ _) (fun attached => ?_)
  refine Triple.inv_bind (observed_triple _ _) (fun _ => ?_)
  refine Triple.inv_bind (observed_triple _ _) (fun _ => ?_)
  exact Triple.inv_pure

theorem promoteOrReattach_provenance (R : World τ) (sweep : Sweep) :
    Triple (fun s : Sys (Watched τ) => NoViolation s.st)
      (promoteOrReattach (provenanceWorld R) sweep) (fun _ s => NoViolation s.st) := by
  unfold promoteOrReattach
  refine Triple.inv_bind
    (Triple.weaken (getTails_provenance R sweep.id) (fun _ h => h) (fun _ _ h => h.1))
    (fun tails => ?_)
  refine Triple.inv_bind (observed_triple _ _) (fun cons => ?_)
  split
  · split
    · exact promoteSweep_provenance R sweep _
    · exact Triple.inv_undefinedBehaviour
  · exact reattachSweep_provenance R sweep

theorem perSweepProtocol_provenance (R : World τ) (hconf : SubsetContract R)
    (hcons : ConsistentSubsetContract R) (sweep : Sweep) :
    Triple (fun s : Sys (Watched τ) => NoViolation s.st)
      (perSweepProtocol (provenanceWorld R) sweep) (fun _ s => NoViolation s.st) := by
  unfold perSweepProtocol
  refine Triple.inv_bind (confirmationSteps_provenance R hconf hcons sweep) (fun c => ?_)
  dsimp only
  split
  · exact Triple.inv_bind Triple.inv_pure (fun _ => observed_triple _ _)
  · exact Triple.inv_bind (promoteOrReattach_provenance R sweep)
      (fun _ => observed_triple _ _)

theorem processSweep_provenance (R : World τ) (hconf : SubsetContract R)
    (hcons : ConsistentSubsetContract R) (sweep : Sweep) :
    Triple (fun s : Sys (Watched τ) => NoViolation s.st)
      (processSweep (provenanceWorld R) sweep) (fun _ s => NoViolation s.st) := by
  unfold processSweep
  refine Triple.inv_bind
    (Triple.inv_call_of (fun st : Watched τ => NoViolation st)
      (fun st h => observe_violated (dbWorld R).transaction (fun _ _ => true)
        (fun _ g => { g with known := [], userTails := [], reattached := none })
        (fun _ _ => rfl) st rfl h))
    (fun _ => ?_)
  refine Triple.inv_bind ?_ (fun _ => fun s hs => hs)
  refine Triple.tryCatch_intro (fun _ s => NoViolation s.st)
    (perSweepProtocol_provenance R hconf hcons sweep) (fun e => ?_)
    (fun _ _ h => h) (fun _ h => h) (fun _ h => h)
  unfold rollbackHandler
  exact Triple.tryCatch_intro (fun _ s => NoViolation s.st) (observed_triple _ _)
    (fun _ => Triple.inv_pure) (fun _ _ h => h) (fun _ h => h) (fun _ h => h)

theorem processSweeps_provenance (R : World τ) (hconf : SubsetContract R)
    (hcons : ConsistentSubsetContract R) (sweeps : List Sweep) :
    Triple (fun s : Sys (Watched τ) => NoViolation s.st)
      (processSweeps (provenanceWorld R) sweeps) (fun _ s => NoViolation s.st) := by
  induction sweeps with
  | nil => exact Triple.inv_pure
  | cons sweep rest ih =>
    unfold processSweeps
    exact Triple.inv_bind (processSweep_provenance R hconf hcons sweep) (fun _ => ih)

theorem doTick_provenance (R : World τ) (hconf : SubsetContract R)
    (hcons : ConsistentSubsetContract R) :
    Triple (fun s : Sys (Watched τ) => NoViolation s.st)
      (doTick (provenanceWorld R)) (fun _ s => NoViolation s.st) := by
  unfold doTick
  refine Triple.inv_bind Triple.inv_readClock (fun ts => ?_)
  refine Triple.inv_bind (observed_triple _ _) (fun _ => ?_)
  refine Triple.inv_bind (observed_triple _ _) (fun sweeps => ?_)
  exact Triple.inv_bind (processSweeps_provenance R hconf hcons sweeps)
    (fun _ => Triple.inv_pure)

theorem observe_stays {α : Type} (op : Database × τ → Except String α × (Database × τ))
    (check : Database → Provenance → Bool) (learn : α → Provenance → Provenance)
    (hlearn : ∀ a g, (learn a g).violated = g.violated)
    (s : Watched τ) (hs : s.2.violated = true) :
    (observe op check learn s).2.2.violated = true := by
  have hj : (s.2.judge (check s.1.1 s.2)).violated = true := by
    unfold Provenance.judge
    split
    · exact hs
    · rfl
  rcases observe_cases op check learn s with ⟨a, _, h⟩ | ⟨e, _, h⟩
  · rw [h]
    show (learn a _).violated = true
    rw [hlearn]
    exact hj
  · rw [h]
    exact hj

theorem provenanceWorld_stays (R : World τ) :
    StableUnder (provenanceWorld R) (fun st => st.2.violated = true) where
  getTailsForSweep := fun _ st h => by
    refine observe_stays _ _ _ ?_ st h
    exact fun _ _ => rfl
  createTail := fun _ _ st h => by
    refine observe_stays _ _ _ ?_ st h
    exact fun _ _ => rfl
  filterConfirmedTails := fun _ _ st h => by
    refine observe_stays _ _ _ ?_ st h
    exact fun _ _ => rfl
  filterConsistentTails := fun _ st h => by
    refine observe_stays _ _ _ ?_ st h
    exact fun _ _ => rfl
  findTransactions := fun _ _ st h => by
    refine observe_stays _ _ _ ?_ st h
    exact fun _ _ => rfl
  getTrytes := fun _ st h => by
    refine observe_stays _ _ _ ?_ st h
    exact fun _ _ => rfl
  getTransactionsToApprove := fun _ _ st h => by
    refine observe_stays _ _ _ ?_ st h
    exact fun _ _ => rfl
  storeTransactions := fun _ st h => by
    refine observe_stays _ _ _ ?_ st h
    exact fun _ _ => rfl
  broadcastTransactions := fun _ st h => by
    refine observe_stays _ _ _ ?_ st h
    exact fun _ _ => rfl
  performPOW := fun _ st h => by
    refine observe_stays _ _ _ ?_ st h
    exact fun _ _ => rfl
  doPOW := fun _ _ _ st h => by
    refine observe_stays _ _ _ ?_ st h
    exact fun _ _ => rfl

theorem doTick_violation_stays (R : World τ) :
    Triple (fun s : Sys (Watched τ) => s.st.2.violated = true)
      (doTick (provenanceWorld R)) (fun _ s => s.st.2.violated = true) := by
  have hcall : ∀ {α : Type} (ev : Event)
      (op : Database × τ → Except String α × (Database × τ)),
      Triple (fun s : Sys (Watched τ) => s.st.2.violated = true)
        (call ev (observeOnly op)) (fun _ s => s.st.2.violated = true) :=
    fun ev op =>
      Triple.inv_call_of (fun st : Watched τ => st.2.violated = true)
        (fun st h => observe_stays op (fun _ _ => true) (fun _ g => g) (fun _ _ => rfl) st h)
  have hbegin : Triple (fun s : Sys (Watched τ) => s.st.2.violated = true)
      (call .beginTransaction (provenanceWorld R).transaction)
      (fun _ s => s.st.2.violated = true) :=
    Triple.inv_call_of (fun st : Watched τ => st.2.violated = true)
      (fun st h => observe_stays (dbWorld R).transaction (fun _ _ => true)
        (fun _ g => { g with known := [], userTails := [], reattached := none })
        (fun _ _ => rfl) st h)
  have hsweep : ∀ sweep, Triple (fun s : Sys (Watched τ) => s.st.2.violated = true)
      (processSweep (provenanceWorld R) sweep) (fun _ s => s.st.2.violated = true) := by
    intro sweep
    unfold processSweep
    refine Triple.inv_bind hbegin (fun _ => ?_)
    refine Triple.inv_bind ?_ (fun _ => fun s hs => hs)
    refine Triple.tryCatch_intro (fun _ s => s.st.2.violated = true) ?_ (fun e => ?_)
      (fun _ _ h => h) (fun _ h => h) (fun _ h => h)
    · unfold perSweepProtocol
      refine Triple.inv_bind
        (confirmationSteps_stable (provenanceWorld_stays R)
          (fun _ st h => by
            refine observe_stays _ _ _ ?_ st h
            exact fun _ _ => rfl) sweep) (fun c => ?_)
      dsimp only
      split
      · exact Triple.inv_bind Triple.inv_pure (fun _ => (hcall _ _))
      · exact Triple.inv_bind (promoteOrReattach_stable (provenanceWorld_stays R) sweep)
          (fun _ => (hcall _ _))
    · unfold rollbackHandler
      exact Triple.tryCatch_intro (fun _ s => s.st.2.violated = true)
        (hcall _ _)
        (fun _ => Triple.inv_pure) (fun _ _ h => h) (fun _ h => h) (fun _ h => h)
  have hsweeps : ∀ sweeps, Triple (fun s : Sys (Watched τ) => s.st.2.violated = true)
      (processSweeps (provenanceWorld R) sweeps) (fun _ s => s.st.2.violated = true) := by
    intro sweeps
    induction sweeps with
    | nil => exact Triple.inv_pure
    | cons sweep rest ih =>
      unfold processSweeps
      exact Triple.inv_bind (hsweep sweep) (fun _ => ih)
  unfold doTick
  refine Triple.inv_bind Triple.inv_readClock (fun ts => ?_)
  refine Triple.inv_bind (hcall _ _) (fun _ => ?_)
  refine Triple.inv_bind (hcall _ _) (fun sweeps => ?_)
  exact Triple.inv_bind (hsweeps sweeps) (fun _ => Triple.inv_pure)

end provenance_protocol

/-! ## Observation does not change a run -/

section same_run

variable {τ : Type}

theorem sameRun_pure {α : Type} (a : α) :
    SameRun (pure a : Prog (Watched τ) α) (pure a : Prog (Database × τ) α) :=
  fun _ => ⟨rfl, rfl, rfl⟩

theorem sameRun_undefinedBehaviour {α : Type} :
    SameRun (undefinedBehaviour : Prog (Watched τ) α)
      (undefinedBehaviour : Prog (Database × τ) α) :=
  fun _ => ⟨rfl, rfl, rfl⟩

theorem sameRun_logFatal {α : Type} :
    SameRun (logFatal : Prog (Watched τ) α) (logFatal : Prog (Database × τ) α) :=
  fun _ => ⟨rfl, rfl, rfl⟩

theorem sameRun_call {α : Type} (ev : Event)
    (op : Database × τ → Except String α × (Database × τ))
    (check : Database → Provenance → Bool) (learn : α → Provenance → Provenance) :
    SameRun (call ev (observe op check learn)) (call ev op) := by
  intro s
  unfold call
  rcases observe_cases op check learn s.st with ⟨a, h1, h⟩ | ⟨e, h1, h⟩
  · have h2 : op s.st.1 = (.ok a, (op s.st.1).2) := Prod.ext h1 rfl
    simp only [h]
    rw [h2]
    exact ⟨rfl, rfl, rfl⟩
  · have h2 : op s.st.1 = (.error e, (op s.st.1).2) := Prod.ext h1 rfl
    simp only [h]
    rw [h2]
    exact ⟨rfl, rfl, rfl⟩

theorem sameRun_bind {α β : Type} {x1 : Prog (Watched τ) α} {x2 : Prog (Database × τ) α}
    {f1 : α → Prog (Watched τ) β} {f2 : α → Prog (Database × τ) β}
    (hx : SameRun x1 x2) (hf : ∀ a, SameRun (f1 a) (f2 a)) :
    SameRun (x1 >>= f1) (x2 >>= f2) := by
  intro s
  obtain ⟨ho, ht, hs⟩ := hx s
  rw [Prog.bind_run, Prog.bind_run]
  rcases h1 : x1 s with ⟨o1, s1⟩
  rcases h2 : x2 ⟨s.st.1, s.trace⟩ with ⟨o2, s2⟩
  rw [h1, h2] at ho ht hs
  simp only at ho ht hs
  subst ho
  have hs2 : s2 = ⟨s1.st.1, s1.trace⟩ := by
    cases s2
    simp only at ht hs
    rw [ht, hs]
  subst hs2
  cases o1 with
  | ok a => exact hf a s1
  | raise e => exact ⟨rfl, rfl, rfl⟩
  | fatal => exact ⟨rfl, rfl, rfl⟩
  | undef => exact ⟨rfl, rfl, rfl⟩

theorem sameRun_tryCatch {α : Type} {b1 : Prog (Watched τ) α}
    {b2 : Prog (Database × τ) α} {h1 : String → Prog (Watched τ) α}
    {h2 : String → Prog (Database × τ) α}
    (hb : SameRun b1 b2) (hh : ∀ e, SameRun (h1 e) (h2 e)) :
    SameRun (tryCatch b1 h1) (tryCatch b2 h2) := by
  intro s
  obtain ⟨ho, ht, hs⟩ := hb s
  unfold tryCatch
  rcases e1 : b1 s with ⟨o1, s1⟩
  rcases e2 : b2 ⟨s.st.1, s.trace⟩ with ⟨o2, s2⟩
  rw [e1, e2] at ho ht hs
  simp only at ho ht hs
  subst ho
  have hs2 : s2 = ⟨s1.st.1, s1.trace⟩ := by
    cases s2
    simp only at ht hs
    rw [ht, hs]
  subst hs2
  cases o1 with
  | ok a => exact ⟨rfl, rfl, rfl⟩
  | raise e => exact hh e s1
  | fatal => exact ⟨rfl, rfl, rfl⟩
  | undef => exact ⟨rfl, rfl, rfl⟩

end same_run

section same_run_protocol

variable {τ : Type}

theorem sameRun_observeOnly {α : Type} (ev : Event)
    (op : Database × τ → Except String α × (Database × τ)) :
    SameRun (call ev (observeOnly op)) (call ev op) :=
  sameRun_call ev op (fun _ _ => true) (fun _ g => g)

theorem createTail_sameRun (R : World τ) (id : Nat) (hash : String) :
    SameRun (call (.createTail id hash) ((provenanceWorld R).createTail id hash))
      (call (.createTail id hash) ((dbWorld R).createTail id hash)) :=
  sameRun_call _ ((dbWorld R).createTail id hash)
    (fun _ g => decide (hash ∈ g.userTails) || decide (g.reattached = some hash))
    (fun _ g => g)

theorem mark_sameRun (R : World τ) (hash : String) :
    SameRun (call (.markTailAsConfirmed hash) ((provenanceWorld R).markTailAsConfirmed hash))
      (call (.markTailAsConfirmed hash) ((dbWorld R).markTailAsConfirmed hash)) :=
  sameRun_call _ ((dbWorld R).markTailAsConfirmed hash)
    (fun db _ => hasHash db.working hash) (fun _ g => g)

theorem getTails_sameRun (R : World τ) (id : Nat) :
    SameRun (call (.getTailsForSweep id) ((provenanceWorld R).getTailsForSweep id))
      (call (.getTailsForSweep id) ((dbWorld R).getTailsForSweep id)) :=
  sameRun_call _ ((dbWorld R).getTailsForSweep id) (fun _ _ => true)
    (fun known g => { g with known := known })

theorem getTrytes_sameRun (R : World τ) (hashes : List String) :
    SameRun (call (.getTrytes hashes) ((provenanceWorld R).getTrytes hashes))
      (call (.getTrytes hashes) ((dbWorld R).getTrytes hashes)) :=
  sameRun_call _ ((dbWorld R).getTrytes hashes) (fun _ _ => true)
    (fun fetched g => { g with userTails := specUserTails g.known fetched })

theorem performPOW_sameRun (R : World τ) (trytes : String) :
    SameRun (call (.performPOW trytes) ((provenanceWorld R).performPOW trytes))
      (call (.performPOW trytes) ((dbWorld R).performPOW trytes)) :=
  sameRun_call _ ((dbWorld R).performPOW trytes) (fun _ _ => true)
    (fun attached g => { g with reattached := attached.head?.map R.iota_digest })

theorem begin_sameRun (R : World τ) :
    SameRun (call .beginTransaction (provenanceWorld R).transaction)
      (call .beginTransaction (dbWorld R).transaction) :=
  sameRun_call _ (dbWorld R).transaction (fun _ _ => true)
    (fun _ g => { g with known := [], userTails := [], reattached := none })

theorem insertTails_sameRun (R : World τ) (id : Nat) (tails : List String) :
    SameRun (insertTails (provenanceWorld R) id tails) (insertTails (dbWorld R) id tails) := by
  induction tails with
  | nil => exact sameRun_pure ()
  | cons t rest ih =>
    unfold insertTails
    exact sameRun_bind (createTail_sameRun R _ _) (fun _ => ih)

theorem checkSweepTailsForConfirmation_sameRun (R : World τ) (sweep : Sweep)
    (tails : List String) :
    SameRun (checkSweepTailsForConfirmation (provenanceWorld R) sweep tails)
      (checkSweepTailsForConfirmation (dbWorld R) sweep tails) := by
  unfold checkSweepTailsForConfirmation
  refine sameRun_bind (sameRun_observeOnly _ _) (fun c => ?_)
  split
  · split
    · exact sameRun_bind (mark_sameRun R _) (fun _ => sameRun_pure _)
    · exact sameRun_undefinedBehaviour
  · split
    · exact sameRun_logFatal
    · exact sameRun_pure _

theorem checkForUserReattachment_sameRun (R : World τ) (sweep : Sweep)
    (known : List String) :
    SameRun (checkForUserReattachment (provenanceWorld R) sweep known)
      (checkForUserReattachment (dbWorld R) sweep known) := by
  unfold checkForUserReattachment
  refine sameRun_bind (sameRun_observeOnly _ _) (fun hashes => ?_)
  refine sameRun_bind (getTrytes_sameRun R _) (fun fetched => ?_)
  dsimp only
  split
  · refine sameRun_bind (sameRun_observeOnly _ _) (fun uc => ?_)
    split
    · split
      · refine sameRun_bind (createTail_sameRun R _ _) (fun _ => ?_)
        exact sameRun_bind (mark_sameRun R _) (fun _ => sameRun_pure _)
      · exact sameRun_undefinedBehaviour
    · refine sameRun_bind (sameRun_observeOnly _ _) (fun cons => ?_)
      dsimp only
      split
      · exact sameRun_bind (insertTails_sameRun R _ _) (fun _ => sameRun_pure _)
      · exact sameRun_bind (sameRun_pure _) (fun _ => sameRun_pure _)
  · exact sameRun_pure _

theorem confirmationSteps_sameRun (R : World τ) (sweep : Sweep) :
    SameRun (confirmationSteps (provenanceWorld R) sweep)
      (confirmationSteps (dbWorld R) sweep) := by
  unfold confirmationSteps
  refine sameRun_bind (getTails_sameRun R _) (fun known => ?_)
  refine sameRun_bind (checkSweepTailsForConfirmation_sameRun R _ _) (fun direct => ?_)
  split
  · exact sameRun_pure _
  · exact checkForUserReattachment_sameRun R _ _

theorem reattachSweep_sameRun (R : World τ) (sweep : Sweep) :
    SameRun (reattachSweep (provenanceWorld R) sweep) (reattachSweep (dbWorld R) sweep) := by
  unfold reattachSweep
  refine sameRun_bind (performPOW_sameRun R _) (fun attached => ?_)
  split
  · exact sameRun_undefinedBehaviour
  · refine sameRun_bind (sameRun_observeOnly _ _) (fun _ => ?_)
    refine sameRun_bind (sameRun_observeOnly _ _) (fun _ => ?_)
    exact createTail_sameRun R _ _

theorem readClock_sameRun (R : World τ) :
    SameRun (readClock (provenanceWorld R)) (readClock (dbWorld R)) :=
  fun _ => ⟨rfl, rfl, rfl⟩

theorem promoteSweep_sameRun (R : World τ) (sweep : Sweep) (t : String) :
    SameRun (promoteSweep (provenanceWorld R) sweep t) (promoteSweep (dbWorld R) sweep t) := by
  unfold promoteSweep
  refine sameRun_bind (sameRun_observeOnly _ _) (fun tips => ?_)
  refine sameRun_bind (readClock_sameRun R) (fun ts => ?_)
  refine sameRun_bind (sameRun_observeOnly _ _) (fun attached => ?_)
  refine sameRun_bind (sameRun_observeOnly _ _) (fun _ => ?_)
  refine sameRun_bind (sameRun_observeOnly _ _) (fun _ => ?_)
  exact sameRun_pure _

theorem promoteOrReattach_sameRun (R : World τ) (sweep : Sweep) :
    SameRun (promoteOrReattach (provenanceWorld R) sweep)
      (promoteOrReattach (dbWorld R) sweep) := by
  unfold promoteOrReattach
  refine sameRun_bind (getTails_sameRun R _) (fun tails => ?_)
  refine sameRun_bind (sameRun_observeOnly _ _) (fun cons => ?_)
  split
  · split
    · exact promoteSweep_sameRun R sweep _
    · exact sameRun_undefinedBehaviour
  · exact reattachSweep_sameRun R sweep

theorem perSweepProtocol_sameRun (R : World τ) (sweep : Sweep) :
    SameRun (perSweepProtocol (provenanceWorld R) sweep)
      (perSweepProtocol (dbWorld R) sweep) := by
  unfold perSweepProtocol
  refine sameRun_bind (confirmationSteps_sameRun R sweep) (fun c => ?_)
  dsimp only
  split
  · exact sameRun_bind (sameRun_pure _) (fun _ => sameRun_observeOnly _ _)
  · exact sameRun_bind (promoteOrReattach_sameRun R sweep)
      (fun _ => sameRun_observeOnly _ _)

theorem processSweep_sameRun (R : World τ) (sweep : Sweep) :
    SameRun (processSweep (provenanceWorld R) sweep) (processSweep (dbWorld R) sweep) := by
  unfold processSweep
  refine sameRun_bind (begin_sameRun R) (fun _ => ?_)
  refine sameRun_bind ?_ (fun _ => fun _ => ⟨rfl, rfl, rfl⟩)
  refine sameRun_tryCatch (perSweepProtocol_sameRun R sweep) (fun _ => ?_)
  unfold rollbackHandler
  exact sameRun_tryCatch (sameRun_observeOnly _ _) (fun _ => sameRun_pure _)

theorem processSweeps_sameRun (R : World τ) (sweeps : List Sweep) :
    SameRun (processSweeps (provenanceWorld R) sweeps) (processSweeps (dbWorld R) sweeps) := by
  induction sweeps with
  | nil => exact sameRun_pure ()
  | cons sweep rest ih =>
    unfold processSweeps
    exact sameRun_bind (processSweep_sameRun R sweep) (fun _ => ih)

theorem doTick_sameRun (R : World τ) :
    SameRun (doTick (provenanceWorld R)) (doTick (dbWorld R)) := by
  unfold doTick
  refine sameRun_bind (readClock_sameRun R) (fun ts => ?_)
  refine sameRun_bind (sameRun_observeOnly _ _) (fun _ => ?_)
  refine sameRun_bind (sameRun_observeOnly _ _) (fun sweeps => ?_)
  exact sameRun_bind (processSweeps_sameRun R sweeps) (fun _ => sameRun_pure _)

end same_run_protocol

theorem sharedHashWorld_consistentSubset : ConsistentSubsetContract sharedHashWorld := by
  intro tails st consistent st1 h
  have h1 : ((.ok UnorderedSet.empty, st) : Except String UnorderedSet × Unit) =
      (.ok consistent, st1) := h
  simp only [Prod.mk.injEq, Except.ok.injEq] at h1
  intro x hx
  rw [← h1.1] at hx
  cases hx

/-! ## Thrown objects that are not exceptions -/

section any_throwable

variable {σ : Type}

theorem tryCatch_of_all_exceptions {α : Type} (body : Prog σ α)
    (handler : String → Prog σ α) (s : Sys σ) :
    AnyThrowable.tryCatch (fun _ => true) body handler s = tryCatch body handler s := by
  unfold AnyThrowable.tryCatch tryCatch
  rcases body s with ⟨o, s1⟩
  cases o <;> rfl

theorem rollbackHandler_of_all_exceptions (W : World σ) (s : Sys σ) :
    AnyThrowable.rollbackHandler (fun _ => true) W s = rollbackHandler W s := by
  unfold AnyThrowable.rollbackHandler rollbackHandler
  exact tryCatch_of_all_exceptions _ _ s

theorem processSweep_of_all_exceptions (W : World σ) (sweep : Sweep) (s : Sys σ) :
    AnyThrowable.processSweep (fun _ => true) W sweep s = processSweep W sweep s := by
  simp only [AnyThrowable.processSweep, processSweep, Prog.bind_run]
  rcases hb : call .beginTransaction W.transaction s with ⟨o, s1⟩
  cases o with
  | ok u =>
    simp only [AnyThrowable.transactionScope, tryCatch_of_all_exceptions]
    have hh : (fun (_ : String) => AnyThrowable.rollbackHandler (fun _ => true) W) =
        fun _ => rollbackHandler W := by
      funext _ s0
      exact rollbackHandler_of_all_exceptions W s0
    rw [hh]
    unfold tryCatch
    rcases hp : perSweepProtocol W sweep s1 with ⟨o2, s2⟩
    cases o2 with
    | ok u2 => simp [releaseTransaction]
    | raise e => simp [rollbackHandler_run, releaseTransaction]
    | fatal => simp
    | undef => simp
  | raise e => rfl
  | fatal => rfl
  | undef => rfl

theorem processSweeps_of_all_exceptions (W : World σ) (sweeps : List Sweep) (s : Sys σ) :
    AnyThrowable.processSweeps (fun _ => true) W sweeps s = processSweeps W sweeps s := by
  induction sweeps generalizing s with
  | nil => rfl
  | cons sweep rest ih =>
    simp only [AnyThrowable.processSweeps, processSweeps, Prog.bind_run,
      processSweep_of_all_exceptions]
    rcases processSweep W sweep s with ⟨o, s1⟩
    cases o with
    | ok u => exact ih s1
    | raise e => rfl
    | fatal => rfl
    | undef => rfl

/-- When every thrown object is an exception derived from `std::exception`, the tick with
handlers that catch exceptions only is the tick in which every `raise` is caught. -/
theorem doTick_of_all_exceptions (W : World σ) (s : Sys σ) :
    AnyThrowable.doTick (fun _ => true) W s = doTick W s := by
  have hh : AnyThrowable.processSweeps (fun _ => true) W = processSweeps W := by
    funext sweeps s0
    exact processSweeps_of_all_exceptions W sweeps s0
  unfold AnyThrowable.doTick doTick
  rw [hh]

end any_throwable

section any_throwable_runs

variable {σ : Type}

theorem tryCatch_raise_not_exception {α : Type} (isException : String → Bool)
    (body : Prog σ α) (handler : String → Prog σ α)
    (h : ∀ e0 s0 e1, (handler e0 s0).1 = .raise e1 → isException e1 = false)
    (s : Sys σ) (e : String)
    (hr : (AnyThrowable.tryCatch isException body handler s).1 = .raise e) :
    isException e = false := by
  unfold AnyThrowable.tryCatch at hr
  rcases hb : body s with ⟨o, s1⟩
  rw [hb] at hr
  cases o with
  | ok a => simp at hr
  | fatal => simp at hr
  | undef => simp at hr
  | raise e0 =>
    simp only at hr
    by_cases he : isException e0 = true
    · rw [if_pos he] at hr
      exact h e0 s1 e hr
    · rw [if_neg he] at hr
      simp only [Outcome.raise.injEq] at hr
      rw [← hr]
      simpa using he

theorem rollbackHandler_raise_not_exception (isException : String → Bool) (W : World σ)
    (s : Sys σ) (e : String)
    (hr : (AnyThrowable.rollbackHandler isException W s).1 = .raise e) :
    isException e = false :=
  tryCatch_raise_not_exception isException _ _ (fun _ _ _ h => by simp [pure] at h) s e hr

theorem transactionScope_outcome {α : Type} (W : World σ) (body : Prog σ α) (s : Sys σ) :
    (AnyThrowable.transactionScope W body s).1 = (body s).1 := by
  unfold AnyThrowable.transactionScope
  rcases body s with ⟨o, s1⟩
  cases o <;> rfl

theorem processSweep_raise_not_exception (isException : String → Bool) (W : World σ)
    (sweep : Sweep) (hbegin : ∀ st, ∃ st1, W.transaction st = (.ok (), st1)) (s : Sys σ)
    (e : String) (hr : (AnyThrowable.processSweep isException W sweep s).1 = .raise e) :
    isException e = false := by
  obtain ⟨st1, hb⟩ := hbegin s.st
  simp only [AnyThrowable.processSweep, Prog.bind_run, call, hb, transactionScope_outcome]
    at hr
  exact tryCatch_raise_not_exception isException _ _
    (fun _ s0 e1 h => rollbackHandler_raise_not_exception isException W s0 e1 h) _ e hr

theorem processSweeps_raise_not_exception (isException : String → Bool) (W : World σ)
    (hbegin : ∀ st, ∃ st1, W.transaction st = (.ok (), st1)) (sweeps : List Sweep)
    (s : Sys σ) (e : String)
    (hr : (AnyThrowable.processSweeps isException W sweeps s).1 = .raise e) :
    isException e = false := by
  induction sweeps generalizing s with
  | nil => simp [AnyThrowable.processSweeps, Prog.pure_run] at hr
  | cons sweep rest ih =>
    have hp := processSweep_raise_not_exception isException W sweep hbegin s
    simp only [AnyThrowable.processSweeps, Prog.bind_run] at hr
    rcases hps : AnyThrowable.processSweep isException W sweep s with ⟨o, s1⟩
    rw [hps] at hr hp
    cases o with
    | ok u => exact ih s1 hr
    | raise e0 =>
      simp only [Outcome.raise.injEq] at hr
      rw [← hr]
      exact hp e0 rfl
    | fatal => simp at hr
    | undef => simp at hr

theorem anyThrowable_doTick_run (isException : String → Bool) (W : World σ) (s : Sys σ)
    (info : NodeInfo) (sweeps : List Sweep) (sa sb : σ)
    (hinfo : W.getNodeInfo s.st = (.ok info, sa))
    (hsweeps : W.getUnconfirmedSweeps (W.now s.st) sa = (.ok sweeps, sb)) :
    AnyThrowable.doTick isException W s =
      (AnyThrowable.processSweeps isException W sweeps >>= fun _ => pure true)
        ⟨sb, s.trace ++ [.getNodeInfo, .getUnconfirmedSweeps (W.now s.st)]⟩ := by
  simp only [AnyThrowable.doTick, Prog.bind_run, readClock, call, hinfo, hsweeps,
    List.append_assoc, List.singleton_append]

theorem anyThrowable_processSweeps_one (isException : String → Bool) (W : World σ)
    (sweep : Sweep) (s : Sys σ) :
    AnyThrowable.processSweeps isException W [sweep] s =
      (AnyThrowable.processSweep isException W sweep >>= fun _ => pure ()) s := by
  simp only [AnyThrowable.processSweeps]

end any_throwable_runs

/-! ## Claims -/

/-- Claim C1 (Step A, direct confirmation).  When `getTailsForSweep` returns `known` and
`filterConfirmedTails(known, {})` returns a set whose only element is `t`, the calls of
the per-sweep protocol are exactly: the read of the tails, the filter call,
`markTailAsConfirmed(t)`, and then `commit` (the commit is reached whenever
`markTailAsConfirmed` returns; if it raises the protocol stops there).  So
`markTailAsConfirmed(t)` is the only DB write, `createTail`, `findTransactions`, the POW
provider, `storeTransactions` and `broadcastTransactions` are not called. -/
theorem C1_direct_confirmation {σ : Type} (W : World σ) (sweep : Sweep) (s : Sys σ)
    (known : List String) (confirmed : UnorderedSet) (t : String) (s1 s2 : σ)
    (hknown : W.getTailsForSweep sweep.id s.st = (.ok known, s1))
    (hfilter : W.filterConfirmedTails known none s1 = (.ok confirmed, s2))
    (hone : confirmed.elems = [t]) :
    (perSweepProtocol W sweep s).2.trace =
      s.trace ++ [.getTailsForSweep sweep.id, .filterConfirmedTails known none,
        .markTailAsConfirmed t] ++
        (match (W.markTailAsConfirmed t s2).1 with
          | .ok _ => [.commit]
          | .error _ => []) := by
  rcases hm : W.markTailAsConfirmed t s2 with ⟨r, s3⟩
  cases r with
  | ok u =>
    rcases hcm : W.commit s3 with ⟨rc, s4⟩
    cases rc <;>
    simp [perSweepProtocol, confirmationSteps, checkSweepTailsForConfirmation, Prog.bind_run, call,
      Prog.pure_run, hknown, hfilter, hm, hone, UnorderedSet.size, hcm]
  | error e =>
    simp [perSweepProtocol, confirmationSteps, checkSweepTailsForConfirmation, Prog.bind_run, call,
      Prog.pure_run, hknown, hfilter, hm, hone, UnorderedSet.size]

/-- Scenario 1 as an instance of C1: tails `[T1, T2]`, `T2` confirmed. -/
theorem C1_direct_confirmation_witness :
    (perSweepProtocol directConfirmWorld sweepS1 ⟨(), []⟩).2.trace =
      [.getTailsForSweep 1, .filterConfirmedTails ["T1", "T2"] none,
        .markTailAsConfirmed "T2", .commit] :=
  C1_direct_confirmation directConfirmWorld sweepS1 ⟨(), []⟩ ["T1", "T2"] ⟨["T2"], by decide⟩
    "T2" () () rfl rfl rfl

/-- Claim C2, as stated, fails.  The table starts with at most one confirmed tail per
sweep (sweep 1 is confirmed through `T1`), the only unconfirmed sweep is sweep 2, and the
ledger answers within its subset contract.  For sweep 2 the ledger reports the user tail
`H` as confirmed; `H` is also a tail of sweep 1, and `markTailAsConfirmed(H)`, which
names the hash only, leaves sweep 1 with the two confirmed tails `T1` and `H`. -/
theorem C2_at_most_one_confirmed_counterexample :
    SubsetContract sharedHashWorld ∧
    AtMostOnePerSweep sharedHashDatabase.committed ∧
    sharedHashDatabase.getUnconfirmedSweeps 0 = [sweepS2] ∧
    (doTick (dbWorld sharedHashWorld) ⟨(sharedHashDatabase, ()), []⟩).1 = .ok true ∧
    (doTick (dbWorld sharedHashWorld) ⟨(sharedHashDatabase, ()), []⟩).2.st.1.committed =
      [⟨1, "T1", true⟩, ⟨1, "H", true⟩, ⟨2, "T2", false⟩, ⟨2, "H", true⟩] ∧
    ¬ atMostOneConfirmed
      (doTick (dbWorld sharedHashWorld) ⟨(sharedHashDatabase, ()), []⟩).2.st.1.committed 1 := by
  have hrun : doTick (dbWorld sharedHashWorld) ⟨(sharedHashDatabase, ()), []⟩ =
      (processSweeps (dbWorld sharedHashWorld) [sweepS2] >>= fun _ => pure true)
        ⟨(sharedHashDatabase, ()), [.getNodeInfo, .getUnconfirmedSweeps 0]⟩ :=
    doTick_run (dbWorld sharedHashWorld) ⟨(sharedHashDatabase, ()), []⟩ ⟨"M", 0, 0⟩ [sweepS2]
      (sharedHashDatabase, ()) (sharedHashDatabase, ()) rfl rfl
  have hcommitted :
      (doTick (dbWorld sharedHashWorld) ⟨(sharedHashDatabase, ()), []⟩).2.st.1.committed =
        [⟨1, "T1", true⟩, ⟨1, "H", true⟩, ⟨2, "T2", false⟩, ⟨2, "H", true⟩] := by
    rw [hrun, Prog.bind_run, processSweeps_one, Prog.bind_run]
    rfl
  refine ⟨sharedHashWorld_subset, ?_, rfl, ?_, hcommitted, ?_⟩
  · intro id
    unfold atMostOneConfirmed
    simp only [sharedHashDatabase, List.filter_cons, List.filter_nil, Bool.and_true,
      Bool.and_false]
    split <;> simp
  · rw [hrun, Prog.bind_run, processSweeps_one, Prog.bind_run]
    rfl
  · rw [hcommitted]
    unfold atMostOneConfirmed
    decide

/-- Claim C2, amended.  Over the database model, let the ledger answer
`filterConfirmedTails` within its subset contract, let the sweep ids be unique, and let
the table start with one row per sweep and tail hash and with at most one confirmed tail
per sweep.  Then after each DB write of the tick (the tables of `history`) and after the
whole of `doTick`, however it ends, every table in which no tail hash is recorded under
two different sweeps has at most one confirmed tail per sweep. -/
theorem C2_at_most_one_confirmed {τ : Type} (R : World τ) (hsub : SubsetContract R)
    (db : Database) (t0 : τ) (tr : List Event)
    (hids : (db.sweeps.map (fun p => p.1.id)).Nodup)
    (hkeys : KeysNodup db.committed)
    (hone : AtMostOnePerSweep db.committed)
    (hhist : db.history = []) :
    (∀ rows ∈ (doTick (dbWorld R) ⟨(db, t0), tr⟩).2.st.1.history,
      Unshared rows → AtMostOnePerSweep rows) ∧
    (Unshared (doTick (dbWorld R) ⟨(db, t0), tr⟩).2.st.1.committed →
      AtMostOnePerSweep (doTick (dbWorld R) ⟨(db, t0), tr⟩).2.st.1.committed) := by
  have h := doTick_idle R hsub ⟨(db, t0), tr⟩
    ⟨hids, hkeys, hone, by
      show Hist db.history
      rw [hhist]
      exact fun _ hr => by cases hr⟩
  exact ⟨h.2, fun hu => (h.1.2 hu).1⟩

/-- Instance of the amended C2: sweep `S1` with the tail `T1`, and a ledger that reports
the user tail `H` as confirmed.  The tick records `H` for `S1` and marks it; no hash is
shared, and `S1` ends with one confirmed tail. -/
theorem C2_at_most_one_confirmed_witness :
    (doTick (dbWorld sharedHashWorld) ⟨(databaseS1, ()), []⟩).2.st.1.committed =
      [⟨1, "T1", false⟩, ⟨1, "H", true⟩] ∧
    Unshared [⟨1, "T1", false⟩, ⟨1, "H", true⟩] ∧
    AtMostOnePerSweep [⟨1, "T1", false⟩, ⟨1, "H", true⟩] := by
  have hc : (doTick (dbWorld sharedHashWorld) ⟨(databaseS1, ()), []⟩).2.st.1.committed =
      [⟨1, "T1", false⟩, ⟨1, "H", true⟩] := by
    rw [doTick_run (dbWorld sharedHashWorld) ⟨(databaseS1, ()), []⟩ ⟨"M", 0, 0⟩ [sweepS1]
      (databaseS1, ()) (databaseS1, ()) rfl rfl, Prog.bind_run, processSweeps_one,
      Prog.bind_run]
    rfl
  have hu : Unshared [⟨1, "T1", false⟩, ⟨1, "H", true⟩] := by
    intro r1 h1 r2 h2 _
    simp only [List.mem_cons, List.mem_singleton, List.not_mem_nil, or_false] at h1 h2
    rcases h1 with rfl | rfl <;> rcases h2 with rfl | rfl <;> rfl
  have h := (C2_at_most_one_confirmed sharedHashWorld sharedHashWorld_subset databaseS1 () []
    (by decide) (by unfold KeysNodup; decide)
    (by
      intro id
      unfold atMostOneConfirmed
      simp [databaseS1])
    rfl).2
  rw [hc] at h
  exact ⟨hc, hu, h hu⟩

/-- Claim C3 (double confirmation is fatal).  When `filterConfirmedTails` on the known
tails of a sweep returns more than one element, processing stops with the fatal outcome
right after the filter call: no `markTailAsConfirmed`, no `createTail`, no `commit` and
no `rollback` is called for the sweep, and no later sweep is processed. -/
theorem C3_double_confirmation_fatal {σ : Type} (W : World σ) (sweep : Sweep)
    (rest : List Sweep) (s : Sys σ) (known : List String) (confirmed : UnorderedSet)
    (s0 s1 s2 : σ)
    (hbegin : W.transaction s.st = (.ok (), s0))
    (hknown : W.getTailsForSweep sweep.id s0 = (.ok known, s1))
    (hfilter : W.filterConfirmedTails known none s1 = (.ok confirmed, s2))
    (hmany : 1 < confirmed.size) :
    processSweeps W (sweep :: rest) s =
      (.fatal, ⟨s2, s.trace ++ [.beginTransaction, .getTailsForSweep sweep.id,
        .filterConfirmedTails known none, .logFatal]⟩) := by
  have h1 : confirmed.size ≠ 1 := by omega
  simp [processSweeps, processSweep, tryCatch, perSweepProtocol, confirmationSteps,
    checkSweepTailsForConfirmation, Prog.bind_run, call, hbegin, hknown,
    hfilter, h1, hmany, logFatal]

/-- Scenario 6 as an instance of C3. -/
theorem C3_double_confirmation_fatal_witness :
    processSweeps doubleConfirmWorld [sweepS1, sweepS1] ⟨(), []⟩ =
      (.fatal, ⟨(), [.beginTransaction, .getTailsForSweep 1,
        .filterConfirmedTails ["T1", "T2"] none, .logFatal]⟩) :=
  C3_double_confirmation_fatal doubleConfirmWorld sweepS1 [sweepS1] ⟨(), []⟩ ["T1", "T2"]
    ⟨["T1", "T2"], by decide⟩ () () () rfl rfl rfl (by decide)

/-- Claim C4 (Step B, confirmed user reattachment).  When Step A finds no confirmed tail,
the user tails (the tails of the bundle that are not known) are not empty and
`filterConfirmedTails` on them returns a set that is not empty, whose element at
`cbegin()` is `t`, the calls of the per-sweep protocol are exactly: the read of the
tails, the two lookups, the two filter calls, `createTail(S.id, t)`, then
`markTailAsConfirmed(t)`, then `commit` (each reached whenever the DB write before it
returns).  No other DB write is made, nothing is published, Step C is not run, and
`t` is an element of the returned set. -/
theorem C4_confirmed_user_reattachment {σ : Type} (W : World σ) (sweep : Sweep) (s : Sys σ)
    (known hashes : List String) (direct uconfirmed : UnorderedSet)
    (fetched : List Transaction) (t : String) (more : List String) (s1 s2 s3 s4 s5 : σ)
    (hknown : W.getTailsForSweep sweep.id s.st = (.ok known, s1))
    (hdirect : W.filterConfirmedTails known none s1 = (.ok direct, s2))
    (hnone : direct.size = 0)
    (hfind : W.findTransactions none (some [sweep.bundleHash]) s2 = (.ok hashes, s3))
    (htrytes : W.getTrytes hashes s3 = (.ok fetched, s4))
    (huser : (removeKnown known fetched).map (fun tx => tx.hash) ≠ [])
    (hfilter : W.filterConfirmedTails ((removeKnown known fetched).map (fun tx => tx.hash))
      none s4 = (.ok uconfirmed, s5))
    (helems : uconfirmed.elems = t :: more) :
    t ∈ uconfirmed.elems ∧
    (perSweepProtocol W sweep s).2.trace =
      s.trace ++ [.getTailsForSweep sweep.id, .filterConfirmedTails known none,
        .findTransactions none (some [sweep.bundleHash]), .getTrytes hashes,
        .filterConfirmedTails ((removeKnown known fetched).map (fun tx => tx.hash)) none,
        .createTail sweep.id t] ++
        (match W.createTail sweep.id t s5 with
          | (.error _, _) => []
          | (.ok _, s6) =>
            .markTailAsConfirmed t ::
              (match (W.markTailAsConfirmed t s6).1 with
                | .ok _ => [.commit]
                | .error _ => [])) := by
  refine ⟨by simp [helems], ?_⟩
  have hlen : removeKnown known fetched ≠ [] := by
    intro h
    exact huser (by simp [h])
  have h1 : direct.size ≠ 1 := by omega
  have h2 : ¬ direct.size > 1 := by omega
  have h3 : uconfirmed.size ≠ 0 := by simp [UnorderedSet.size, helems]
  rcases hc : W.createTail sweep.id t s5 with ⟨rc, s6⟩
  cases rc with
  | error e =>
    simp [perSweepProtocol, confirmationSteps, checkSweepTailsForConfirmation,
      checkForUserReattachment, Prog.bind_run, call, Prog.pure_run, hknown, hdirect,
      hfind, htrytes, hfilter, hc, h1, h2, h3, hlen, helems]
  | ok u =>
    rcases hm : W.markTailAsConfirmed t s6 with ⟨rm, s7⟩
    cases rm with
    | error e =>
      simp [perSweepProtocol, confirmationSteps, checkSweepTailsForConfirmation,
        checkForUserReattachment, Prog.bind_run, call, Prog.pure_run, hknown,
        hdirect, hfind, htrytes, hfilter, hc,
        hm, h1, h2, h3, hlen, helems]
    | ok u2 =>
      rcases hcm : W.commit s7 with ⟨rcm, s8⟩
      cases rcm <;>
      simp [hcm, perSweepProtocol, confirmationSteps, checkSweepTailsForConfirmation,
        checkForUserReattachment, Prog.bind_run, call, Prog.pure_run, hknown,
        hdirect, hfind, htrytes, hfilter, hc,
        hm, h1, h2, h3, hlen, helems]

/-- Scenario 2 as an instance of C4: the row `(S1, U1)` is inserted, then marked. -/
theorem C4_confirmed_user_reattachment_witness :
    "U1" ∈ ["U1"] ∧
    (perSweepProtocol userConfirmWorld sweepS1 ⟨(), []⟩).2.trace =
      [.getTailsForSweep 1, .filterConfirmedTails ["T1"] none,
        .findTransactions none (some ["B"]), .getTrytes ["T1", "U1", "U1b"],
        .filterConfirmedTails ["U1"] none, .createTail 1 "U1", .markTailAsConfirmed "U1",
        .commit] :=
  C4_confirmed_user_reattachment userConfirmWorld sweepS1 ⟨(), []⟩ ["T1"] ["T1", "U1", "U1b"]
    UnorderedSet.empty ⟨["U1"], by decide⟩
    [bundleTx "T1" 0, bundleTx "U1" 0, bundleTx "U1b" 1] "U1" [] () () () () ()
    rfl rfl rfl rfl rfl (by decide) rfl rfl

/-- Claim C5, as stated, fails.  The re-read tails are `[T1, T2]`, most recent last, and
both are in the consistent set: the most recent consistent tail is `T2`, while the
`std::find_if` of `doTick` starts at `begin()` and stops at `T1`, which is the reference
passed to `getTransactionsToApprove`. -/
theorem C5_promotion_choice_counterexample :
    specPromotionChoice ["T1", "T2"] ⟨["T2", "T1"], by decide⟩ = some "T2" ∧
    toPromote ["T1", "T2"] ⟨["T2", "T1"], by decide⟩ = some "T1" ∧
    (promoteOrReattach twoConsistentWorld sweepS1 ⟨(), []⟩).2.trace =
      [.getTailsForSweep 1, .filterConsistentTails ["T1", "T2"],
        .getTransactionsToApprove 0 (some "T1"),
        .doPOW ["tx:" ++ promotionAddress] "X" "Y",
        .storeTransactions ["tx:" ++ promotionAddress],
        .broadcastTransactions ["tx:" ++ promotionAddress]] := by
  refine ⟨by decide, by decide, rfl⟩

/-- Claim C5, amended: the tail that is promoted is the first element of the re-read
tails, in the order `getTailsForSweep` returned them, that belongs to the consistent set.
It is the reference of the only `getTransactionsToApprove` call, made with depth 0 right
after the filter call; every later call of the step is a POW or publication call. -/
theorem C5_promotes_first_consistent {σ : Type} (W : World σ) (sweep : Sweep) (s : Sys σ)
    (before after : List String) (t : String) (consistent : UnorderedSet) (s1 s2 : σ)
    (hknown : W.getTailsForSweep sweep.id s.st = (.ok (before ++ t :: after), s1))
    (hcons : W.filterConsistentTails (before ++ t :: after) s1 = (.ok consistent, s2))
    (ht : t ∈ consistent.elems)
    (hfirst : ∀ x ∈ before, x ∉ consistent.elems) :
    toPromote (before ++ t :: after) consistent = some t ∧
    ∃ rest, (promoteOrReattach W sweep s).2.trace =
        s.trace ++ [.getTailsForSweep sweep.id, .filterConsistentTails (before ++ t :: after),
          .getTransactionsToApprove 0 (some t)] ++ rest ∧
      ∀ e ∈ rest, e.isPublication = true := by
  have hfind := toPromote_first before after t consistent ht hfirst
  refine ⟨hfind, ?_⟩
  have hsize : consistent.size > 0 := by
    cases hel : consistent.elems with
    | nil => rw [hel] at ht; cases ht
    | cons a l => simp [UnorderedSet.size, hel]
  obtain ⟨rest, h1, h2⟩ := promoteSweep_trace W sweep t
    ⟨s2, s.trace ++ [.getTailsForSweep sweep.id] ++
      [.filterConsistentTails (before ++ t :: after)]⟩
  refine ⟨rest, ?_, h2⟩
  simp only [promoteOrReattach, Prog.bind_run, call, hknown, hcons, hsize, if_true, hfind]
  rw [h1]
  simp

/-- Instance of the amended C5: of `[T1, T2]`, both consistent, `T1` is promoted. -/
theorem C5_promotes_first_consistent_witness :
    toPromote ([] ++ "T1" :: ["T2"]) ⟨["T2", "T1"], by decide⟩ = some "T1" ∧
    ∃ rest, (promoteOrReattach twoConsistentWorld sweepS1 ⟨(), []⟩).2.trace =
        [] ++ [.getTailsForSweep sweepS1.id, .filterConsistentTails ([] ++ "T1" :: ["T2"]),
          .getTransactionsToApprove 0 (some "T1")] ++ rest ∧
      ∀ e ∈ rest, e.isPublication = true :=
  C5_promotes_first_consistent twoConsistentWorld sweepS1 ⟨(), []⟩ [] ["T2"] "T1"
    ⟨["T2", "T1"], by decide⟩ () () rfl rfl (by decide) (by simp)

/-- Claim C6, as stated, fails.  Steps A and B confirm nothing, the consistent set of the
re-read tails is empty, and the protocol returns; yet `createTail(S.id, h)` with
`h = digest(attached[0])` is called twice.  Step B found on the ledger the unknown tail
with that hash, consistent, and inserted it; Step C then reattached and inserted the
digest of the attached trytes, which is the same hash. -/
theorem C6_createTail_twice_counterexample :
    (confirmationSteps (dbWorld sameHashWorld) sweepS1 ⟨(databaseS1, ()), []⟩).1 =
      .ok false ∧
    (sameHashWorld.filterConsistentTails ["T1", "digest:TRYTES"] ()).1 =
      .ok UnorderedSet.empty ∧
    sameHashWorld.iota_digest "TRYTES" = "digest:TRYTES" ∧
    perSweepProtocol (dbWorld sameHashWorld) sweepS1 ⟨(databaseS1, ()), []⟩ =
      (.ok (), ⟨(⟨[(sweepS1, -1)],
          [⟨1, "T1", false⟩, ⟨1, "digest:TRYTES", false⟩],
          [⟨1, "T1", false⟩, ⟨1, "digest:TRYTES", false⟩],
          [[⟨1, "T1", false⟩, ⟨1, "digest:TRYTES", false⟩],
            [⟨1, "T1", false⟩, ⟨1, "digest:TRYTES", false⟩]]⟩, ()),
        [.getTailsForSweep 1, .filterConfirmedTails ["T1"] none,
          .findTransactions none (some ["B"]), .getTrytes ["digest:TRYTES"],
          .filterConfirmedTails ["digest:TRYTES"] none,
          .filterConsistentTails ["digest:TRYTES"], .createTail 1 "digest:TRYTES",
          .getTailsForSweep 1, .filterConsistentTails ["T1", "digest:TRYTES"],
          .performPOW "TRYTES", .storeTransactions ["TRYTES"],
          .broadcastTransactions ["TRYTES"], .createTail 1 "digest:TRYTES", .commit]⟩) ∧
    List.count (Event.createTail 1 "digest:TRYTES")
      [.getTailsForSweep 1, .filterConfirmedTails ["T1"] none,
        .findTransactions none (some ["B"]), .getTrytes ["digest:TRYTES"],
        .filterConfirmedTails ["digest:TRYTES"] none,
        .filterConsistentTails ["digest:TRYTES"], .createTail 1 "digest:TRYTES",
        .getTailsForSweep 1, .filterConsistentTails ["T1", "digest:TRYTES"],
        .performPOW "TRYTES", .storeTransactions ["TRYTES"],
        .broadcastTransactions ["TRYTES"], .createTail 1 "digest:TRYTES", .commit] = 2 := by
  refine ⟨rfl, rfl, rfl, rfl, by decide⟩

/-- Claim C6, amended.  When Steps A and B confirm nothing (they end with `false` in
state `sC`), the re-read tails have no consistent element and `performPOW` returns the
attached trytes `first :: more`, the calls made after Steps A and B are exactly: the
re-read, the filter call, `performPOW(S.trytes)`, `storeTransactions` and then
`broadcastTransactions` with the attached trytes, `createTail(S.id, h)` with
`h = iota_digest(attached[0])`, and `commit` (each reached whenever the call before it
returns).  Steps A and B themselves made no `markTailAsConfirmed`, publication, POW or
commit call, so no tail is marked confirmed and `performPOW` is called once.  When the
publication returns, `createTail(S.id, h)` is called once more than Step B called it:
exactly once unless Step B inserted a user tail with the hash `h`. -/
theorem C6_reattachment_calls {σ : Type} (W : World σ) (sweep : Sweep) (s sC : Sys σ)
    (known : List String) (consistent : UnorderedSet) (first : String) (more : List String)
    (s1 s2 s3 : σ)
    (hAB : confirmationSteps W sweep s = (.ok false, sC))
    (hknown : W.getTailsForSweep sweep.id sC.st = (.ok known, s1))
    (hcons : W.filterConsistentTails known s1 = (.ok consistent, s2))
    (hempty : consistent.size = 0)
    (hpow : W.performPOW sweep.trytes s2 = (.ok (first :: more), s3)) :
    (∃ evs, sC.trace = s.trace ++ evs ∧ ∀ e ∈ evs, e.isQuiet = true) ∧
    (perSweepProtocol W sweep s).2.trace =
      sC.trace ++ [.getTailsForSweep sweep.id, .filterConsistentTails known,
        .performPOW sweep.trytes, .storeTransactions (first :: more)] ++
        (match W.storeTransactions (first :: more) s3 with
          | (.error _, _) => []
          | (.ok _, s4) =>
            .broadcastTransactions (first :: more) ::
              (match W.broadcastTransactions (first :: more) s4 with
                | (.error _, _) => []
                | (.ok _, s5) =>
                  .createTail sweep.id (W.iota_digest first) ::
                    (match (W.createTail sweep.id (W.iota_digest first) s5).1 with
                      | .ok _ => [.commit]
                      | .error _ => []))) ∧
    ∀ evs b4 s4 b5 s5, sC.trace = s.trace ++ evs →
      W.storeTransactions (first :: more) s3 = (.ok b4, s4) →
      W.broadcastTransactions (first :: more) s4 = (.ok b5, s5) →
      ∃ all, (perSweepProtocol W sweep s).2.trace = s.trace ++ all ∧
        all.count (.createTail sweep.id (W.iota_digest first)) =
          evs.count (.createTail sweep.id (W.iota_digest first)) + 1 ∧
        (Event.createTail sweep.id (W.iota_digest first) ∉ evs →
          all.count (.createTail sweep.id (W.iota_digest first)) = 1) := by
  have hz : ¬ consistent.size > 0 := by omega
  have htrace : (perSweepProtocol W sweep s).2.trace =
      sC.trace ++ [.getTailsForSweep sweep.id, .filterConsistentTails known,
        .performPOW sweep.trytes, .storeTransactions (first :: more)] ++
        (match W.storeTransactions (first :: more) s3 with
          | (.error _, _) => []
          | (.ok _, s4) =>
            .broadcastTransactions (first :: more) ::
              (match W.broadcastTransactions (first :: more) s4 with
                | (.error _, _) => []
                | (.ok _, s5) =>
                  .createTail sweep.id (W.iota_digest first) ::
                    (match (W.createTail sweep.id (W.iota_digest first) s5).1 with
                      | .ok _ => [.commit]
                      | .error _ => []))) := by
    rcases h4 : W.storeTransactions (first :: more) s3 with ⟨r4, s4⟩
    cases r4 with
    | error e =>
      simp [perSweepProtocol, promoteOrReattach, reattachSweep, Prog.bind_run, call, hAB,
        hknown, hcons, hz, hpow, h4]
    | ok b4 =>
      rcases h5 : W.broadcastTransactions (first :: more) s4 with ⟨r5, s5⟩
      cases r5 with
      | error e =>
        simp [perSweepProtocol, promoteOrReattach, reattachSweep, Prog.bind_run, call, hAB,
          hknown, hcons, hz, hpow, h4, h5]
      | ok b5 =>
        rcases h6 : W.createTail sweep.id (W.iota_digest first) s5 with ⟨r6, s6⟩
        cases r6 with
        | error e =>
          simp [perSweepProtocol, promoteOrReattach, reattachSweep, Prog.bind_run, call, hAB,
            hknown, hcons, hz, hpow, h4, h5, h6]
        | ok u6 =>
          rcases h7 : W.commit s6 with ⟨r7, s7⟩
          cases r7 <;>
          simp [perSweepProtocol, promoteOrReattach, reattachSweep, Prog.bind_run, call, hAB,
            hknown, hcons, hz, hpow, h4, h5, h6, h7]
  refine ⟨confirmationSteps_false W sweep s sC hAB, htrace, ?_⟩
  intro evs b4 s4 b5 s5 hevs h4 h5
  rw [h4] at htrace
  simp only at htrace
  rw [h5] at htrace
  simp only at htrace
  have hcount : ∀ tl : List Event, (∀ e ∈ tl, e = .commit) →
      List.count (Event.createTail sweep.id (W.iota_digest first))
        (evs ++ ([.getTailsForSweep sweep.id, .filterConsistentTails known,
          .performPOW sweep.trytes, .storeTransactions (first :: more),
          .broadcastTransactions (first :: more),
          .createTail sweep.id (W.iota_digest first)] ++ tl)) =
        List.count (Event.createTail sweep.id (W.iota_digest first)) evs + 1 := by
    intro tl htl
    have h0 : tl.count (.createTail sweep.id (W.iota_digest first)) = 0 := by
      rw [List.count_eq_zero]
      intro hmem
      have := htl _ hmem
      cases this
    simp [List.count_append, List.count_cons, h0]
  rcases h6 : (W.createTail sweep.id (W.iota_digest first) s5).1 with e6 | u6
  · rw [h6] at htrace
    refine ⟨evs ++ ([.getTailsForSweep sweep.id, .filterConsistentTails known,
      .performPOW sweep.trytes, .storeTransactions (first :: more),
      .broadcastTransactions (first :: more),
      .createTail sweep.id (W.iota_digest first)] ++ []), ?_, hcount [] (by simp), ?_⟩
    · rw [htrace, hevs]
      simp
    · intro hnot
      rw [hcount [] (by simp), List.count_eq_zero.mpr hnot]
  · rw [h6] at htrace
    refine ⟨evs ++ ([.getTailsForSweep sweep.id, .filterConsistentTails known,
      .performPOW sweep.trytes, .storeTransactions (first :: more),
      .broadcastTransactions (first :: more),
      .createTail sweep.id (W.iota_digest first)] ++ [.commit]), ?_,
      hcount [.commit] (by simp), ?_⟩
    · rw [htrace, hevs]
      simp
    · intro hnot
      rw [hcount [.commit] (by simp), List.count_eq_zero.mpr hnot]

/-- Scenario 4 as an instance of the amended C6: Step B inserts nothing, and
`createTail(S1, digest(attached[0]))` is called exactly once. -/
theorem C6_reattachment_calls_witness :
    (∃ evs, [Event.getTailsForSweep 1, .filterConfirmedTails ["T1"] none,
        .findTransactions none (some ["B"]), .getTrytes []] = [] ++ evs ∧
      ∀ e ∈ evs, e.isQuiet = true) ∧
    (perSweepProtocol reattachWorld sweepS1 ⟨(), []⟩).2.trace =
      [.getTailsForSweep 1, .filterConfirmedTails ["T1"] none,
        .findTransactions none (some ["B"]), .getTrytes []] ++
      [.getTailsForSweep 1, .filterConsistentTails ["T1"], .performPOW "TRYTES",
        .storeTransactions ["TRYTES"]] ++
      [.broadcastTransactions ["TRYTES"], .createTail 1 "digest:TRYTES", .commit] ∧
    ∃ all, (perSweepProtocol reattachWorld sweepS1 ⟨(), []⟩).2.trace = [] ++ all ∧
      all.count (.createTail 1 "digest:TRYTES") = 1 := by
  have h := C6_reattachment_calls reattachWorld sweepS1 ⟨(), []⟩
    ⟨(), [.getTailsForSweep 1, .filterConfirmedTails ["T1"] none,
      .findTransactions none (some ["B"]), .getTrytes []]⟩
    ["T1"] UnorderedSet.empty "TRYTES" [] () () () rfl rfl rfl rfl rfl
  refine ⟨h.1, h.2.1, ?_⟩
  obtain ⟨all, h1, _, h3⟩ := h.2.2
    [.getTailsForSweep 1, .filterConfirmedTails ["T1"] none,
      .findTransactions none (some ["B"]), .getTrytes []] true () true () rfl rfl rfl
  exact ⟨all, h1, h3 (by decide)⟩

/-- Claim C7 (promotion path).  When `getTransactionsToApprove(0, t)` returns
`(trunk, branch)`, promotion calls `doPOW` once, with the one-element list holding the
trytes of the transaction of value 0 built at the placeholder address and with exactly
that trunk and branch, then `storeTransactions` and `broadcastTransactions`, once each,
with the attached trytes (each reached whenever the call before it returns).  No DB call
is made, and over the database model the database is left as it was. -/
theorem C7_promotion_path {σ : Type} (W : World σ) (sweep : Sweep) (t : String) (s : Sys σ)
    (trunk branch : String) (s1 : σ)
    (htips : W.getTransactionsToApprove 0 (some t) s.st = (.ok (trunk, branch), s1)) :
    (promoteSweep W sweep t s).2.trace =
      s.trace ++ [.getTransactionsToApprove 0 (some t),
        .doPOW [W.toTrytes ⟨promotionAddress, 0, W.now s1⟩] trunk branch] ++
        (match W.doPOW [W.toTrytes ⟨promotionAddress, 0, W.now s1⟩] trunk branch s1 with
          | (.error _, _) => []
          | (.ok attached, s2) =>
            .storeTransactions attached ::
              (match (W.storeTransactions attached s2).1 with
                | .ok _ => [.broadcastTransactions attached]
                | .error _ => [])) ∧
    ∀ (τ : Type) (R : World τ) (sd : Sys (Database × τ)),
      (promoteSweep (dbWorld R) sweep t sd).2.st.1 = sd.st.1 := by
  constructor
  · rcases h2 : W.doPOW [W.toTrytes ⟨promotionAddress, 0, W.now s1⟩] trunk branch s1
      with ⟨r2, s2⟩
    cases r2 with
    | error e => simp [promoteSweep, Prog.bind_run, call, readClock, htips, h2]
    | ok attached =>
      rcases h3 : W.storeTransactions attached s2 with ⟨r3, s3⟩
      cases r3 with
      | error e => simp [promoteSweep, Prog.bind_run, call, readClock, htips, h2, h3]
      | ok b =>
        rcases h4 : W.broadcastTransactions attached s3 with ⟨r4, s4⟩
        cases r4 <;>
        simp [promoteSweep, Prog.bind_run, call, readClock, htips, h2, h3, h4, Prog.pure_run]
  · intro τ R sd
    exact promoteSweep_db R sweep t sd.st.1 sd rfl

/-- Scenario 3 as an instance of C7: one promotion transaction with trunk `X`, branch
`Y` and value 0. -/
theorem C7_promotion_path_witness :
    (promoteSweep promoteWorld sweepS1 "T1" ⟨(), []⟩).2.trace =
      [.getTransactionsToApprove 0 (some "T1"),
        .doPOW [promoteWorld.toTrytes ⟨promotionAddress, 0, 0⟩] "X" "Y",
        .storeTransactions [promoteWorld.toTrytes ⟨promotionAddress, 0, 0⟩],
        .broadcastTransactions [promoteWorld.toTrytes ⟨promotionAddress, 0, 0⟩]] ∧
    ∀ (τ : Type) (R : World τ) (sd : Sys (Database × τ)),
      (promoteSweep (dbWorld R) sweepS1 "T1" sd).2.st.1 = sd.st.1 :=
  C7_promotion_path promoteWorld sweepS1 "T1" ⟨(), []⟩ "X" "Y" () rfl

/-- Claim C11 (Step B, user-tails filter).  Let `findTransactions` for the bundle of the
sweep return `hashes` and `getTrytes` return `fetched`.  The list the code builds is the
list of the spec: the hashes of the fetched transactions with `currentIndex = 0` whose
hash is not known, in their original order.  When it is not empty it is the argument of
the `filterConfirmedTails` call that follows, the only such call of Step B; when it is
empty Step B ends there with `false`, having made no filter call and no DB write. -/
theorem C11_user_tails_filter {σ : Type} (W : World σ) (sweep : Sweep) (known : List String)
    (s : Sys σ) (hashes : List String) (fetched : List Transaction) (s1 s2 : σ)
    (hfind : W.findTransactions none (some [sweep.bundleHash]) s.st = (.ok hashes, s1))
    (htrytes : W.getTrytes hashes s1 = (.ok fetched, s2)) :
    (removeKnown known fetched).map (fun tx => tx.hash) = specUserTails known fetched ∧
    (specUserTails known fetched ≠ [] →
      ∃ rest, (checkForUserReattachment W sweep known s).2.trace =
          s.trace ++ [.findTransactions none (some [sweep.bundleHash]), .getTrytes hashes,
            .filterConfirmedTails (specUserTails known fetched) none] ++ rest ∧
        ∀ e ∈ rest, e.isFilterConfirmed = false) ∧
    (specUserTails known fetched = [] →
      checkForUserReattachment W sweep known s =
        (.ok false, ⟨s2, s.trace ++ [.findTransactions none (some [sweep.bundleHash]),
          .getTrytes hashes]⟩)) := by
  have heq := userTails_eq_spec known fetched
  refine ⟨heq, fun hne => ?_, fun hnil => ?_⟩
  · rw [← heq] at hne ⊢
    have hlen : (removeKnown known fetched).length ≠ 0 := by
      intro h
      exact hne (by simp [List.length_eq_zero.mp h])
    simp only [checkForUserReattachment, Prog.bind_run, call, hfind, htrytes]
    rw [if_pos hlen]
    simp only [Prog.bind_run, call]
    rcases hf : W.filterConfirmedTails ((removeKnown known fetched).map (fun tx => tx.hash))
      none s2 with ⟨r3, s3⟩
    cases r3 with
    | error e => exact ⟨[], by simp [hf], by simp⟩
    | ok uc =>
      simp only [hf]
      by_cases hs : uc.size ≠ 0
      · rw [if_pos hs]
        cases hel : uc.elems with
        | nil => exact ⟨[], by simp [undefinedBehaviour], by simp⟩
        | cons t more =>
          simp only [Prog.bind_run, call]
          rcases hc : W.createTail sweep.id t s3 with ⟨rc, s4⟩
          cases rc with
          | error e =>
            exact ⟨[.createTail sweep.id t], by simp [hc], by simp [Event.isFilterConfirmed]⟩
          | ok u =>
            simp only [hc]
            rcases hm : W.markTailAsConfirmed t s4 with ⟨rm, s5⟩
            cases rm <;>
            exact ⟨[.createTail sweep.id t, .markTailAsConfirmed t],
              by simp [hm, Prog.pure_run], by simp [Event.isFilterConfirmed]⟩
      · rw [if_neg hs]
        simp only [Prog.bind_run, call]
        rcases hcs : W.filterConsistentTails
          ((removeKnown known fetched).map (fun tx => tx.hash)) s3 with ⟨r4, s4⟩
        cases r4 with
        | error e =>
          exact ⟨[.filterConsistentTails ((removeKnown known fetched).map (fun tx => tx.hash))],
            by simp [hcs], by simp [Event.isFilterConfirmed]⟩
        | ok cons =>
          simp only [hcs, List.append_assoc, List.cons_append, List.nil_append]
          by_cases hz : cons.size ≠ 0
          · rw [if_pos hz, Prog.bind_run]
            obtain ⟨evs, ht, hall⟩ := insertTails_trace W sweep.id cons.elems
              ⟨s4, s.trace ++ [.findTransactions none (some [sweep.bundleHash]),
                .getTrytes hashes,
                .filterConfirmedTails ((removeKnown known fetched).map (fun tx => tx.hash))
                  none,
                .filterConsistentTails
                  ((removeKnown known fetched).map (fun tx => tx.hash))]⟩
            rcases hi : insertTails W sweep.id cons.elems
              ⟨s4, s.trace ++ [.findTransactions none (some [sweep.bundleHash]),
                .getTrytes hashes,
                .filterConfirmedTails ((removeKnown known fetched).map (fun tx => tx.hash))
                  none,
                .filterConsistentTails
                  ((removeKnown known fetched).map (fun tx => tx.hash))]⟩ with ⟨o, s5⟩
            rw [hi] at ht
            simp only [hi]
            refine ⟨.filterConsistentTails
              ((removeKnown known fetched).map (fun tx => tx.hash)) :: evs, ?_, ?_⟩
            · cases o <;> simpa [Prog.pure_run] using ht
            · intro e he
              rcases List.mem_cons.mp he with rfl | he
              · rfl
              · have := hall e he
                cases e <;> simp_all [Event.isCreateTail, Event.isFilterConfirmed]
          · rw [if_neg hz]
            exact ⟨[.filterConsistentTails
              ((removeKnown known fetched).map (fun tx => tx.hash))],
              by simp [Prog.pure_run, Prog.bind_run], by simp [Event.isFilterConfirmed]⟩
  · rw [← heq] at hnil
    have hlen : ¬ (removeKnown known fetched).length ≠ 0 := by
      simp [List.map_eq_nil_iff.mp hnil]
    simp only [checkForUserReattachment, Prog.bind_run, call, hfind, htrytes]
    rw [if_neg hlen]
    simp [Prog.pure_run]

/-- Scenario 2 as an instance of C11: of the fetched `T1`, `U1` (tails) and `U1b` (index
1), with `T1` known, the user tails are `[U1]`. -/
theorem C11_user_tails_filter_witness :
    (removeKnown ["T1"] [bundleTx "T1" 0, bundleTx "U1" 0, bundleTx "U1b" 1]).map
        (fun tx => tx.hash) =
      specUserTails ["T1"] [bundleTx "T1" 0, bundleTx "U1" 0, bundleTx "U1b" 1] ∧
    (specUserTails ["T1"] [bundleTx "T1" 0, bundleTx "U1" 0, bundleTx "U1b" 1] ≠ [] →
      ∃ rest, (checkForUserReattachment userConfirmWorld sweepS1 ["T1"] ⟨(), []⟩).2.trace =
          [] ++ [.findTransactions none (some [sweepS1.bundleHash]),
            .getTrytes ["T1", "U1", "U1b"],
            .filterConfirmedTails
              (specUserTails ["T1"] [bundleTx "T1" 0, bundleTx "U1" 0, bundleTx "U1b" 1])
              none] ++ rest ∧
        ∀ e ∈ rest, e.isFilterConfirmed = false) ∧
    (specUserTails ["T1"] [bundleTx "T1" 0, bundleTx "U1" 0, bundleTx "U1b" 1] = [] →
      checkForUserReattachment userConfirmWorld sweepS1 ["T1"] ⟨(), []⟩ =
        (.ok false, ⟨(), [] ++ [.findTransactions none (some [sweepS1.bundleHash]),
          .getTrytes ["T1", "U1", "U1b"]]⟩)) :=
  C11_user_tails_filter userConfirmWorld sweepS1 ["T1"] ⟨(), []⟩ ["T1", "U1", "U1b"]
    [bundleTx "T1" 0, bundleTx "U1" 0, bundleTx "U1b" 1] () () rfl rfl

/-- Claim C12 (Step B, unconfirmed user reattachments).  Let the user tails be non-empty
and let `filterConfirmedTails` on them return the empty set.  Then Step B calls
`filterConsistentTails` on the user tails and, in the iteration order of the returned
set, `createTail(S.id, t)` for its elements `t`: the `createTail` calls are a prefix of
that sequence, and the whole of it unless a `createTail` raises.  No other DB write is
made and no tail is marked.  When no call raises Step B ends with `false`, and a
per-sweep protocol whose Steps A and B end with `false` goes on with Step C. -/
theorem C12_unconfirmed_user_tails {σ : Type} (W : World σ) (sweep : Sweep)
    (known : List String) (s : Sys σ) (hashes : List String) (fetched : List Transaction)
    (uconfirmed consistent : UnorderedSet) (s1 s2 s3 s4 : σ)
    (hfind : W.findTransactions none (some [sweep.bundleHash]) s.st = (.ok hashes, s1))
    (htrytes : W.getTrytes hashes s1 = (.ok fetched, s2))
    (huser : specUserTails known fetched ≠ [])
    (hfilter : W.filterConfirmedTails (specUserTails known fetched) none s2 =
      (.ok uconfirmed, s3))
    (hnone : uconfirmed.size = 0)
    (hcons : W.filterConsistentTails (specUserTails known fetched) s3 = (.ok consistent, s4)) :
    (∃ evs, (checkForUserReattachment W sweep known s).2.trace =
        s.trace ++ [.findTransactions none (some [sweep.bundleHash]), .getTrytes hashes,
          .filterConfirmedTails (specUserTails known fetched) none,
          .filterConsistentTails (specUserTails known fetched)] ++ evs ∧
      evs <+: consistent.elems.map (fun t => Event.createTail sweep.id t) ∧
      (((checkForUserReattachment W sweep known s).1 = .ok false ∧
          evs = consistent.elems.map (fun t => Event.createTail sweep.id t)) ∨
        ∃ e, (checkForUserReattachment W sweep known s).1 = .raise e)) ∧
    ∀ s0 sC : Sys σ, confirmationSteps W sweep s0 = (.ok false, sC) →
      perSweepProtocol W sweep s0 =
        (promoteOrReattach W sweep >>= fun _ => call .commit W.commit) sC := by
  refine ⟨?_, fun s0 sC h => perSweepProtocol_of_false W sweep s0 sC h⟩
  have heq := userTails_eq_spec known fetched
  rw [← heq] at huser hfilter hcons ⊢
  have hlen : (removeKnown known fetched).length ≠ 0 := by
    intro h
    exact huser (by simp [List.length_eq_zero.mp h])
  have hs : ¬ uconfirmed.size ≠ 0 := by omega
  simp only [checkForUserReattachment, Prog.bind_run, call, hfind, htrytes]
  rw [if_pos hlen]
  simp only [Prog.bind_run, call, hfilter]
  rw [if_neg hs]
  simp only [Prog.bind_run, call, hcons, List.append_assoc, List.cons_append, List.nil_append]
  by_cases hz : consistent.size ≠ 0
  · rw [if_pos hz, Prog.bind_run]
    obtain ⟨evs, ht, hpre, hout⟩ := insertTails_run W sweep.id consistent.elems
      ⟨s4, s.trace ++ [.findTransactions none (some [sweep.bundleHash]), .getTrytes hashes,
        .filterConfirmedTails ((removeKnown known fetched).map (fun tx => tx.hash)) none,
        .filterConsistentTails ((removeKnown known fetched).map (fun tx => tx.hash))]⟩
    rcases hi : insertTails W sweep.id consistent.elems
      ⟨s4, s.trace ++ [.findTransactions none (some [sweep.bundleHash]), .getTrytes hashes,
        .filterConfirmedTails ((removeKnown known fetched).map (fun tx => tx.hash)) none,
        .filterConsistentTails ((removeKnown known fetched).map (fun tx => tx.hash))]⟩
      with ⟨o, s5⟩
    rw [hi] at ht hout
    simp only [hi]
    refine ⟨evs, ?_, hpre, ?_⟩
    · cases o <;> simpa [Prog.pure_run] using ht
    · rcases hout with ⟨ho, hev⟩ | ⟨e, he⟩
      · simp only at ho
        subst ho
        exact Or.inl ⟨rfl, hev⟩
      · simp only at he
        subst he
        exact Or.inr ⟨e, rfl⟩
  · rw [if_neg hz]
    have hnil : consistent.elems = [] := by
      have : consistent.elems.length = 0 := by
        simpa [UnorderedSet.size] using hz
      exact List.length_eq_zero.mp this
    refine ⟨[], by simp [Prog.pure_run, Prog.bind_run], by simp [hnil], Or.inl ⟨?_, by simp [hnil]⟩⟩
    simp [Prog.pure_run, Prog.bind_run]

/-- Instance of C12: the unknown tails `U1` and `U2`, none confirmed, both consistent and
enumerated as `U2`, `U1`; the rows are inserted in that order. -/
theorem C12_unconfirmed_user_tails_witness :
    (∃ evs, (checkForUserReattachment userPendingWorld sweepS1 ["T1"] ⟨(), []⟩).2.trace =
        [] ++ [.findTransactions none (some [sweepS1.bundleHash]),
          .getTrytes ["T1", "U1", "U2"],
          .filterConfirmedTails
            (specUserTails ["T1"] [bundleTx "T1" 0, bundleTx "U1" 0, bundleTx "U2" 0]) none,
          .filterConsistentTails
            (specUserTails ["T1"] [bundleTx "T1" 0, bundleTx "U1" 0, bundleTx "U2" 0])] ++
          evs ∧
      evs <+: ["U2", "U1"].map (fun t => Event.createTail sweepS1.id t) ∧
      (((checkForUserReattachment userPendingWorld sweepS1 ["T1"] ⟨(), []⟩).1 = .ok false ∧
          evs = ["U2", "U1"].map (fun t => Event.createTail sweepS1.id t)) ∨
        ∃ e, (checkForUserReattachment userPendingWorld sweepS1 ["T1"] ⟨(), []⟩).1 =
          .raise e)) ∧
    ∀ s0 sC : Sys Unit, confirmationSteps userPendingWorld sweepS1 s0 = (.ok false, sC) →
      perSweepProtocol userPendingWorld sweepS1 s0 =
        (promoteOrReattach userPendingWorld sweepS1 >>= fun _ =>
          call .commit userPendingWorld.commit) sC :=
  C12_unconfirmed_user_tails userPendingWorld sweepS1 ["T1"] ⟨(), []⟩ ["T1", "U1", "U2"]
    [bundleTx "T1" 0, bundleTx "U1" 0, bundleTx "U2" 0] UnorderedSet.empty
    ⟨["U2", "U1"], by decide⟩ () () () () rfl rfl (by decide) rfl rfl rfl

/-- Claim C13, as stated, fails.  The ledger node breaks the subset contract: asked which
of the user-tails `[U1]` of sweep `S1` are confirmed, it answers with the hash `Z`.
Step B passes `Z` to `createTail` and to `markTailAsConfirmed`; `Z` is not an element of
the user-tails and no reattachment took place (there is no `performPOW` call).  The
observed run records the violation. -/
theorem C13_provenance_counterexample :
    (doTick (dbWorld strayLedgerWorld) ⟨(databaseS1, ()), []⟩).2.trace =
      [.getNodeInfo, .getUnconfirmedSweeps 0, .beginTransaction, .getTailsForSweep 1,
        .filterConfirmedTails ["T1"] none, .findTransactions none (some ["B"]),
        .getTrytes ["U1"], .filterConfirmedTails ["U1"] none, .createTail 1 "Z",
        .markTailAsConfirmed "Z", .commit, .releaseTransaction] ∧
    specUserTails ["T1"] [bundleTx "U1" 0] = ["U1"] ∧
    "Z" ∉ ["U1"] ∧
    (doTick (provenanceWorld strayLedgerWorld)
      ⟨((databaseS1, ()), Provenance.start), []⟩).2.st.2.violated = true := by
  refine ⟨?_, rfl, by decide, ?_⟩
  · rw [doTick_run (dbWorld strayLedgerWorld) ⟨(databaseS1, ()), []⟩ ⟨"M", 0, 0⟩ [sweepS1]
      (databaseS1, ()) (databaseS1, ()) rfl rfl, Prog.bind_run, processSweeps_one,
      Prog.bind_run]
    rfl
  · rw [doTick_run (provenanceWorld strayLedgerWorld)
      ⟨((databaseS1, ()), Provenance.start), []⟩ ⟨"M", 0, 0⟩ [sweepS1]
      ((databaseS1, ()), Provenance.start) ((databaseS1, ()), Provenance.start) rfl rfl,
      Prog.bind_run, processSweeps_one, Prog.bind_run]
    rfl

/-- Claim C13, amended.  Let the ledger answer `filterConfirmedTails` and
`filterConsistentTails` with subsets of the tails asked about, and let the tick run over
the database model with its calls under observation, from a state in which no violation
is recorded.  Then none is recorded at the end of the tick: each hash passed to
`createTail` was an element of the user-tails of Step B or `digest(attached[0])` of the
reattachment in progress, and each hash passed to `markTailAsConfirmed` was in
`sweep_tails`, as seen inside the transaction, at the time of the call.  The observed
tick is the tick over the database model (same outcome, same calls, same database), and a
recorded violation is never cleared. -/
theorem C13_provenance_under_subset_contract {τ : Type} (R : World τ)
    (hconfirmed : SubsetContract R) (hconsistent : ConsistentSubsetContract R)
    (s : Sys (Watched τ)) (hstart : NoViolation s.st) :
    NoViolation (doTick (provenanceWorld R) s).2.st ∧
    SameRun (doTick (provenanceWorld R)) (doTick (dbWorld R)) ∧
    ∀ s0 : Sys (Watched τ), s0.st.2.violated = true →
      (doTick (provenanceWorld R) s0).2.st.2.violated = true :=
  ⟨doTick_provenance R hconfirmed hconsistent s hstart, doTick_sameRun R,
    fun s0 h0 => doTick_violation_stays R s0 h0⟩

/-- Instance of the amended C13: the ledger reports the user tail `H` of sweep 2 as
confirmed, within the subset contract; Step B inserts and marks `H`, and no violation is
recorded. -/
theorem C13_provenance_under_subset_contract_witness :
    NoViolation (doTick (provenanceWorld sharedHashWorld)
      (⟨((sharedHashDatabase, ()), Provenance.start), []⟩ : Sys (Watched Unit))).2.st ∧
    SameRun (doTick (provenanceWorld sharedHashWorld)) (doTick (dbWorld sharedHashWorld)) ∧
    ∀ s0 : Sys (Watched Unit), s0.st.2.violated = true →
      (doTick (provenanceWorld sharedHashWorld) s0).2.st.2.violated = true :=
  C13_provenance_under_subset_contract sharedHashWorld sharedHashWorld_subset
    sharedHashWorld_consistentSubset ⟨((sharedHashDatabase, ()), Provenance.start), []⟩ rfl

/-- Claim C14, as stated, fails.  `getNodeInfo`, `getUnconfirmedSweeps` and
`connection.transaction()` are called outside the `try` block of `doTick`: when one of
them raises an exception, the exception leaves `doTick`.  Inside the `try` block, a thrown
object that is not derived from `std::exception`, here an `int` thrown by
`storeTransactions`, passes both handlers and leaves `doTick` as well. -/
theorem C14_exception_escapes_counterexample :
    exceptInt "LedgerUnavailable" = true ∧ exceptInt "DBTransient" = true ∧
    exceptInt "int" = false ∧
    AnyThrowable.doTick exceptInt nodeInfoFailsWorld ⟨(), []⟩ =
      (.raise "LedgerUnavailable", ⟨(), [.getNodeInfo]⟩) ∧
    AnyThrowable.doTick exceptInt sweepQueryFailsWorld ⟨(), []⟩ =
      (.raise "DBTransient", ⟨(), [.getNodeInfo, .getUnconfirmedSweeps 0]⟩) ∧
    AnyThrowable.doTick exceptInt beginFailsWorld ⟨(), []⟩ =
      (.raise "DBTransient",
        ⟨(), [.getNodeInfo, .getUnconfirmedSweeps 0, .beginTransaction]⟩) ∧
    (AnyThrowable.doTick exceptInt intThrowingWorld ⟨(), []⟩).1 = .raise "int" := by
  refine ⟨by decide, by decide, by decide, rfl, rfl, ?_, ?_⟩
  · rw [anyThrowable_doTick_run exceptInt beginFailsWorld ⟨(), []⟩ ⟨"M", 0, 0⟩ [sweepS1]
      () () rfl rfl]
    rfl
  · rw [anyThrowable_doTick_run exceptInt intThrowingWorld ⟨(), []⟩ ⟨"M", 0, 0⟩
      [sweepS1, sweepS2] () () rfl rfl]
    rfl

/-- Claim C14, amended.  For every behaviour of the ledger client, the POW provider and
the database gateway in which `getNodeInfo`, `getUnconfirmedSweeps` and every
begin-transaction call return, `doTick` propagates no exception derived from
`std::exception`: whatever such exception is raised by the per-sweep protocol, by
`commit` or by `rollback` is caught.  `doTick` returns `true` unless the process is
aborted by `LOG(FATAL)`, the behaviour is undefined, or a thrown object that is not
derived from `std::exception` passes the handlers; so when nothing but exceptions is
thrown, nothing is propagated. -/
theorem C14_exceptions_in_try_are_caught {σ : Type} (isException : String → Bool)
    (W : World σ) (s : Sys σ)
    (info : NodeInfo) (sweeps : List Sweep) (s1 s2 : σ)
    (hinfo : W.getNodeInfo s.st = (.ok info, s1))
    (hsweeps : W.getUnconfirmedSweeps (W.now s.st) s1 = (.ok sweeps, s2))
    (hbegin : ∀ st, ∃ st1, W.transaction st = (.ok (), st1)) :
    (∀ e, isException e = true → (AnyThrowable.doTick isException W s).1 ≠ .raise e) ∧
    ((AnyThrowable.doTick isException W s).1 = .ok true ∨
      (AnyThrowable.doTick isException W s).1 = .fatal ∨
      (AnyThrowable.doTick isException W s).1 = .undef ∨
      ∃ e, (AnyThrowable.doTick isException W s).1 = .raise e ∧ isException e = false) ∧
    ((∀ e, isException e = true) →
      (AnyThrowable.doTick isException W s).1 = .ok true ∨
        (AnyThrowable.doTick isException W s).1 = .fatal ∨
        (AnyThrowable.doTick isException W s).1 = .undef) := by
  have hrun := anyThrowable_doTick_run isException W s info sweeps s1 s2 hinfo hsweeps
  have hne := processSweeps_raise_not_exception isException W hbegin sweeps
    ⟨s2, s.trace ++ [.getNodeInfo, .getUnconfirmedSweeps (W.now s.st)]⟩
  have hcases : (AnyThrowable.doTick isException W s).1 = .ok true ∨
      (AnyThrowable.doTick isException W s).1 = .fatal ∨
      (AnyThrowable.doTick isException W s).1 = .undef ∨
      ∃ e, (AnyThrowable.doTick isException W s).1 = .raise e ∧ isException e = false := by
    rw [hrun]
    rcases hp : AnyThrowable.processSweeps isException W sweeps
      ⟨s2, s.trace ++ [.getNodeInfo, .getUnconfirmedSweeps (W.now s.st)]⟩ with ⟨r, sF⟩
    rw [hp] at hne
    cases r with
    | ok a => simp [Prog.bind_run, hp, Prog.pure_run]
    | raise e => simpa [Prog.bind_run, hp] using hne e rfl
    | fatal => simp [Prog.bind_run, hp]
    | undef => simp [Prog.bind_run, hp]
  refine ⟨fun e he hr => ?_, hcases, fun hall => ?_⟩
  · rcases hcases with h | h | h | ⟨e1, h, h1⟩
    · rw [h] at hr
      cases hr
    · rw [h] at hr
      cases hr
    · rw [h] at hr
      cases hr
    · rw [h] at hr
      cases hr
      rw [he] at h1
      cases h1
  · rcases hcases with h | h | h | ⟨e1, _, h1⟩
    · exact Or.inl h
    · exact Or.inr (Or.inl h)
    · exact Or.inr (Or.inr h)
    · rw [hall e1] at h1
      cases h1

/-- Instance of the amended C14: two sweeps whose publication raises an exception and
whose rollback raises an exception as well; nothing leaves `doTick`. -/
theorem C14_exceptions_in_try_are_caught_witness :
    (∀ e, exceptInt e = true →
      (AnyThrowable.doTick exceptInt failingWorld ⟨(), []⟩).1 ≠ .raise e) ∧
    ((AnyThrowable.doTick exceptInt failingWorld ⟨(), []⟩).1 = .ok true ∨
      (AnyThrowable.doTick exceptInt failingWorld ⟨(), []⟩).1 = .fatal ∨
      (AnyThrowable.doTick exceptInt failingWorld ⟨(), []⟩).1 = .undef ∨
      ∃ e, (AnyThrowable.doTick exceptInt failingWorld ⟨(), []⟩).1 = .raise e ∧
        exceptInt e = false) ∧
    ((∀ e, exceptInt e = true) →
      (AnyThrowable.doTick exceptInt failingWorld ⟨(), []⟩).1 = .ok true ∨
        (AnyThrowable.doTick exceptInt failingWorld ⟨(), []⟩).1 = .fatal ∨
        (AnyThrowable.doTick exceptInt failingWorld ⟨(), []⟩).1 = .undef) :=
  C14_exceptions_in_try_are_caught exceptInt failingWorld ⟨(), []⟩ ⟨"M", 0, 0⟩
    [sweepS1, sweepS2] () () rfl rfl (fun _ => ⟨(), rfl⟩)

/-- Claim C16, as stated, fails.  In two runs the ledger reports the same two user tails
as confirmed; the returned sets have the same contents and iterate in different orders.
Step B takes the element at `cbegin()`: the first run inserts and marks `U1`, the second
`U2`. -/
theorem C16_deterministic_choice_counterexample :
    (∀ x, x ∈ ["U1", "U2"] ↔ x ∈ ["U2", "U1"]) ∧
    (checkForUserReattachment twoConfirmedWorldA sweepS1 ["T1"] ⟨(), []⟩).2.trace =
      [.findTransactions none (some ["B"]), .getTrytes ["U1", "U2"],
        .filterConfirmedTails ["U1", "U2"] none, .createTail 1 "U1",
        .markTailAsConfirmed "U1"] ∧
    (checkForUserReattachment twoConfirmedWorldB sweepS1 ["T1"] ⟨(), []⟩).2.trace =
      [.findTransactions none (some ["B"]), .getTrytes ["U1", "U2"],
        .filterConfirmedTails ["U1", "U2"] none, .createTail 1 "U2",
        .markTailAsConfirmed "U2"] := by
  refine ⟨fun x => ?_, rfl, rfl⟩
  simp only [List.mem_cons, List.mem_singleton, List.not_mem_nil, or_false]
  exact Or.comm

/-- Claim C16, amended.  The tail that Step B inserts and marks is the first element in
the iteration order of the set returned by `filterConfirmedTails`.  So for any two runs
in which the returned sets iterate in the same order, or have the same contents and one
element, the same tail is chosen: it is the hash of the `createTail` call that follows the
filter call in both runs, after which only `markTailAsConfirmed` of that hash is
called. -/
theorem C16_choice_follows_iteration_order {σ1 σ2 : Type} (W1 : World σ1) (W2 : World σ2)
    (sweep : Sweep) (known1 known2 : List String) (r1 : Sys σ1) (r2 : Sys σ2)
    (hashes1 hashes2 : List String) (fetched1 fetched2 : List Transaction)
    (c1 c2 : UnorderedSet) (t1 t2 : String) (more1 more2 : List String)
    (a1 a2 a3 : σ1) (b1 b2 b3 : σ2)
    (hfind1 : W1.findTransactions none (some [sweep.bundleHash]) r1.st = (.ok hashes1, a1))
    (htrytes1 : W1.getTrytes hashes1 a1 = (.ok fetched1, a2))
    (huser1 : specUserTails known1 fetched1 ≠ [])
    (hfilter1 : W1.filterConfirmedTails (specUserTails known1 fetched1) none a2 = (.ok c1, a3))
    (helems1 : c1.elems = t1 :: more1)
    (hfind2 : W2.findTransactions none (some [sweep.bundleHash]) r2.st = (.ok hashes2, b1))
    (htrytes2 : W2.getTrytes hashes2 b1 = (.ok fetched2, b2))
    (huser2 : specUserTails known2 fetched2 ≠ [])
    (hfilter2 : W2.filterConfirmedTails (specUserTails known2 fetched2) none b2 = (.ok c2, b3))
    (helems2 : c2.elems = t2 :: more2)
    (hsame : c1.elems = c2.elems ∨ ((∀ x, x ∈ c1.elems ↔ x ∈ c2.elems) ∧ c1.size = 1)) :
    t1 = t2 ∧
    (∃ rest, (checkForUserReattachment W1 sweep known1 r1).2.trace =
        r1.trace ++ [.findTransactions none (some [sweep.bundleHash]), .getTrytes hashes1,
          .filterConfirmedTails (specUserTails known1 fetched1) none,
          .createTail sweep.id t1] ++ rest ∧
      rest <+: [.markTailAsConfirmed t1]) ∧
    (∃ rest, (checkForUserReattachment W2 sweep known2 r2).2.trace =
        r2.trace ++ [.findTransactions none (some [sweep.bundleHash]), .getTrytes hashes2,
          .filterConfirmedTails (specUserTails known2 fetched2) none,
          .createTail sweep.id t2] ++ rest ∧
      rest <+: [.markTailAsConfirmed t2]) := by
  refine ⟨?_, stepB_confirmed_trace W1 sweep known1 r1 hashes1 fetched1 c1 t1 more1 a1 a2 a3
      hfind1 htrytes1 huser1 hfilter1 helems1,
    stepB_confirmed_trace W2 sweep known2 r2 hashes2 fetched2 c2 t2 more2 b1 b2 b3
      hfind2 htrytes2 huser2 hfilter2 helems2⟩
  rcases hsame with h | ⟨h, hone⟩
  · rw [helems1, helems2] at h
    exact (List.cons.inj h).1
  · have hm : more1 = [] := by
      have : (t1 :: more1).length = 1 := by rw [← helems1]; exact hone
      simpa using this
    have h2 : t2 ∈ c1.elems := (h t2).mpr (by rw [helems2]; exact List.mem_cons_self _ _)
    rw [helems1, hm] at h2
    exact (List.mem_singleton.mp h2).symm

/-- Instance of the amended C16: two runs against the same ledger choose the same
tail. -/
theorem C16_choice_follows_iteration_order_witness :
    "U1" = "U1" ∧
    (∃ rest, (checkForUserReattachment twoConfirmedWorldA sweepS1 ["T1"] ⟨(), []⟩).2.trace =
        [] ++ [.findTransactions none (some [sweepS1.bundleHash]), .getTrytes ["U1", "U2"],
          .filterConfirmedTails
            (specUserTails ["T1"] [bundleTx "U1" 0, bundleTx "U2" 0]) none,
          .createTail sweepS1.id "U1"] ++ rest ∧
      rest <+: [.markTailAsConfirmed "U1"]) ∧
    (∃ rest, (checkForUserReattachment twoConfirmedWorldA sweepS1 ["T0"]
          ⟨(), [.getNodeInfo]⟩).2.trace =
        [.getNodeInfo] ++ [.findTransactions none (some [sweepS1.bundleHash]),
          .getTrytes ["U1", "U2"],
          .filterConfirmedTails
            (specUserTails ["T0"] [bundleTx "U1" 0, bundleTx "U2" 0]) none,
          .createTail sweepS1.id "U1"] ++ rest ∧
      rest <+: [.markTailAsConfirmed "U1"]) :=
  C16_choice_follows_iteration_order twoConfirmedWorldA twoConfirmedWorldA sweepS1 ["T1"]
    ["T0"] ⟨(), []⟩ ⟨(), [.getNodeInfo]⟩ ["U1", "U2"] ["U1", "U2"]
    [bundleTx "U1" 0, bundleTx "U2" 0] [bundleTx "U1" 0, bundleTx "U2" 0]
    ⟨["U1", "U2"], by decide⟩ ⟨["U1", "U2"], by decide⟩ "U1" "U1" ["U2"] ["U2"]
    () () () () () ()
    rfl rfl (by decide) rfl rfl rfl rfl (by decide) rfl rfl (Or.inl rfl)

/-- Claim C17 (tails discovered in Step B are candidates in Step C), over the database
model and a ledger that answers `filterConsistentTails` according to a fixed consistency
of each tail.  Let Step B return `false` after inserting the user tail `u` with
`createTail`, and let the re-read of the tails and the filter call of Step C return.
Then `u` is among the re-read tails and in the consistent set, which is therefore not
empty; the `std::find_if` finds a tail `t`, and Step C is the promotion of `t`: after
`getTransactionsToApprove(0, t)` neither `performPOW` nor `createTail` is called. -/
theorem C17_user_tails_are_candidates {τ : Type} (R : World τ)
    (isConsistent : String → Bool) (sweep : Sweep) (known : List String)
    (s sB : Sys (Database × τ)) (u : String) (known1 : List String)
    (consistent1 : UnorderedSet) (s1 s2 : Database × τ)
    (hledger : ConsistencyOracle R isConsistent)
    (hB : checkForUserReattachment (dbWorld R) sweep known s = (.ok false, sB))
    (hu : Event.createTail sweep.id u ∈ sB.trace.drop s.trace.length)
    (hread : (dbWorld R).getTailsForSweep sweep.id sB.st = (.ok known1, s1))
    (hcons : (dbWorld R).filterConsistentTails known1 s1 = (.ok consistent1, s2)) :
    u ∈ known1 ∧ u ∈ consistent1.elems ∧ 0 < consistent1.size ∧
    ∃ t, toPromote known1 consistent1 = some t ∧
      promoteOrReattach (dbWorld R) sweep sB =
        promoteSweep (dbWorld R) sweep t
          ⟨s2, sB.trace ++ [.getTailsForSweep sweep.id, .filterConsistentTails known1]⟩ ∧
      ∃ rest, (promoteOrReattach (dbWorld R) sweep sB).2.trace =
          sB.trace ++ [.getTailsForSweep sweep.id, .filterConsistentTails known1,
            .getTransactionsToApprove 0 (some t)] ++ rest ∧
        ∀ e ∈ rest, e.isPerformPOW = false ∧ e.isCreateTail = false := by
  -- what Step B did
  have hstepB : isConsistent u = true ∧ HasRow sB.st.1.working sweep.id u := by
    rcases checkForUserReattachment_false_run (dbWorld R) sweep known s sB hB with
      ⟨hashes, htr⟩ | ⟨hashes, ut, st3, cons, st4, hfc, hins⟩
    · rw [htr] at hu
      simp at hu
    · obtain ⟨htr, hrows, _⟩ := insertTails_db R sweep.id cons.elems _ sB hins
      rw [htr] at hu
      simp only [List.append_assoc, List.drop_left, List.mem_append, List.mem_cons,
        List.mem_map, List.not_mem_nil, or_false, reduceCtorEq, false_or, Event.createTail.injEq,
        List.mem_singleton] at hu
      obtain ⟨x, hx, _, hxu⟩ := hu
      subst hxu
      have hfc1 : remoteCall (R.filterConsistentTails ut) st3 = (.ok cons, st4) := hfc
      exact ⟨(hledger ut st3.2 cons st4.2 (remoteCall_eq hfc1).1).1 x hx, hrows x hx⟩
  -- the re-read
  have hread1 : dbCall (R.getTailsForSweep sweep.id)
      (fun db => (.ok (db.getTailsForSweep sweep.id), db)) sB.st = (.ok known1, s1) := hread
  have hrun := dbCall_ok hread1
  simp only [Prod.mk.injEq, Except.ok.injEq] at hrun
  have hk : u ∈ known1 := by
    rw [← hrun.1]
    exact mem_getTailsForSweep _ _ _ hstepB.2
  have hcons1 : remoteCall (R.filterConsistentTails known1) s1 = (.ok consistent1, s2) := hcons
  have hc : u ∈ consistent1.elems :=
    (hledger known1 s1.2 consistent1 s2.2 (remoteCall_eq hcons1).1).2 u hk hstepB.1
  have hpos : 0 < consistent1.size := by
    unfold UnorderedSet.size
    exact List.length_pos_of_mem hc
  have hfind : ∃ t, toPromote known1 consistent1 = some t := by
    cases ht : toPromote known1 consistent1 with
    | some t => exact ⟨t, rfl⟩
    | none =>
      unfold toPromote at ht
      have := List.find?_eq_none.mp ht u hk
      simp [UnorderedSet.contains, hc] at this
  obtain ⟨t, ht⟩ := hfind
  have hrun2 : promoteOrReattach (dbWorld R) sweep sB =
      promoteSweep (dbWorld R) sweep t
        ⟨s2, sB.trace ++ [.getTailsForSweep sweep.id, .filterConsistentTails known1]⟩ := by
    simp only [promoteOrReattach, Prog.bind_run, call, hread, hcons, List.append_assoc,
      List.cons_append, List.nil_append]
    rw [if_pos hpos]
    simp only [ht]
  refine ⟨hk, hc, hpos, t, ht, hrun2, ?_⟩
  obtain ⟨rest, hrest, hall⟩ := promoteSweep_not_reattach (dbWorld R) sweep t
    ⟨s2, sB.trace ++ [.getTailsForSweep sweep.id, .filterConsistentTails known1]⟩
  exact ⟨rest, by rw [hrun2, hrest]; simp, hall⟩

/-- Instance of C17: the bundle of sweep `S1` has the unknown tails `U1` and `U2` on the
ledger, both consistent and none confirmed; Step B inserts them and Step C promotes `U2`,
the first of the re-read tails `[T1, U2, U1]` that is consistent. -/
theorem C17_user_tails_are_candidates_witness :
    "U2" ∈ ["T1", "U2", "U1"] ∧
    "U2" ∈ (⟨["U2", "U1"], by decide⟩ : UnorderedSet).elems ∧
    0 < (⟨["U2", "U1"], by decide⟩ : UnorderedSet).size ∧
    ∃ t, toPromote ["T1", "U2", "U1"] ⟨["U2", "U1"], by decide⟩ = some t ∧
      promoteOrReattach (dbWorld userPendingWorld) sweepS1 userPendingAfterStepB =
        promoteSweep (dbWorld userPendingWorld) sweepS1 t
          ⟨userPendingAfterStepB.st, userPendingAfterStepB.trace ++
            [.getTailsForSweep sweepS1.id, .filterConsistentTails ["T1", "U2", "U1"]]⟩ ∧
      ∃ rest, (promoteOrReattach (dbWorld userPendingWorld) sweepS1
            userPendingAfterStepB).2.trace =
          userPendingAfterStepB.trace ++ [.getTailsForSweep sweepS1.id,
            .filterConsistentTails ["T1", "U2", "U1"],
            .getTransactionsToApprove 0 (some t)] ++ rest ∧
        ∀ e ∈ rest, e.isPerformPOW = false ∧ e.isCreateTail = false :=
  C17_user_tails_are_candidates userPendingWorld (fun x => x == "U1" || x == "U2") sweepS1
    ["T1"] ⟨(databaseS1, ()), []⟩ userPendingAfterStepB "U2" ["T1", "U2", "U1"]
    ⟨["U2", "U1"], by decide⟩ userPendingAfterStepB.st userPendingAfterStepB.st
    userPendingWorld_oracle rfl (by decide) rfl rfl

/-- Claim C19 (the promotion target always exists).  When the set returned by
`filterConsistentTails` on the re-read tails is non-empty and a subset of them, the
`std::find_if` of `doTick` finds a tail: the end-of-list case, whose dereference is
undefined, is not reached, the tail found is a member of the re-read tails and of the
consistent set, and it is the tail handed to `promoteSweep`. -/
theorem C19_promotion_target_exists {σ : Type} (W : World σ) (sweep : Sweep) (s : Sys σ)
    (known : List String) (consistent : UnorderedSet) (s1 s2 : σ)
    (hknown : W.getTailsForSweep sweep.id s.st = (.ok known, s1))
    (hcons : W.filterConsistentTails known s1 = (.ok consistent, s2))
    (hne : 0 < consistent.size)
    (hsub : ∀ x ∈ consistent.elems, x ∈ known) :
    ∃ t, toPromote known consistent = some t ∧ t ∈ known ∧ t ∈ consistent.elems ∧
      promoteOrReattach W sweep s =
        promoteSweep W sweep t
          ⟨s2, s.trace ++ [.getTailsForSweep sweep.id, .filterConsistentTails known]⟩ := by
  cases hfind : toPromote known consistent with
  | none =>
    exfalso
    unfold toPromote at hfind
    rw [List.find?_eq_none] at hfind
    cases hel : consistent.elems with
    | nil => simp [UnorderedSet.size, hel] at hne
    | cons x rest =>
      have hx : x ∈ consistent.elems := by rw [hel]; exact List.mem_cons_self _ _
      exact hfind x (hsub x hx) (by simp [UnorderedSet.contains, hx])
  | some t =>
    have hmem : t ∈ known := List.mem_of_find?_eq_some hfind
    have hp : consistent.contains t = true := List.find?_some hfind
    refine ⟨t, rfl, hmem, by simpa [UnorderedSet.contains] using hp, ?_⟩
    have hsize : consistent.size > 0 := hne
    simp only [promoteOrReattach, Prog.bind_run, call, hknown, hcons, hsize, if_true, hfind,
      List.append_assoc, List.cons_append, List.nil_append]

/-- Scenario 3 as an instance of C19: `T1` is found and promoted. -/
theorem C19_promotion_target_exists_witness :
    ∃ t, toPromote ["T1"] ⟨["T1"], by decide⟩ = some t ∧ t ∈ ["T1"] ∧ t ∈ ["T1"] ∧
      promoteOrReattach promoteWorld sweepS1 ⟨(), []⟩ =
        promoteSweep promoteWorld sweepS1 t
          ⟨(), [] ++ [.getTailsForSweep sweepS1.id, .filterConsistentTails ["T1"]]⟩ :=
  C19_promotion_target_exists promoteWorld sweepS1 ⟨(), []⟩ ["T1"] ⟨["T1"], by decide⟩ () ()
    rfl rfl (by decide) (by simp)

end hub
